import Mathlib

/-! # The fastboot action-queue engine (`engine.cpp`) and the large-zip header reader (`htczip.cpp`)

A shallow embedding of the queue engine of `thc_fastboot`:

* C strings are lists of characters (the bytes before the terminating NUL);
* the singly linked action list `action_list .. action_last` is the list of its nodes in link
  order: `queue_action` is the only writer of `next`, and it links the new node behind
  `action_last`, so link order is allocation order and `a->next` is the next list position;
* `die` and reads outside an array end the computation with a `Fault`, in the state reached
  by then;
* the transport, the clock, the file system and the ZIP decoder are an environment `Env` of
  deterministic oracles; every call into it is recorded in the log of the state.
-/

namespace Fastboot

/-! ## C strings -/

/-- The content of a NUL-terminated C string: its characters before the terminator. -/
abbrev CStr := List Char

/-- The string `strlen` measures. -/
def strlen (s : CStr) : Nat := s.length

/-- The comparison `strcmp(a, b)`: zero when equal, else negative or positive by the first
mismatch, where the end of a string is its terminator and compares below every character. C
fixes only the sign of a result other than zero; the model returns `-1` or `1`. -/
def strcmp : CStr → CStr → Int
  | [], [] => 0
  | [], _ :: _ => -1
  | _ :: _, [] => 1
  | a :: as, b :: bs => if a = b then strcmp as bs else if a.toNat < b.toNat then -1 else 1

/-- The comparison `strncmp(a, b, n)`: like `strcmp`, over at most `n` characters. -/
def strncmp : CStr → CStr → Nat → Int
  | _, _, 0 => 0
  | [], [], _ + 1 => 0
  | [], _ :: _, _ + 1 => -1
  | _ :: _, [], _ + 1 => 1
  | a :: as, b :: bs, n + 1 =>
    if a = b then strncmp as bs n else if a.toNat < b.toNat then -1 else 1

/-- The search `strstr(hay, needle) != NULL`: some suffix of `hay` starts with `needle`. -/
def strstr_found : CStr → CStr → Bool
  | [], needle => needle.isEmpty
  | h :: hs, needle => needle.isPrefixOf (h :: hs) || strstr_found hs needle

/-- The C negation `!x` of an `int`. -/
def lnot (x : Int) : Int := if x = 0 then 1 else 0

/-- Conversion of an integer to `uint32_t` / `unsigned`. -/
def to_uint32 (x : Int) : Nat := (x % 4294967296).toNat

/-- Conversion of an integer to a 32-bit `int`. -/
def to_int32 (x : Int) : Int := (x + 2147483648) % 4294967296 - 2147483648

/-- The text `printf("%d", n)` produces. -/
def fmt_d (n : Int) : CStr :=
  if n < 0 then '-' :: Nat.toDigits 10 n.natAbs else Nat.toDigits 10 n.natAbs

/-! ## Faults, messages -/

/-- An argument of a `printf`-style call. -/
inductive Arg where
  | str (s : CStr)
  | int (n : Int)
  | time (t : Int)
  deriving DecidableEq, Repr

/-- A `printf`-style text: the format and its arguments (`mkmsg`, `fprintf(stderr, ..)`,
`die`). -/
structure Msg where
  fmt : CStr
  args : List Arg
  deriving DecidableEq, Repr

/-- How a computation ends without a result. -/
inductive Fault where
  /-- The call `die(fmt, ..)`: fatal termination of the process. -/
  | die (m : Msg)
  /-- A read or write outside an object: undefined behaviour in the source. -/
  | undefined (what : CStr)
  deriving DecidableEq, Repr

/-! ## The matcher -/

/-- The loop of `match` from index `n`, with `rem = count - n` iterations left. `value[n]`
outside the array is a fault. -/
def match_loop (str : CStr) (value : List CStr) : Nat → Nat → Except Fault Int
  | 0, _ => .ok 0
  | rem + 1, n =>
    match value[n]? with
    | none => .error (.undefined "value[n]".toList)
    | some val =>
      let len := strlen val
      let m : Int :=
        if 1 < len ∧ val[len - 1]? = some '*' then
          lnot (strncmp val str (len - 1))
        else
          lnot (strcmp val str)
      if m ≠ 0 then .ok 1 else match_loop str value rem (n + 1)

/-- The function `match(str, value, count)`. -/
def «match» (str : CStr) (value : List CStr) (count : Nat) : Except Fault Int :=
  match_loop str value count 0

/-! ## Actions -/

def OP_DOWNLOAD : Nat := 1
def OP_COMMAND : Nat := 2
def OP_QUERY : Nat := 3
def OP_NOTICE : Nat := 4
def OP_DOWNLOAD_SPARSE : Nat := 5
def OP_WAIT_FOR_DISCONNECT : Nat := 6

/-- The size of the `cmd` slot of an action. -/
def CMD_SIZE : Nat := 64

/-- What the `data` pointer of an action points to. -/
inductive Data where
  | null
  /-- A byte buffer to download. -/
  | bytes (b : List Char)
  /-- A `sparse_file` handle. -/
  | sparse (id : Nat)
  /-- The array `const char** value` of a requirement. -/
  | values (v : List CStr)
  /-- A C string (`strdup(prettyname)`, a notice). -/
  | text (s : CStr)
  /-- The destination `char` array of `fb_queue_query_save`, by its address. -/
  | dest (addr : Nat)
  deriving DecidableEq, Repr

/-- The functions stored in `Action::func`. -/
inductive Callback where
  | cb_default
  | cb_require
  | cb_reject
  | cb_multizip_check
  | cb_largezip_check
  | cb_display
  | cb_save
  | cb_do_nothing
  deriving DecidableEq, Repr

/-- The record `struct Action`; `next` is the position in the queue. -/
structure Action where
  op : Nat
  cmd : CStr
  prod : Option CStr
  data : Data
  /-- A `uint32_t`. -/
  size : Nat
  msg : Option Msg
  func : Callback
  /-- A `double` time reading, abstracted to an integer number of clock units. -/
  start : Int
  deriving DecidableEq, Repr

/-! ## The compound-image state -/

/-- The fields of `htc_largezip_header_t` the engine reads. -/
structure htc_largezip_header_t where
  magic : List Char
  starts : List Int
  lengths : List Int
  deriving DecidableEq, Repr

/-- What `htczip.h` declares (the header is not part of the sources): the magic string, the
size of the header record, the layout that turns the raw bytes of a record into its fields,
and with it what a record holds after bytes were stored over its beginning. -/
structure HtcZipDecl where
  HTC_LARGEZIP_HEADER_MAGIC : CStr
  sizeof_header : Nat
  layout : List Char → htc_largezip_header_t
  /-- The record `h` after `b`, fewer bytes than a full record, were stored at its start. -/
  store : htc_largezip_header_t → List Char → htc_largezip_header_t

/-- An opened `ZipArchiveHandle`: the entries of the archive and whether it is still open. -/
structure ZipArchive where
  entries : List (CStr × List Char)
  is_open : Bool
  deriving DecidableEq, Repr

/-- The record `struct htc_zip` (the global `zip_info`). -/
structure htc_zip where
  zip_type : Int
  current_flash : Int
  open_fd : Int
  zip : Option ZipArchive
  /-- The buffer `current_data` owns, `none` for `NULL`. -/
  current_data : Option (List Char)
  largezip : htc_largezip_header_t
  deriving DecidableEq, Repr

/-! ## The environment and the state -/

/-- A call that leaves the engine: to the transport or to the operating system. The first
argument of a transport call is the transport handle it is made on. -/
inductive Event where
  | fb_download_data (t : Nat) (data : Data) (size : Nat)
  | fb_command (t : Nat) (cmd : CStr)
  | fb_command_response (t : Nat) (cmd : CStr)
  | fb_download_data_sparse (t : Nat) (data : Data)
  | WaitForDisconnect (t : Nat)
  | reopen_device
  | sleep (seconds : Nat)
  | sys_open (fname : CStr)
  | sys_close (fd : Int)
  | CloseArchive
  deriving DecidableEq, Repr

/-- An entry of the log: a call that leaves the engine, a line on `stderr`, and two marks of
the walk: the loop body is entered for queue position `i`, the callback of position `i`
returned `status`. -/
inductive Obs where
  | call (e : Event)
  | print (m : Msg)
  /-- The line `<msg>...` the walk prints before it dispatches an action with a message. -/
  | message (m : Msg)
  | visit (i : Nat)
  | ret (i : Nat) (status : Int)
  deriving DecidableEq, Repr

/-- What the transport answers to a request: the status, the response text written to the
response buffer, and the text `fb_get_error()` returns afterwards. -/
structure Reply where
  status : Int
  resp : CStr
  error : CStr
  deriving DecidableEq, Repr

/-- A descriptor of a file opened for reading. -/
structure OpenFile where
  bytes : List Char
  pos : Nat
  deriving DecidableEq, Repr

/-- The world outside `engine.cpp`. -/
structure Env where
  /-- The global `cur_product`. -/
  cur_product : CStr
  /-- The `n`-th reading of `now()`. -/
  now : Nat → Int
  /-- The answer of the transport to a request, given the calls made before it. -/
  device : List Event → Event → Reply
  /-- The handle `reopen_device()` returns, given the calls made before it. -/
  reopen_device : List Event → Nat
  /-- The regular files `open(fname, O_RDONLY)` finds. -/
  files : CStr → Option (List Char)
  /-- The ZIP decoder behind `OpenArchiveFd`: the entries of a well-formed archive. -/
  unzip : List Char → Option (List (CStr × List Char))
  /-- The declarations of `htczip.h`. -/
  decl : HtcZipDecl

/-- The globals of `engine.cpp` and the state of the world around it. -/
structure State where
  /-- The nodes from `action_list` to `action_last`, in link order. -/
  queue : List Action
  zip_info : htc_zip
  restart_usb : Int
  /-- The open descriptors of the process. -/
  fds : List (Int × OpenFile)
  /-- The number of `now()` readings taken. -/
  clock : Nat
  /-- The `char` arrays of the caller that `fb_queue_query_save` was given, by address. -/
  mem : List (Nat × List Char)
  log : List Obs
  deriving DecidableEq, Repr

/-- The calls of a log, oldest first. -/
def events (log : List Obs) : List Event :=
  log.filterMap fun o => match o with
    | .call e => some e
    | _ => none

/-- How a computation ends: with a value, or with a fault; in both cases in a state. -/
inductive Res (α : Type) where
  | ok (a : α) (s : State)
  | fault (f : Fault) (s : State)

/-- A computation on the state that may end in a fault. -/
def M (α : Type) : Type := State → Res α

/-- The computation that returns `a`. -/
def M.pure {α : Type} (a : α) : M α := fun s => .ok a s

/-- Sequencing: a fault of the first computation ends the whole. -/
def M.bind {α β : Type} (m : M α) (f : α → M β) : M β := fun s =>
  match m s with
  | .ok a s => f a s
  | .fault e s => .fault e s

instance : Monad M where
  pure := M.pure
  bind := M.bind

/-- The current state. -/
def get_state : M State := fun s => .ok s s

/-- One more log entry. -/
def emit (o : Obs) : M Unit := fun s => .ok () { s with log := s.log ++ [o] }

/-- The call `fprintf(stderr, fmt, ..)`. -/
def fprintf (fmt : String) (args : List Arg) : M Unit :=
  emit (.print ⟨fmt.toList, args⟩)

/-- The call `now()`. -/
def now (env : Env) : M Int := fun s =>
  .ok (env.now s.clock) { s with clock := s.clock + 1 }

/-- A request to the transport: it is logged and answered by the device. -/
def request (env : Env) (e : Event) : M Reply := fun s =>
  .ok (env.device (events s.log) e) { s with log := s.log ++ [.call e] }

/-- The call `die(fmt, ..)`. -/
def die {α : Type} (fmt : String) (args : List Arg) : M α := fun s =>
  .fault (.die ⟨fmt.toList, args⟩) s

/-- An access outside an object. -/
def undefined {α : Type} (what : String) : M α := fun s =>
  .fault (.undefined what.toList) s

/-- A computation without effect on the state. -/
def lift {α : Type} (r : Except Fault α) : M α := fun s =>
  match r with
  | .ok a => .ok a s
  | .error f => .fault f s

/-- A write to fields of `zip_info`. -/
def update_zip (f : htc_zip → htc_zip) : M Unit := fun s =>
  .ok () { s with zip_info := f s.zip_info }

/-- A write to `restart_usb`. -/
def set_restart_usb (v : Int) : M Unit := fun s => .ok () { s with restart_usb := v }

/-- A write to the `char` array at `addr`. -/
def set_mem (addr : Nat) (buf : List Char) : M Unit := fun s =>
  .ok () { s with mem := (addr, buf) :: s.mem.filter fun p => p.1 != addr }

/-- A change of the descriptor table. -/
def set_fds (fds : List (Int × OpenFile)) : M Unit := fun s => .ok () { s with fds := fds }

/-- The text `mkmsg(fmt, ..)` allocates (`mkmsg` is declared in `fastboot.h`). -/
def mkmsg (fmt : String) (args : List Arg) : Option Msg := some ⟨fmt.toList, args⟩

/-! ## System calls on descriptors -/

/-- The least descriptor number not in use. -/
def lowest_free (fds : List (Int × OpenFile)) : Int :=
  match (List.range (fds.length + 1)).find? (fun n => !(fds.any fun p => p.1 == (n : Int))) with
  | some n => (n : Int)
  | none => (fds.length : Int)

/-- The descriptor table after descriptor `fd` was set to `f`. -/
def fds_set (fds : List (Int × OpenFile)) (fd : Int) (f : OpenFile) : List (Int × OpenFile) :=
  (fd, f) :: fds.filter fun p => p.1 != fd

/-- The call `open(fname, O_RDONLY)`: the new descriptor, or `-1`. -/
def sys_open (env : Env) (fname : CStr) : M Int := do
  emit (.call (.sys_open fname))
  match env.files fname with
  | none => pure (-1)
  | some bytes =>
    let s ← get_state
    let fd := lowest_free s.fds
    set_fds (fds_set s.fds fd ⟨bytes, 0⟩)
    pure fd

/-- The call `read(fd, buf, n)`: the bytes read, or `none` for the result `-1`. -/
def sys_read (fd : Int) (n : Nat) : M (Option (List Char)) := do
  let s ← get_state
  match s.fds.lookup fd with
  | none => pure none
  | some f =>
    let got := (f.bytes.drop f.pos).take n
    set_fds (fds_set s.fds fd { f with pos := f.pos + got.length })
    pure (some got)

/-- The call `lseek(fd, off, SEEK_SET)`: the new position, or `-1`. -/
def sys_lseek_set (fd : Int) (off : Int) : M Int := do
  let s ← get_state
  match s.fds.lookup fd with
  | none => pure (-1)
  | some f =>
    if off < 0 then pure (-1)
    else
      set_fds (fds_set s.fds fd { f with pos := off.toNat })
      pure off

/-- The call `lseek(fd, 0, SEEK_CUR)`: the current position, or `-1`. -/
def sys_lseek_cur (fd : Int) : M Int := do
  let s ← get_state
  match s.fds.lookup fd with
  | none => pure (-1)
  | some f => pure (f.pos : Int)

/-- The call `close(fd)`. -/
def sys_close (fd : Int) : M Unit := do
  emit (.call (.sys_close fd))
  let s ← get_state
  set_fds (s.fds.filter fun p => p.1 != fd)

/-! ## `htczip.cpp` -/

/-- The function `htc_largezip_read_header(fd, header)`: its result (1 or 0) and the header
record afterwards. A short read stores the bytes it got at the start of the record, a failed
read stores nothing. The local `pos` is an `int`: the offset `lseek` returns is converted to 32
bits when it is stored, and that value is what the two `lseek(fd, pos, SEEK_SET)` receive. -/
def htc_largezip_read_header (env : Env) (fd : Int) (header : htc_largezip_header_t) :
    M (Int × htc_largezip_header_t) := do
  let off ← sys_lseek_cur fd
  let got ← sys_read fd env.decl.sizeof_header
  let r : Int := match got with
    | none => -1
    | some raw => (raw.length : Int)
  if r ≠ (env.decl.sizeof_header : Int) then
    fprintf "failed to read htc largezip header" []
    let _ ← sys_lseek_set fd (to_int32 off)
    pure (0, match got with
      | some raw => env.decl.store header raw
      | none => header)
  else
    let header := env.decl.layout (got.getD [])
    if strncmp header.magic env.decl.HTC_LARGEZIP_HEADER_MAGIC
        (strlen env.decl.HTC_LARGEZIP_HEADER_MAGIC) ≠ 0 then
      let _ ← sys_lseek_set fd (to_int32 off)
      pure (0, header)
    else
      pure (1, header)

/-! ## The queue -/

/-- The list with `f` applied to its entry at position `i`. -/
def set_at (f : Action → Action) : Nat → List Action → List Action
  | _, [] => []
  | 0, a :: q => f a :: q
  | i + 1, a :: q => a :: set_at f i q

/-- The list with `f` applied to its last entry. -/
def set_last (f : Action → Action) : List Action → List Action
  | [] => []
  | [a] => [f a]
  | a :: b :: q => a :: set_last f (b :: q)

/-- A write through the pointer to the node at position `i`. -/
def modify (i : Nat) (f : Action → Action) : M Unit := fun s =>
  .ok () { s with queue := set_at f i s.queue }

/-- A write through the pointer `queue_action` returned last: the tail. -/
def modify_last (f : Action → Action) : M Unit := fun s =>
  .ok () { s with queue := set_last f s.queue }

/-- The node a callback receives as `a`: the one at position `i`. -/
def action (i : Nat) : M Action := fun s =>
  match s.queue[i]? with
  | some a => .ok a s
  | none => .fault (.undefined "a".toList) s

/-- The statements of `queue_action` that link the node `a` behind `action_last` and set its
`op`, `func` and `start`. -/
def link (op : Nat) (a : Action) : M Unit := fun s =>
  .ok () { s with queue := s.queue ++ [{ a with op := op, func := .cb_default, start := -1 }] }

/-- The function `queue_action(op, fmt, ..)`, given the text `formatted` that `fmt` and its
arguments expand to. `calloc` is taken to succeed; `vsnprintf` stores at most `CMD_SIZE - 1`
characters and returns the full length. The new node is the last one of the queue
afterwards. -/
def queue_action (op : Nat) (formatted : CStr) : M Unit := do
  let a : Action :=
    { op := 0, cmd := formatted.take (CMD_SIZE - 1), prod := none, data := .null, size := 0,
      msg := none, func := .cb_default, start := 0 }
  let cmdsize := formatted.length
  if cmdsize ≥ CMD_SIZE then
    die "Command length (%d) exceeds maximum size (%d)" [.int cmdsize, .int CMD_SIZE]
  else
    link op a

/-- The function `fb_set_active(slot)`. -/
def fb_set_active (slot : CStr) : M Unit := do
  queue_action OP_COMMAND ("set_active:".toList ++ slot)
  modify_last fun a => { a with msg := mkmsg "Setting current slot to '%s'" [.str slot] }

/-- The function `fb_queue_erase(ptn)`. -/
def fb_queue_erase (ptn : CStr) : M Unit := do
  queue_action OP_COMMAND ("erase:".toList ++ ptn)
  modify_last fun a => { a with msg := mkmsg "erasing '%s'" [.str ptn] }

/-- The function `fb_queue_flash(ptn, data, sz)`; `sz` is an `unsigned`. -/
def fb_queue_flash (ptn : CStr) (data : Data) (sz : Nat) : M Unit := do
  queue_action OP_DOWNLOAD []
  modify_last fun a =>
    { a with data := data, size := sz,
             msg := mkmsg "sending '%s' (%d KB)" [.str ptn, .int (sz / 1024 : Nat)] }
  queue_action OP_COMMAND ("flash:".toList ++ ptn)
  modify_last fun a => { a with msg := mkmsg "writing '%s'" [.str ptn] }

/-- The function `fb_queue_flash_sparse(ptn, s, sz, current, total)`. -/
def fb_queue_flash_sparse (ptn : CStr) (sp : Data) (sz : Nat) (current total : Nat) :
    M Unit := do
  queue_action OP_DOWNLOAD_SPARSE []
  modify_last fun a =>
    { a with data := sp, size := 0,
             msg := mkmsg "sending sparse '%s' %zu/%zu (%d KB)"
               [.str ptn, .int current, .int total, .int (sz / 1024 : Nat)] }
  queue_action OP_COMMAND ("flash:".toList ++ ptn)
  modify_last fun a =>
    { a with msg := mkmsg "writing '%s' %zu/%zu" [.str ptn, .int current, .int total] }

/-- The function `fb_queue_wait_for_disconnect()`. -/
def fb_queue_wait_for_disconnect : M Unit :=
  queue_action OP_WAIT_FOR_DISCONNECT []

/-- The function `fb_queue_flash_zip(ptn, data, sz, func)`; `sz` is an `unsigned`. -/
def fb_queue_flash_zip (ptn : CStr) (data : Data) (sz : Nat) (func : Callback) : M Unit := do
  queue_action OP_DOWNLOAD []
  modify_last fun a =>
    { a with data := data, size := sz,
             msg := mkmsg "sending '%s' (%d KB)" [.str ptn, .int (sz / 1024 : Nat)] }
  queue_action OP_COMMAND ("flash:".toList ++ "zip".toList)
  modify_last fun a => { a with func := func, msg := mkmsg "writing '%s'" [.str ptn] }

/-! ## Requirement callbacks -/

/-- The function `cb_default(a, status, resp)` for the node at position `i`. -/
def cb_default (env : Env) (i : Nat) (status : Int) (resp : CStr) : M Int := do
  if status ≠ 0 then
    fprintf "FAILED (%s)\n" [.str resp]
  else
    let a ← action i
    let split ← now env
    fprintf "OKAY [%7.3fs]\n" [.time (split - a.start)]
    modify i fun a => { a with start := split }
  pure status

/-- The tail of the diagnostic of `cb_check`: `" or '%s'"` for `value[n]`, `n = 1 .. count-1`,
with `rem = count - n` values left. -/
def print_alternatives (value : List CStr) : Nat → Nat → M Unit
  | 0, _ => pure ()
  | rem + 1, n =>
    match value[n]? with
    | none => undefined "value[n]"
    | some v => do
      fprintf " or '%s'" [.str v]
      print_alternatives value rem (n + 1)

/-- The statements of `cb_check` from `yes = match(resp, value, count)` on. -/
def cb_check_verdict (env : Env) (i : Nat) (a : Action) (resp : CStr) (invert : Int) :
    M Int :=
  match a.data with
  | .values value => do
    let count := a.size
    let yes ← lift (Fastboot.match resp value count)
    let yes := if invert ≠ 0 then lnot yes else yes
    if yes ≠ 0 then
      let split ← now env
      fprintf "OKAY [%7.3fs]\n" [.time (split - a.start)]
      modify i fun a => { a with start := split }
      pure 0
    else
      fprintf "FAILED\n\n" []
      fprintf "Device %s is '%s'.\n" [.str (a.cmd.drop 7), .str resp]
      match value[0]? with
      | none => undefined "value[0]"
      | some v0 =>
        fprintf "Update %s '%s'"
          [.str (if invert ≠ 0 then "rejects".toList else "requires".toList), .str v0]
        print_alternatives value (count - 1) 1
        fprintf ".\n\n" []
        pure (-1)
  | _ => undefined "a->data"

/-- The branch of `cb_check` for an action whose product `p` is not the current one. -/
def cb_check_ignore (env : Env) (i : Nat) (a : Action) (p : CStr) : M Int := do
  let split ← now env
  fprintf "IGNORE, product is %s required only for %s [%7.3fs]\n"
    [.str env.cur_product, .str p, .time (split - a.start)]
  modify i fun a => { a with start := split }
  pure 0

/-- The function `cb_check(a, status, resp, invert)` for the node at position `i`. -/
def cb_check (env : Env) (i : Nat) (status : Int) (resp : CStr) (invert : Int) : M Int := do
  let a ← action i
  if status ≠ 0 then
    fprintf "FAILED (%s)\n" [.str resp]
    pure status
  else
    match a.prod with
    | some p =>
      if strcmp p env.cur_product ≠ 0 then cb_check_ignore env i a p
      else cb_check_verdict env i a resp invert
    | none => cb_check_verdict env i a resp invert

/-- The function `cb_require(a, status, resp)`. -/
def cb_require (env : Env) (i : Nat) (status : Int) (resp : CStr) : M Int :=
  cb_check env i status resp 0

/-- The function `cb_reject(a, status, resp)`. -/
def cb_reject (env : Env) (i : Nat) (status : Int) (resp : CStr) : M Int :=
  cb_check env i status resp 1

/-! ## The compound-image drivers -/

/-- The read `xs[c]` of an array with an `int` index. -/
def index (xs : List Int) (c : Int) : Except Fault Int :=
  if c < 0 then .error (.undefined "index".toList)
  else match xs[c.toNat]? with
    | some x => .ok x
    | none => .error (.undefined "index".toList)

/-- The first statement of `fb_queue_flash_largezip`: with `open_fd == 0` the file is opened
and its header read. -/
def largezip_open (env : Env) (fname : Option CStr) : M Unit := do
  let s ← get_state
  if s.zip_info.open_fd = 0 then
    match fname with
    | none =>
      die "Should not happen - fname nullptr @ %s\n" [.str "fb_queue_flash_largezip".toList]
    | some fname =>
      let fd ← sys_open env fname
      update_zip fun z => { z with open_fd := fd, current_data := none, current_flash := 0 }
      let s ← get_state
      let (r, header) ← htc_largezip_read_header env s.zip_info.open_fd s.zip_info.largezip
      update_zip fun z => { z with largezip := header }
      if r = 0 then die "Failed to open largezip!!" [] else pure ()
  else pure ()

/-- The function `fb_queue_flash_largezip(fname)`; `fname` is `none` for `nullptr`. `malloc`
is taken to succeed; the text of `strerror(errno)` is left out of the `die` message. -/
def fb_queue_flash_largezip (env : Env) (fname : Option CStr) : M Unit := do
  largezip_open env fname
  let s ← get_state
  let c := s.zip_info.current_flash
  if c ≥ 8 then pure ()
  else
    let header := s.zip_info.largezip
    let len ← lift (index header.lengths c)
    if len ≤ 0 then sys_close s.zip_info.open_fd
    else
      let start ← lift (index header.starts c)
      let r ← sys_lseek_set s.zip_info.open_fd start
      if r = -1 then die "Cannot seek to zip start (0x%08X) (%s)!!" [.int start]
      else
        let got ← sys_read s.zip_info.open_fd len.toNat
        update_zip fun z => { z with current_data := some (got.getD []) }
        let r : Int := match got with
          | none => -1
          | some b => (b.length : Int)
        if r ≠ to_int32 len then die "Yeah, fixme" []
        else
          fb_queue_flash_zip (fmt_d s.zip_info.current_flash ++ "-zip".toList)
            (.bytes (got.getD [])) (to_uint32 len) .cb_largezip_check

/-- The call `OpenArchiveFd(fd, "", &zip)`: the archive behind the descriptor, `none` for an
error code other than 0. -/
def OpenArchiveFd (env : Env) (fd : Int) : M (Option ZipArchive) := do
  let s ← get_state
  match s.fds.lookup fd with
  | none => pure none
  | some f =>
    match env.unzip f.bytes with
    | none => pure none
    | some entries => pure (some ⟨entries, true⟩)

/-- The call `CloseArchive(zip_info.zip)`. -/
def CloseArchive : M Unit := do
  emit (.call .CloseArchive)
  update_zip fun z => { z with zip := z.zip.map fun h => { h with is_open := false } }

/-- Modelled from the spec: the helper `unzip_file(zip, name, &sz)` of `fastboot.cpp`, which
is not part of the sources. It "extracts the entry named `zip_<current_index>.zip` as a fresh
heap buffer" and reports its length in the 64-bit `sz`; it "yields no entry" (`none`) when the
archive has no entry of that name. A handle that is not open is a fault. -/
def unzip_file (zip : Option ZipArchive) (name : CStr) : Except Fault (Option (List Char × Int)) :=
  match zip with
  | none => .error (.undefined "zip".toList)
  | some z =>
    if z.is_open then
      match z.entries.lookup name with
      | none => .ok none
      | some b => .ok (some (b, (b.length : Int)))
    else .error (.undefined "zip".toList)

/-- The first statement of `fb_queue_flash_multizip`: with `open_fd == 0` the file is opened
as an archive. -/
def multizip_open (env : Env) (fname : Option CStr) : M Unit := do
  let s ← get_state
  if s.zip_info.open_fd = 0 then
    match fname with
    | none =>
      die "Should not happen - fname nullptr @ %s\n" [.str "fb_queue_flash_multizip".toList]
    | some fname =>
      let fd ← sys_open env fname
      update_zip fun z => { z with open_fd := fd, current_data := none, current_flash := 0 }
      let s ← get_state
      let z ← OpenArchiveFd env s.zip_info.open_fd
      match z with
      | none =>
        CloseArchive
        die "Failed to open zip file in %s" [.str "fb_queue_flash_multizip".toList]
      | some z => update_zip fun zi => { zi with zip := some z }
  else pure ()

/-- The function `fb_queue_flash_multizip(fname)`; `fname` is `none` for `nullptr`. The
64-bit `sz` is passed for the `unsigned` parameter of `fb_queue_flash_zip`. -/
def fb_queue_flash_multizip (env : Env) (fname : Option CStr) : M Unit := do
  multizip_open env fname
  let s ← get_state
  let zipname := "zip_".toList ++ fmt_d s.zip_info.current_flash ++ ".zip".toList
  let got ← lift (unzip_file s.zip_info.zip zipname)
  update_zip fun z => { z with current_data := got.map (·.1) }
  match got with
  | some (b, sz) => fb_queue_flash_zip zipname (.bytes b) (to_uint32 sz) .cb_multizip_check
  | none => CloseArchive

/-- The function `cb_multizip_check(a, status, resp)` for the node at position `i`. -/
def cb_multizip_check (env : Env) (i : Nat) (status : Int) (resp : CStr) : M Int := do
  if status ≠ 0 then
    if strstr_found resp "hboot pre-update".toList then
      fb_queue_wait_for_disconnect
      emit (.call (.sleep 5))
      set_restart_usb 1
      fb_queue_flash_multizip env none
      pure 0
    else
      fprintf "FAILED (%s)\n" [.str resp]
      pure status
  else
    let a ← action i
    let split ← now env
    fprintf "OKAY [%7.3fs]\n" [.time (split - a.start)]
    update_zip fun z => { z with current_flash := z.current_flash + 1 }
    fb_queue_flash_multizip env none
    pure 0

/-- The function `cb_largezip_check(a, status, resp)` for the node at position `i`. -/
def cb_largezip_check (env : Env) (i : Nat) (status : Int) (resp : CStr) : M Int := do
  if status ≠ 0 then
    if strstr_found resp "hboot pre-update".toList then
      fb_queue_wait_for_disconnect
      emit (.call (.sleep 5))
      set_restart_usb 1
      fb_queue_flash_largezip env none
      pure 0
    else
      fprintf "FAILED (%s)\n" [.str resp]
      pure status
  else
    let a ← action i
    let split ← now env
    fprintf "OKAY [%7.3fs]\n" [.time (split - a.start)]
    update_zip fun z => { z with current_flash := z.current_flash + 1 }
    fb_queue_flash_largezip env none
    pure 0

/-! ## The remaining enqueue functions and callbacks -/

/-- The function `cb_display(a, status, resp)` for the node at position `i`. -/
def cb_display (i : Nat) (status : Int) (resp : CStr) : M Int := do
  let a ← action i
  if status ≠ 0 then
    fprintf "%s FAILED (%s)\n" [.str a.cmd, .str resp]
    pure status
  else
    match a.data with
    | .text name =>
      fprintf "%s: %s\n" [.str name, .str resp]
      pure 0
    | _ => undefined "a->data"

/-- The function `fb_queue_display(var, prettyname)`; `strdup` is taken to succeed. -/
def fb_queue_display (var : CStr) (prettyname : CStr) : M Unit := do
  queue_action OP_QUERY ("getvar:".toList ++ var)
  modify_last fun a => { a with data := .text prettyname, func := .cb_display }

/-- The call `strncpy(dest, src, n)` on a destination array with content `dest`: exactly `n`
characters are written, those of `src` and then NULs; `n` beyond the array is a fault. -/
def strncpy (dest : List Char) (src : CStr) (n : Nat) : Except Fault (List Char) :=
  if n ≤ dest.length then
    .ok (src.take n ++ List.replicate (n - src.length) (Char.ofNat 0) ++ dest.drop n)
  else .error (.undefined "strncpy".toList)

/-- The function `cb_save(a, status, resp)` for the node at position `i`. -/
def cb_save (i : Nat) (status : Int) (resp : CStr) : M Int := do
  let a ← action i
  if status ≠ 0 then
    fprintf "%s FAILED (%s)\n" [.str a.cmd, .str resp]
    pure status
  else
    match a.data with
    | .dest addr =>
      let s ← get_state
      match s.mem.lookup addr with
      | some buf =>
        let buf ← lift (strncpy buf resp a.size)
        set_mem addr buf
        pure 0
      | none => undefined "a->data"
    | _ => undefined "a->data"

/-- The function `fb_queue_query_save(var, dest, dest_size)`; `dest` is the address of the
destination array. -/
def fb_queue_query_save (var : CStr) (dest : Nat) (dest_size : Nat) : M Unit := do
  queue_action OP_QUERY ("getvar:".toList ++ var)
  modify_last fun a => { a with data := .dest dest, size := dest_size, func := .cb_save }

/-- The function `cb_do_nothing(a, status, resp)`. -/
def cb_do_nothing : M Int := do
  fprintf "\n" []
  pure 0

/-- The function `fb_queue_reboot()`. -/
def fb_queue_reboot : M Unit := do
  queue_action OP_COMMAND "reboot".toList
  modify_last fun a =>
    { a with func := .cb_do_nothing, msg := some ⟨"rebooting".toList, []⟩ }

/-- The text `vsnprintf` makes of a format that is given no arguments: `%%` stands for one
`%`; any other conversion would read an argument that was not passed. -/
def format_plain : CStr → Except Fault CStr
  | [] => .ok []
  | c :: rest =>
    if c = '%' then
      match rest with
      | [] => .error (.undefined "va_arg".toList)
      | d :: rest2 =>
        if d = '%' then (format_plain rest2).map fun r => '%' :: r
        else .error (.undefined "va_arg".toList)
    else (format_plain rest).map fun r => c :: r

/-- The function `fb_queue_command(cmd, msg)`. The command is the format of `queue_action`,
which gets no further argument. -/
def fb_queue_command (cmd : CStr) (msg : Option CStr) : M Unit := do
  let formatted ← lift (format_plain cmd)
  queue_action OP_COMMAND formatted
  modify_last fun a => { a with msg := msg.map fun m => ⟨m, []⟩ }

/-- The function `fb_queue_notice(notice)`. -/
def fb_queue_notice (notice : CStr) : M Unit := do
  queue_action OP_NOTICE []
  modify_last fun a => { a with data := .text notice }

/-! ## The engine -/

/-- The call `a->func(a, status, resp)` for the node at position `i`. -/
def call_func (env : Env) (func : Callback) (i : Nat) (status : Int) (resp : CStr) : M Int :=
  match func with
  | .cb_default => cb_default env i status resp
  | .cb_require => cb_require env i status resp
  | .cb_reject => cb_reject env i status resp
  | .cb_multizip_check => cb_multizip_check env i status resp
  | .cb_largezip_check => cb_largezip_check env i status resp
  | .cb_display => cb_display i status resp
  | .cb_save => cb_save i status resp
  | .cb_do_nothing => cb_do_nothing

/-- The locals of `fb_execute_queue` that live across iterations. -/
structure Locals where
  transport : Nat
  status : Int
  start : Int
  deriving DecidableEq, Repr

/-- A transport call of the walk followed by the callback: `status = f(transport, ..);`
`status = a->func(a, status, status ? fb_get_error().c_str() : ok_resp);`
`if (status) break;`. The result says whether the loop is left. -/
def call_and_check (env : Env) (i : Nat) (a : Action) (e : Event) (query : Bool) (l : Locals) :
    M (Bool × Locals) := do
  let r ← request env e
  let status := r.status
  let resp := if status ≠ 0 then r.error else if query then r.resp else []
  let status ← call_func env a.func i status resp
  emit (.ret i status)
  pure (status ≠ 0, { l with status := status })

/-- The first statement of the loop body: with `restart_usb == 1` the transport is replaced
by `reopen_device()` and the flag is cleared. -/
def check_restart (env : Env) (l : Locals) : M Locals := do
  let s ← get_state
  if s.restart_usb = 1 then
    let t := env.reopen_device (events s.log)
    emit (.call .reopen_device)
    set_restart_usb 0
    pure { l with transport := t }
  else pure l

/-- The statements of the loop body before the dispatch on `a->op`: the restart check, the
time stamp and the message. -/
def loop_head (env : Env) (i : Nat) (a : Action) (l : Locals) : M Locals := do
  emit (.visit i)
  let l ← check_restart env l
  let t ← now env
  modify i fun a => { a with start := t }
  let l := if l.start < 0 then { l with start := t } else l
  match a.msg with
    | some m => emit (.message m)
    | none => pure ()
  pure l

/-- The dispatch on `a->op` in the loop body. The result says whether the loop is left by
`break`. -/
def dispatch (env : Env) (i : Nat) (a : Action) (l : Locals) : M (Bool × Locals) :=
  if a.op = OP_DOWNLOAD then
    call_and_check env i a (.fb_download_data l.transport a.data a.size) false l
  else if a.op = OP_COMMAND then
    call_and_check env i a (.fb_command l.transport a.cmd) false l
  else if a.op = OP_QUERY then
    call_and_check env i a (.fb_command_response l.transport a.cmd) true l
  else if a.op = OP_NOTICE then
    match a.data with
    | .text n => do
      fprintf "%s\n" [.str n]
      pure (false, l)
    | _ => undefined "a->data"
  else if a.op = OP_DOWNLOAD_SPARSE then
    call_and_check env i a (.fb_download_data_sparse l.transport a.data) false l
  else if a.op = OP_WAIT_FOR_DISCONNECT then do
    emit (.call (.WaitForDisconnect l.transport))
    pure (false, l)
  else die "bogus action" []

/-- The body of the loop of `fb_execute_queue` for the node `a` at position `i`. The result
says whether the loop is left by `break`. -/
def loop_body (env : Env) (i : Nat) (a : Action) (l : Locals) : M (Bool × Locals) := do
  let l ← loop_head env i a l
  dispatch env i a l

/-- How a run of `fb_execute_queue` ends: it returns a status, it ends in a fault, or the
fuel of the model is used up while nodes are left. -/
inductive Outcome where
  | returned (status : Int)
  | fault (f : Fault)
  | out_of_fuel
  deriving DecidableEq, Repr

/-- The statements of `fb_execute_queue` after the loop. -/
def finish (env : Env) (l : Locals) (s : State) : Outcome × State :=
  match (do
      let t ← now env
      fprintf "finished. total time: %.3fs\n" [.time (t - l.start)] : M Unit) s with
  | .ok _ s => (.returned l.status, s)
  | .fault f s => (.fault f, s)

/-- The loop `for (a = action_list; a; a = a->next)` from position `i` on, with at most `fuel`
iterations. The step `a = a->next` reads the queue after the body ran, so nodes a callback
appended are reached. -/
def walk (env : Env) : Nat → Nat → Locals → State → Outcome × State
  | 0, i, l, s =>
    match s.queue[i]? with
    | none => finish env l s
    | some _ => (.out_of_fuel, s)
  | fuel + 1, i, l, s =>
    match s.queue[i]? with
    | none => finish env l s
    | some a =>
      match loop_body env i a l s with
      | .fault f s => (.fault f, s)
      | .ok (true, l) s => finish env l s
      | .ok (false, l) s => walk env fuel (i + 1) l s

/-- The function `fb_execute_queue(transport)`, with at most `fuel` iterations of its loop. -/
def fb_execute_queue (env : Env) (fuel : Nat) (transport : Nat) (s : State) : Outcome × State :=
  if s.queue.isEmpty then (.returned 0, s)
  else walk env fuel 0 { transport := transport, status := 0, start := -1 } s

/-! ## Definitions of the specification and scenarios -/

/-- When an entry of a requirement matches a response: an entry of at least two characters
that ends in `*` matches the responses that start with the characters before that `*`; any
other entry, the one-character `*` among them, matches the response equal to it. -/
def entry_matches (v r : CStr) : Prop :=
  if 2 ≤ v.length ∧ v.getLast? = some '*' then v.dropLast <+: r else r = v

/-- The status a callback returned, `none` when it ended in a fault. -/
def Res.status? : Res Int → Option Int
  | .ok v _ => some v
  | .fault _ _ => none

/-- The state of a process that has not called the engine yet: the globals are zero, the
descriptors 0, 1 and 2 are in use. -/
def initial_state : State where
  queue := []
  zip_info := ⟨0, 0, 0, none, none, ⟨[], [], []⟩⟩
  restart_usb := 0
  fds := [(0, ⟨[], 0⟩), (1, ⟨[], 0⟩), (2, ⟨[], 0⟩)]
  clock := 0
  mem := []
  log := []

/-- The number four bytes encode, least significant byte first. -/
def le32 (b : List Char) : Int :=
  (((b.getD 0 (Char.ofNat 0)).toNat + 256 * ((b.getD 1 (Char.ofNat 0)).toNat
    + 256 * ((b.getD 2 (Char.ofNat 0)).toNat + 256 * (b.getD 3 (Char.ofNat 0)).toNat)) : Nat) : Int)

/-- The four bytes of a 32-bit number, least significant byte first. -/
def enc32 (n : Nat) : List Char :=
  [Char.ofNat (n % 256), Char.ofNat (n / 256 % 256), Char.ofNat (n / 65536 % 256),
   Char.ofNat (n / 16777216 % 256)]

/-- The 32 bytes of an array of eight 32-bit numbers, each least significant byte first. -/
def enc32x8 (xs : List Int) : List Char :=
  (List.range 8).foldr (fun k r => enc32 (to_uint32 (xs.getD k 0)) ++ r) []

/-- The 72 bytes of a header record in the layout of `scenario_decl`. -/
def scenario_raw (h : htc_largezip_header_t) : List Char :=
  (h.magic ++ List.replicate 8 (Char.ofNat 0)).take 8 ++ enc32x8 h.starts ++ enc32x8 h.lengths

/-- The fields of a header record in the layout of `scenario_decl`. -/
def scenario_layout (raw : List Char) : htc_largezip_header_t :=
  { magic := raw.take 8
    starts := (List.range 8).map fun k => le32 (raw.drop (8 + 4 * k))
    lengths := (List.range 8).map fun k => le32 (raw.drop (40 + 4 * k)) }

/-- A declaration of the large-zip header for the scenarios: an 8-byte magic followed by the
eight starts and the eight lengths as little-endian 32-bit numbers. -/
def scenario_decl : HtcZipDecl where
  HTC_LARGEZIP_HEADER_MAGIC := "LaR@eZip".toList
  sizeof_header := 72
  layout := scenario_layout
  store h b := scenario_layout (b ++ (scenario_raw h).drop b.length)

/-- An environment for the scenarios: the product is `angler`, the clock counts its readings,
the device answers `OKAY` to every request, there are no files. -/
def okay_env : Env where
  cur_product := "angler".toList
  now n := n
  device _ _ := ⟨0, [], []⟩
  reopen_device h := h.length
  files _ := none
  unzip _ := none
  decl := scenario_decl

/-- The action `fb_queue_require(prod, "product", false, 2, {"angler", "bullhead"})` queues. -/
def require_action (prod : Option CStr) (func : Callback) : Action where
  op := OP_QUERY
  cmd := "getvar:product".toList
  prod := prod
  data := .values ["angler".toList, "bullhead".toList]
  size := 2
  msg := mkmsg "checking %s" [.str "product".toList]
  func := func
  start := -1

/-! ## Definitions for the properties of the walk -/

/-- The node without its time stamp: the fields the enqueue functions wrote. The walk and the
callbacks write no other field of a queued node than `start`. -/
def Action.static (a : Action) : Action := { a with start := 0 }

/-- A request of the walk to the transport, without the handle it is made on. -/
inductive Request where
  | download (data : Data) (size : Nat)
  | command (cmd : CStr)
  | query (cmd : CStr)
  | download_sparse (data : Data)
  | wait_for_disconnect
  deriving DecidableEq, Repr

/-- The request the walk makes when it dispatches a node, by its `op`. -/
def request_of (a : Action) : Option Request :=
  if a.op = OP_DOWNLOAD then some (.download a.data a.size)
  else if a.op = OP_COMMAND then some (.command a.cmd)
  else if a.op = OP_QUERY then some (.query a.cmd)
  else if a.op = OP_DOWNLOAD_SPARSE then some (.download_sparse a.data)
  else if a.op = OP_WAIT_FOR_DISCONNECT then some .wait_for_disconnect
  else none

/-- The request a log entry records, if it is one. -/
def Obs.request? : Obs → Option Request
  | .call (.fb_download_data _ d n) => some (.download d n)
  | .call (.fb_command _ c) => some (.command c)
  | .call (.fb_command_response _ c) => some (.query c)
  | .call (.fb_download_data_sparse _ d) => some (.download_sparse d)
  | .call (.WaitForDisconnect _) => some .wait_for_disconnect
  | _ => none

/-- The queue position a log entry marks as visited, if it is such a mark. -/
def Obs.visit? : Obs → Option Nat
  | .visit i => some i
  | _ => none

/-- The callback return a log entry marks, if it is such a mark. -/
def Obs.ret? : Obs → Option (Nat × Int)
  | .ret i st => some (i, st)
  | _ => none

/-- The requests to the transport in a log, oldest first. -/
def requests (log : List Obs) : List Request := log.filterMap Obs.request?

/-- The queue positions the walk visited, oldest first. -/
def visits (log : List Obs) : List Nat := log.filterMap Obs.visit?

/-- The callback returns in a log, oldest first: position and returned status. -/
def returns (log : List Obs) : List (Nat × Int) := log.filterMap Obs.ret?

/-- The state a computation ends in. -/
def Res.state {α : Type} : Res α → State
  | .ok _ s => s
  | .fault _ s => s

/-- The state `t` continues `s` without a step of the walk: the queue of `t` is the queue of
`s` with nodes added behind its tail (up to time stamps), and the log of `t` is the log of `s`
with entries added that are neither requests nor marks of the walk. -/
structure Quiet (s t : State) : Prop where
  queue : ∃ ext, t.queue.map Action.static = s.queue.map Action.static ++ ext
  log : ∃ new, t.log = s.log ++ new ∧ visits new = [] ∧ returns new = [] ∧ requests new = []

/-- The computation `m` only continues the state quietly, whether it ends in a fault or not. -/
structure Preserves {α : Type} (m : M α) : Prop where
  quiet : ∀ s, Quiet s (m s).state

/-- The state `t` continues `s` by steps of the walk: the queue grew at the tail (up to time
stamps), and the entries added to the log hold the visits `vs`, the callback returns `rs` and
the requests `qs`, in this order each. -/
structure Delta (s t : State) (vs : List Nat) (rs : List (Nat × Int)) (qs : List Request) :
    Prop where
  queue : ∃ ext, t.queue.map Action.static = s.queue.map Action.static ++ ext
  log : ∃ new, t.log = s.log ++ new ∧ visits new = vs ∧ returns new = rs ∧ requests new = qs

/-! ## The large-zip restart scenario (S5) -/

/-- A large-zip file in the layout of `scenario_decl` with two sub-images, `AAAA` at offset 72
and `BBB` at offset 76. -/
def scenario_file : List Char :=
  "LaR@eZip".toList
    ++ enc32 72 ++ enc32 76 ++ enc32 0 ++ enc32 0 ++ enc32 0 ++ enc32 0 ++ enc32 0 ++ enc32 0
    ++ enc32 4 ++ enc32 3 ++ enc32 0 ++ enc32 0 ++ enc32 0 ++ enc32 0 ++ enc32 0 ++ enc32 0
    ++ "AAAA".toList ++ "BBB".toList

/-- Whether a call is the command `flash:zip`. -/
def is_flash_zip : Event → Bool
  | .fb_command _ c => c == "flash:zip".toList
  | _ => false

/-- Whether a call is the first `flash:zip` command: none was made before it. -/
def first_flash_zip (history : List Event) (e : Event) : Bool :=
  is_flash_zip e && !(history.any is_flash_zip)

/-- The environment of scenario S5: the file `rom.zip` is `scenario_file`, the device answers
the first `flash:zip` with `FAIL` and a text that contains `hboot pre-update`, and every other
request with `OKAY`; `reopen_device` returns the handle 1. -/
def restart_env : Env where
  cur_product := "angler".toList
  now n := n
  device history e :=
    if first_flash_zip history e then
      ⟨-1, [], "remote: 90 hboot pre-update! please flush image again immediately".toList⟩
    else ⟨0, [], []⟩
  reopen_device _ := 1
  files f := if f = "rom.zip".toList then some scenario_file else none
  unzip _ := none
  decl := scenario_decl

/-- The calls of a log that the transport sees: requests and `reopen_device`. -/
def transport_calls (log : List Obs) : List Event :=
  (events log).filter fun e => match e with
    | .sleep _ => false
    | .sys_open _ => false
    | .sys_close _ => false
    | .CloseArchive => false
    | _ => true

/-- A session: `fb_queue_flash_largezip(fname)` on the state `s`, then
`fb_execute_queue(transport)` with at most `fuel` iterations; `none` when the first call ends
in a fault. -/
def largezip_session (env : Env) (fname : CStr) (fuel transport : Nat) (s : State) :
    Option (Outcome × State) :=
  match fb_queue_flash_largezip env (some fname) s with
  | .ok _ s1 => some (fb_execute_queue env fuel transport s1)
  | .fault _ _ => none

/-- What a large-zip session keeps fixed between two iterations of the walk: the queue `q`
(up to time stamps), the descriptor `fd` of the container with content `bytes`, the header
`h`, the cursor `c`, the restart flag `r` and the calls `ev` made so far. -/
structure Sess (fd : Int) (bytes : List Char) (h : htc_largezip_header_t) (s : State)
    (c : Int) (r : Int) (q : List Action) (ev : List Event) : Prop where
  queue : s.queue.map Action.static = q
  open_fd : s.zip_info.open_fd = fd
  flash : s.zip_info.current_flash = c
  header : s.zip_info.largezip = h
  file : ∃ pos, s.fds.lookup fd = some ⟨bytes, pos⟩
  restart : s.restart_usb = r
  events : events s.log = ev

/-- The node `fb_queue_wait_for_disconnect` appends, without time stamp. -/
def wait_node : Action :=
  { op := OP_WAIT_FOR_DISCONNECT, cmd := [], prod := none, data := .null, size := 0,
    msg := none, func := .cb_default, start := 0 }

/-- The `Download` node `fb_queue_flash_largezip` appends for sub-image `c` with content `b`,
without time stamp. -/
def download_node (c : Int) (b : List Char) : Action :=
  { op := OP_DOWNLOAD, cmd := [], prod := none, data := .bytes b, size := b.length,
    msg := mkmsg "sending '%s' (%d KB)"
      [.str (fmt_d c ++ "-zip".toList), .int (b.length / 1024 : Nat)],
    func := .cb_default, start := 0 }

/-- The `flash:zip` node `fb_queue_flash_largezip` appends for sub-image `c`, without time
stamp. -/
def flash_node (c : Int) : Action :=
  { op := OP_COMMAND, cmd := "flash:zip".toList, prod := none, data := .null, size := 0,
    msg := mkmsg "writing '%s'" [.str (fmt_d c ++ "-zip".toList)],
    func := .cb_largezip_check, start := 0 }

/-- The content of the sub-image with offset `start` and length `len` in a container. -/
def sub_image (bytes : List Char) (start len : Int) : List Char :=
  (bytes.drop start.toNat).take len.toNat

/-- The order of calls the claim states for the restart: the wait for the disconnect (on some
handle `tw`) comes before `reopen_device`. -/
def claimed_restart_calls (t0 tw t1 : Nat) (d0 d1 : List Char) : List Event :=
  [.fb_download_data t0 (.bytes d0) d0.length, .fb_command t0 "flash:zip".toList,
   .WaitForDisconnect tw, .reopen_device,
   .fb_download_data t1 (.bytes d0) d0.length, .fb_command t1 "flash:zip".toList,
   .fb_download_data t1 (.bytes d1) d1.length, .fb_command t1 "flash:zip".toList]

/-! ## A container beyond 2 GiB -/

/-- A state in which descriptor 3 is open on a file of `2^31 + 72` characters `x` and stands
at offset `2^31`: a full header record can be read there, and it does not start with the
magic. -/
def far_state : State :=
  { initial_state with
    fds := [(3, ⟨List.replicate 2147483720 'x', 2147483648⟩), (0, ⟨[], 0⟩), (1, ⟨[], 0⟩),
      (2, ⟨[], 0⟩)] }

/-! ## Multi-zip sessions -/

/-- The entry name `zip_<c>.zip` that `fb_queue_flash_multizip` formats. -/
def zip_name (c : Int) : CStr := "zip_".toList ++ fmt_d c ++ ".zip".toList

/-- A session: `fb_queue_flash_multizip(fname)` on the state `s`, then
`fb_execute_queue(transport)` with at most `fuel` iterations; `none` when the first call ends
in a fault. -/
def multizip_session (env : Env) (fname : CStr) (fuel transport : Nat) (s : State) :
    Option (Outcome × State) :=
  match fb_queue_flash_multizip env (some fname) s with
  | .ok _ s1 => some (fb_execute_queue env fuel transport s1)
  | .fault _ _ => none

/-- What a multi-zip session keeps fixed between two iterations of the walk: the queue `q` (up
to time stamps), the descriptor `fd`, the opened archive with its `entries`, the cursor `c`,
the restart flag `r` and the calls `ev` made so far. -/
structure MSess (fd : Int) (entries : List (CStr × List Char)) (s : State)
    (c : Int) (r : Int) (q : List Action) (ev : List Event) : Prop where
  queue : s.queue.map Action.static = q
  open_fd : s.zip_info.open_fd = fd
  flash : s.zip_info.current_flash = c
  zip : s.zip_info.zip = some ⟨entries, true⟩
  restart : s.restart_usb = r
  events : events s.log = ev

/-- The `Download` node `fb_queue_flash_multizip` appends for the entry `zip_<c>.zip` with
content `b`, without time stamp: the size is the 64-bit length converted to `unsigned`. -/
def mz_download_node (c : Int) (b : List Char) : Action :=
  { op := OP_DOWNLOAD, cmd := [], prod := none, data := .bytes b,
    size := to_uint32 (b.length : Int),
    msg := mkmsg "sending '%s' (%d KB)"
      [.str (zip_name c), .int (to_uint32 (b.length : Int) / 1024 : Nat)],
    func := .cb_default, start := 0 }

/-- The `flash:zip` node `fb_queue_flash_multizip` appends for the entry `zip_<c>.zip`, without
time stamp. -/
def mz_flash_node (c : Int) : Action :=
  { op := OP_COMMAND, cmd := "flash:zip".toList, prod := none, data := .null, size := 0,
    msg := mkmsg "writing '%s'" [.str (zip_name c)],
    func := .cb_multizip_check, start := 0 }

/-- The nodes of the entries `zip_0.zip .. zip_<k-1>.zip` with the contents `b 0 .. b (k-1)`,
in this order. -/
def mz_nodes (b : Nat → List Char) : Nat → List Action
  | 0 => []
  | k + 1 => mz_nodes b k ++ [mz_download_node k (b k), mz_flash_node k]

/-- The transport calls for the entries `zip_0.zip .. zip_<k-1>.zip` on the handle `t`: for
each a download of its content, then the command `flash:zip`. -/
def mz_calls (t : Nat) (b : Nat → List Char) : Nat → List Event
  | 0 => []
  | k + 1 => mz_calls t b k ++
      [.fb_download_data t (.bytes (b k)) (to_uint32 ((b k).length : Int)),
       .fb_command t "flash:zip".toList]

/-- An environment in which the file `multi.zip` is an archive with the entries `zip_0.zip`
(`AAAA`) and `zip_1.zip` (`BBB`) and an unrelated entry, and the device answers `OKAY` to every
request. -/
def multi_env : Env where
  cur_product := "angler".toList
  now n := n
  device _ _ := ⟨0, [], []⟩
  reopen_device _ := 1
  files f := if f = "multi.zip".toList then some "PK".toList else none
  unzip _ := some [("zip_0.zip".toList, "AAAA".toList), ("android-info.txt".toList, "x".toList),
    ("zip_1.zip".toList, "BBB".toList)]
  decl := scenario_decl

/-- The contents of the entries of `multi_env` by index. -/
def multi_contents (i : Nat) : List Char :=
  if i = 0 then "AAAA".toList else if i = 1 then "BBB".toList else []

/-! ## A large-zip container that uses all eight slots -/

/-- A large-zip file in the layout of `scenario_decl` with eight sub-images of one character
each, `A` to `H`, at the offsets 72 to 79. -/
def full_file : List Char :=
  "LaR@eZip".toList
    ++ enc32 72 ++ enc32 73 ++ enc32 74 ++ enc32 75 ++ enc32 76 ++ enc32 77 ++ enc32 78
    ++ enc32 79
    ++ enc32 1 ++ enc32 1 ++ enc32 1 ++ enc32 1 ++ enc32 1 ++ enc32 1 ++ enc32 1 ++ enc32 1
    ++ "ABCDEFGH".toList

/-- An environment in which the file `full.zip` is `full_file` and the device answers `OKAY`
to every request. -/
def full_env : Env where
  cur_product := "angler".toList
  now n := n
  device _ _ := ⟨0, [], []⟩
  reopen_device _ := 1
  files f := if f = "full.zip".toList then some full_file else none
  unzip _ := none
  decl := scenario_decl

/-- Whether a call is a `close`. -/
def is_close : Event → Bool
  | .sys_close _ => true
  | _ => false

/-- Whether a call is a download. -/
def is_download : Event → Bool
  | .fb_download_data _ _ _ => true
  | _ => false

/-- The state after `fb_queue_flash_largezip("rom.zip")` in the environment of scenario S5:
the container is open on descriptor 3 and sub-image 0 is queued. -/
def largezip_started : State :=
  (fb_queue_flash_largezip restart_env (some "rom.zip".toList) initial_state).state

/-- The state after `fb_queue_flash_multizip("multi.zip")` in `multi_env`: the archive is open
and the entry `zip_0.zip` is queued. -/
def multizip_started : State :=
  (fb_queue_flash_multizip multi_env (some "multi.zip".toList) initial_state).state

/-! ## The invariant of a large-zip session -/

/-- The sub-image name in the message of a `Download` node: the first argument of
`mkmsg("sending '%s' (%d KB)", ptn, ..)`. -/
def image_name (a : Action) : Option CStr :=
  match a.msg with
  | some ⟨_, .str n :: _⟩ => some n
  | _ => none

/-- A node of a large-zip session whose callback leaves the cursor alone: the wait for the
disconnect, or the download of a sub-image `c` with `0 <= c < 8`, named `<c>-zip`. -/
def lz_quiet (a : Action) : Prop :=
  a.func = .cb_default ∧
    (a.op = OP_WAIT_FOR_DISCONNECT ∨
      (a.op = OP_DOWNLOAD ∧
        ∃ c : Int, 0 ≤ c ∧ c < 8 ∧ image_name a = some (fmt_d c ++ "-zip".toList)))

/-- A `flash:zip` node of a large-zip session: a command with the callback
`cb_largezip_check`. -/
def lz_flash (a : Action) : Prop := a.op = OP_COMMAND ∧ a.func = .cb_largezip_check

/-- The invariant of a large-zip session when the walk stands before queue position `i`: the
cursor is between 0 and 8, the header arrays have their eight entries, every node is one the
session queued, and a `flash:zip` node not yet dispatched is the last node of the queue and is
there only while the cursor is below 8. -/
structure LzInv (i : Nat) (s : State) : Prop where
  lo : 0 ≤ s.zip_info.current_flash
  hi : s.zip_info.current_flash ≤ 8
  lengths : s.zip_info.largezip.lengths.length = 8
  starts : s.zip_info.largezip.starts.length = 8
  nodes : ∀ a ∈ s.queue.map Action.static, lz_quiet a ∨ lz_flash a
  pending : ∀ j a, i ≤ j → (s.queue.map Action.static)[j]? = some a → lz_flash a →
    s.zip_info.current_flash < 8 ∧ j + 1 = (s.queue.map Action.static).length

/-- The names `0-zip .. 7-zip` of the sub-images a header can list. -/
def image_names : List CStr :=
  (List.range 8).map fun c => fmt_d (c : Nat) ++ "-zip".toList

/-- The sub-image names on the `Download` nodes of a queue. -/
def queued_images (q : List Action) : List CStr :=
  (q.filter fun a => a.op == OP_DOWNLOAD).filterMap image_name

/-- How the iteration of the walk on the node `a` at position `i` can end in the fault `f`, in
the state `s'`: the callback of the node did not return, or the node is a notice without a
text, or its `op` is none of the six (`die("bogus action")`). -/
def fault_of_node (env : Env) (i : Nat) (a : Action) (f : Fault) (s' : State) : Prop :=
  (∃ st resp s1, call_func env a.func i st resp s1 = .fault f s') ∨
  (a.op = OP_NOTICE ∧ f = .undefined "a->data".toList) ∨
  (f = .die ⟨"bogus action".toList, []⟩ ∧ a.op ≠ OP_DOWNLOAD ∧ a.op ≠ OP_COMMAND ∧
    a.op ≠ OP_QUERY ∧ a.op ≠ OP_NOTICE ∧ a.op ≠ OP_DOWNLOAD_SPARSE ∧
    a.op ≠ OP_WAIT_FOR_DISCONNECT)

/-- The calls made in scenario S5 before the transport is reopened: the `open` of the
container, the download and the flash of sub-image 0 (content `d0`, on the handle `t`) and the
five-second sleep. `reopen_device` is called after them. -/
def restart_history (fname : CStr) (t : Nat) (d0 : List Char) : List Event :=
  [.sys_open fname, .fb_download_data t (.bytes d0) d0.length,
   .fb_command t "flash:zip".toList, .sleep 5]

/-! ## Lemmas -/

theorem strcmp_eq_zero (a b : CStr) : strcmp a b = 0 ↔ a = b := by
  induction a generalizing b with
  | nil => cases b <;> simp [strcmp]
  | cons x xs ih =>
    cases b with
    | nil => simp [strcmp]
    | cons y ys =>
      by_cases h : x = y
      · simp [strcmp, h, ih]
      · simp only [strcmp, if_neg h]
        constructor
        · intro h0; split at h0 <;> omega
        · intro h0; simp_all

theorem strncmp_eq_zero (a b : CStr) (n : Nat) : strncmp a b n = 0 ↔ a.take n = b.take n := by
  induction n generalizing a b with
  | zero => simp [strncmp]
  | succ n ih =>
    cases a with
    | nil => cases b <;> simp [strncmp]
    | cons x xs =>
      cases b with
      | nil => simp [strncmp]
      | cons y ys =>
        by_cases h : x = y
        · simp [strncmp, h, ih]
        · simp only [strncmp, if_neg h]
          constructor
          · intro h0; split at h0 <;> omega
          · intro h0; simp_all

theorem lnot_ne_zero (x : Int) : lnot x ≠ 0 ↔ x = 0 := by
  unfold lnot; split <;> simp_all

theorem entry_test (val str : CStr) :
    (if 1 < strlen val ∧ val[strlen val - 1]? = some '*' then
        lnot (strncmp val str (strlen val - 1))
      else lnot (strcmp val str)) ≠ 0 ↔ entry_matches val str := by
  have hlast : val[strlen val - 1]? = val.getLast? := by
    simp [strlen, List.getLast?_eq_getElem?]
  unfold entry_matches
  rw [hlast]
  by_cases h : 1 < strlen val ∧ val.getLast? = some '*'
  · have h2 : 2 ≤ val.length ∧ val.getLast? = some '*' := ⟨h.1, h.2⟩
    rw [if_pos h, if_pos h2, lnot_ne_zero, strncmp_eq_zero, List.prefix_iff_eq_take,
      List.dropLast_eq_take]
    simp [strlen]
  · have h2 : ¬ (2 ≤ val.length ∧ val.getLast? = some '*') := fun h3 => h ⟨h3.1, h3.2⟩
    rw [if_neg h, if_neg h2, lnot_ne_zero, strcmp_eq_zero]
    exact eq_comm

theorem match_loop_spec (str : CStr) (vs pre : List CStr) :
    (match_loop str (pre ++ vs) vs.length pre.length = .ok 1 ∧ ∃ v ∈ vs, entry_matches v str) ∨
    (match_loop str (pre ++ vs) vs.length pre.length = .ok 0 ∧ ¬ ∃ v ∈ vs, entry_matches v str) := by
  induction vs generalizing pre with
  | nil => right; simp [match_loop]
  | cons v vs ih =>
    have hget : (pre ++ v :: vs)[pre.length]? = some v := by
      rw [List.getElem?_append_right (le_refl _)]; simp
    by_cases hv : entry_matches v str
    · left
      refine ⟨?_, v, by simp, hv⟩
      simp only [List.length_cons, match_loop, hget]
      rw [if_pos ((entry_test v str).2 hv)]
    · have hstep : match_loop str (pre ++ v :: vs) (v :: vs).length pre.length
          = match_loop str ((pre ++ [v]) ++ vs) vs.length (pre ++ [v]).length := by
        simp only [List.length_cons, match_loop, hget]
        rw [if_neg (fun h => hv ((entry_test v str).1 h))]
        simp
      rw [hstep]
      rcases ih (pre ++ [v]) with ⟨h1, w, hw, hm⟩ | ⟨h0, hno⟩
      · left; exact ⟨h1, w, by simp [hw], hm⟩
      · right
        refine ⟨h0, ?_⟩
        rintro ⟨w, hw, hm⟩
        rcases List.mem_cons.1 hw with rfl | hw
        · exact hv hm
        · exact hno ⟨w, hw, hm⟩

theorem match_spec (str : CStr) (vs : List CStr) :
    (Fastboot.match str vs vs.length = .ok 1 ∧ ∃ v ∈ vs, entry_matches v str) ∨
    (Fastboot.match str vs vs.length = .ok 0 ∧ ¬ ∃ v ∈ vs, entry_matches v str) := by
  simpa [Fastboot.match] using match_loop_spec str vs []

@[simp] theorem pure_run {α : Type} (a : α) (s : State) : (pure a : M α) s = .ok a s := rfl

@[simp] theorem bind_run {α β : Type} (m : M α) (f : α → M β) (s : State) :
    (m >>= f) s = match m s with
      | .ok a s => f a s
      | .fault e s => .fault e s := rfl

@[simp] theorem get_state_run (s : State) : get_state s = .ok s s := rfl
@[simp] theorem emit_run (o : Obs) (s : State) :
    emit o s = .ok () { s with log := s.log ++ [o] } := rfl
@[simp] theorem fprintf_run (fmt : String) (args : List Arg) (s : State) :
    fprintf fmt args s = .ok () { s with log := s.log ++ [.print ⟨fmt.toList, args⟩] } := rfl
@[simp] theorem now_run (env : Env) (s : State) :
    now env s = .ok (env.now s.clock) { s with clock := s.clock + 1 } := rfl
@[simp] theorem request_run (env : Env) (e : Event) (s : State) :
    request env e s = .ok (env.device (events s.log) e) { s with log := s.log ++ [.call e] } := rfl
@[simp] theorem die_run {α : Type} (fmt : String) (args : List Arg) (s : State) :
    (die fmt args : M α) s = .fault (.die ⟨fmt.toList, args⟩) s := rfl
@[simp] theorem undefined_run {α : Type} (what : String) (s : State) :
    (undefined what : M α) s = .fault (.undefined what.toList) s := rfl
@[simp] theorem lift_ok_run {α : Type} (a : α) (s : State) :
    (lift (.ok a) : M α) s = .ok a s := rfl
@[simp] theorem update_zip_run (f : htc_zip → htc_zip) (s : State) :
    update_zip f s = .ok () { s with zip_info := f s.zip_info } := rfl
@[simp] theorem set_restart_usb_run (v : Int) (s : State) :
    set_restart_usb v s = .ok () { s with restart_usb := v } := rfl
@[simp] theorem set_fds_run (fds : List (Int × OpenFile)) (s : State) :
    set_fds fds s = .ok () { s with fds := fds } := rfl
@[simp] theorem set_mem_run (addr : Nat) (buf : List Char) (s : State) :
    set_mem addr buf s = .ok () { s with mem := (addr, buf) :: s.mem.filter fun p => p.1 != addr } := rfl
@[simp] theorem modify_run (i : Nat) (f : Action → Action) (s : State) :
    modify i f s = .ok () { s with queue := set_at f i s.queue } := rfl
@[simp] theorem modify_last_run (f : Action → Action) (s : State) :
    modify_last f s = .ok () { s with queue := set_last f s.queue } := rfl
@[simp] theorem link_run (op : Nat) (a : Action) (s : State) :
    link op a s = .ok () { s with queue := s.queue ++ [{ a with op := op, func := .cb_default, start := -1 }] } := rfl

theorem action_run (i : Nat) (s : State) (a : Action) (h : s.queue[i]? = some a) :
    action i s = .ok a s := by
  simp [action, h]

theorem queue_action_run (op : Nat) (formatted : CStr) (s : State) :
    queue_action op formatted s =
      if CMD_SIZE ≤ formatted.length then
        .fault (.die ⟨"Command length (%d) exceeds maximum size (%d)".toList,
          [.int formatted.length, .int 64]⟩) s
      else
        .ok () { s with queue := s.queue ++
          [{ op := op, cmd := formatted, prod := none, data := .null, size := 0, msg := none,
             func := .cb_default, start := -1 }] } := by
  have hc : CMD_SIZE = 64 := rfl
  simp only [queue_action, hc, ge_iff_le]
  split
  · rfl
  · rename_i h
    have h2 : formatted.length ≤ 63 := by omega
    simp [List.take_of_length_le h2]

theorem print_alternatives_ok (value : List CStr) (rem n : Nat) (h : n + rem ≤ value.length)
    (s : State) : ∃ s', print_alternatives value rem n s = .ok () s' := by
  induction rem generalizing n s with
  | zero => exact ⟨s, rfl⟩
  | succ rem ih =>
    have hn : n < value.length := by omega
    have hget : value[n]? = some value[n] := List.getElem?_eq_getElem hn
    simp only [print_alternatives, hget, bind_run, fprintf_run]
    exact ih (n + 1) (by omega) _

theorem strcmp_self (p : CStr) : strcmp p p = 0 := (strcmp_eq_zero p p).2 rfl

theorem cb_check_scope (env : Env) (i : Nat) (s : State) (a : Action) (r : CStr) (invert : Int)
    (ha : s.queue[i]? = some a) (hp : a.prod = none ∨ a.prod = some env.cur_product) :
    cb_check env i 0 r invert s = cb_check_verdict env i a r invert s := by
  rcases hp with hp | hp <;> simp [cb_check, action_run i s a ha, hp, strcmp_self]

theorem verdict_pass (env : Env) (i : Nat) (s : State) (a : Action) (vs : List CStr) (r : CStr)
    (invert yes : Int) (hd : a.data = .values vs)
    (hm : Fastboot.match r vs a.size = .ok yes)
    (hy : (if invert ≠ 0 then lnot yes else yes) ≠ 0) :
    (cb_check_verdict env i a r invert s).status? = some 0 := by
  simp only [cb_check_verdict, hd, hm, lift_ok_run, bind_run]
  rw [if_pos hy]
  rfl

theorem verdict_fail (env : Env) (i : Nat) (s : State) (a : Action) (vs : List CStr) (r : CStr)
    (invert yes : Int) (hd : a.data = .values vs) (hsz : a.size = vs.length) (hne : vs ≠ [])
    (hm : Fastboot.match r vs a.size = .ok yes)
    (hy : (if invert ≠ 0 then lnot yes else yes) = 0) :
    (cb_check_verdict env i a r invert s).status? = some (-1) := by
  obtain ⟨v0, rest, rfl⟩ := List.exists_cons_of_ne_nil hne
  simp only [cb_check_verdict, hd, hm, lift_ok_run, bind_run]
  rw [if_neg (by simpa using hy)]
  simp only [bind_run, fprintf_run, List.getElem?_cons_zero]
  obtain ⟨s', hs'⟩ := print_alternatives_ok (v0 :: rest) (a.size - 1) 1 (by simp [hsz]; omega)
    { s with log := s.log ++ [.print ⟨"FAILED\n\n".toList, []⟩] ++
        [.print ⟨"Device %s is '%s'.\n".toList, [.str (a.cmd.drop 7), .str r]⟩] ++
        [.print ⟨"Update %s '%s'".toList,
          [.str (if invert ≠ 0 then "rejects".toList else "requires".toList), .str v0]⟩] }
  rw [hs']
  rfl

theorem verdict_empty (env : Env) (i : Nat) (s : State) (a : Action) (r : CStr)
    (hd : a.data = .values []) (hsz : a.size = 0) :
    (cb_check_verdict env i a r 0 s).status? = none := by
  simp [cb_check_verdict, hd, hsz, Fastboot.match, match_loop, Res.status?]

theorem Quiet.quiet_refl (s : State) : Quiet s s :=
  ⟨⟨[], by simp⟩, ⟨[], by simp [visits, returns, requests]⟩⟩

theorem Quiet.quiet_trans {s t u : State} (h1 : Quiet s t) (h2 : Quiet t u) : Quiet s u := by
  obtain ⟨⟨e1, hq1⟩, ⟨n1, hl1, hv1, hr1, hq1'⟩⟩ := h1
  obtain ⟨⟨e2, hq2⟩, ⟨n2, hl2, hv2, hr2, hq2'⟩⟩ := h2
  refine ⟨⟨e1 ++ e2, by rw [hq2, hq1, List.append_assoc]⟩, ⟨n1 ++ n2, by rw [hl2, hl1, List.append_assoc], ?_, ?_, ?_⟩⟩
  · rw [visits] at hv1 hv2 ⊢; rw [List.filterMap_append, hv1, hv2]; rfl
  · rw [returns] at hr1 hr2 ⊢; rw [List.filterMap_append, hr1, hr2]; rfl
  · rw [requests] at hq1' hq2' ⊢; rw [List.filterMap_append, hq1', hq2']; rfl

theorem Quiet.quiet_of_eq {s t : State} (hq : t.queue = s.queue) (hl : t.log = s.log) : Quiet s t :=
  ⟨⟨[], by simp [hq]⟩, ⟨[], by simp [hl, visits, returns, requests]⟩⟩

theorem Quiet.quiet_of_emit {s t : State} (o : Obs) (hq : t.queue = s.queue) (hl : t.log = s.log ++ [o])
    (hv : o.visit? = none) (hr : o.ret? = none) (hreq : o.request? = none) : Quiet s t :=
  ⟨⟨[], by simp [hq]⟩, ⟨[o], hl, by simp [visits, hv], by simp [returns, hr],
    by simp [requests, hreq]⟩⟩

theorem preserves_pure {α : Type} (a : α) : Preserves (pure a : M α) := ⟨fun s => Quiet.quiet_refl s⟩

theorem preserves_bind {α β : Type} {m : M α} {f : α → M β} (hm : Preserves m)
    (hf : ∀ a, Preserves (f a)) : Preserves (m >>= f) := by
  constructor
  intro s
  have h1 := hm.quiet s
  rw [bind_run]
  cases hms : m s with
  | ok a s1 =>
    rw [hms] at h1
    exact Quiet.quiet_trans h1 ((hf a).quiet s1)
  | fault e s1 =>
    rw [hms] at h1
    exact h1

theorem preserves_get_state : Preserves get_state := ⟨fun s => Quiet.quiet_refl s⟩
theorem preserves_die {α : Type} (fmt : String) (args : List Arg) :
    Preserves (die fmt args : M α) := ⟨fun s => Quiet.quiet_refl s⟩
theorem preserves_undefined {α : Type} (what : String) :
    Preserves (undefined what : M α) := ⟨fun s => Quiet.quiet_refl s⟩
theorem preserves_lift {α : Type} (r : Except Fault α) : Preserves (lift r) := by
  constructor; intro s; cases r <;> exact Quiet.quiet_refl s
theorem preserves_now (env : Env) : Preserves (now env) := ⟨fun _ => Quiet.quiet_of_eq rfl rfl⟩
theorem preserves_update_zip (f : htc_zip → htc_zip) : Preserves (update_zip f) :=
  ⟨fun _ => Quiet.quiet_of_eq rfl rfl⟩
theorem preserves_set_restart_usb (v : Int) : Preserves (set_restart_usb v) :=
  ⟨fun _ => Quiet.quiet_of_eq rfl rfl⟩
theorem preserves_set_fds (fds : List (Int × OpenFile)) : Preserves (set_fds fds) :=
  ⟨fun _ => Quiet.quiet_of_eq rfl rfl⟩
theorem preserves_set_mem (addr : Nat) (buf : List Char) : Preserves (set_mem addr buf) :=
  ⟨fun _ => Quiet.quiet_of_eq rfl rfl⟩
theorem preserves_fprintf (fmt : String) (args : List Arg) : Preserves (fprintf fmt args) :=
  ⟨fun _ => Quiet.quiet_of_emit _ rfl rfl rfl rfl rfl⟩
theorem preserves_emit_sleep (n : Nat) : Preserves (emit (.call (.sleep n))) :=
  ⟨fun _ => Quiet.quiet_of_emit _ rfl rfl rfl rfl rfl⟩
theorem preserves_emit_sys_open (f : CStr) : Preserves (emit (.call (.sys_open f))) :=
  ⟨fun _ => Quiet.quiet_of_emit _ rfl rfl rfl rfl rfl⟩
theorem preserves_emit_sys_close (fd : Int) : Preserves (emit (.call (.sys_close fd))) :=
  ⟨fun _ => Quiet.quiet_of_emit _ rfl rfl rfl rfl rfl⟩
theorem preserves_emit_CloseArchive : Preserves (emit (.call .CloseArchive)) :=
  ⟨fun _ => Quiet.quiet_of_emit _ rfl rfl rfl rfl rfl⟩

theorem preserves_action (i : Nat) : Preserves (action i) := by
  constructor
  intro s
  unfold Fastboot.action
  split <;> exact Quiet.quiet_refl s

theorem set_at_static (f : Action → Action) (hf : ∀ a, (f a).static = a.static) (i : Nat)
    (q : List Action) : (set_at f i q).map Action.static = q.map Action.static := by
  induction q generalizing i with
  | nil => cases i <;> rfl
  | cons a q ih =>
    cases i with
    | zero => simp [set_at, hf]
    | succ i => simp [set_at, ih]

theorem preserves_modify_start (i : Nat) (t : Int) :
    Preserves (modify i fun a => { a with start := t }) := by
  constructor
  intro s
  refine ⟨⟨[], ?_⟩, ⟨[], by simp [visits, returns, requests, Res.state]⟩⟩
  have h := set_at_static (fun a => { a with start := t }) (fun a => rfl) i s.queue
  simpa [Res.state] using h

theorem preserves_queue_action (op : Nat) (formatted : CStr) :
    Preserves (queue_action op formatted) := by
  constructor
  intro s
  rw [queue_action_run]
  split
  · exact Quiet.quiet_refl s
  · exact ⟨⟨_, List.map_append _ _ _⟩, ⟨[], by simp [visits, returns, requests, Res.state]⟩⟩

theorem set_last_concat (f : Action → Action) (q : List Action) (a : Action) :
    set_last f (q ++ [a]) = q ++ [f a] := by
  induction q with
  | nil => rfl
  | cons b q ih =>
    cases q with
    | nil => rfl
    | cons c q =>
      show b :: set_last f (c :: q ++ [a]) = b :: (c :: q ++ [f a])
      rw [ih]

theorem fb_queue_flash_zip_run (ptn : CStr) (data : Data) (sz : Nat) (func : Callback)
    (s : State) :
    fb_queue_flash_zip ptn data sz func s = .ok () { s with queue := s.queue ++
      [{ op := OP_DOWNLOAD, cmd := [], prod := none, data := data, size := sz,
         msg := mkmsg "sending '%s' (%d KB)" [.str ptn, .int (sz / 1024 : Nat)],
         func := .cb_default, start := -1 },
       { op := OP_COMMAND, cmd := "flash:zip".toList, prod := none, data := .null, size := 0,
         msg := mkmsg "writing '%s'" [.str ptn], func := func, start := -1 }] } := by
  have h1 : ¬ CMD_SIZE ≤ ([] : CStr).length := by decide
  have h2 : ¬ CMD_SIZE ≤ ("flash:".toList ++ "zip".toList).length := by decide
  simp only [fb_queue_flash_zip, bind_run, queue_action_run, if_neg h1, if_neg h2,
    modify_last_run, set_last_concat]
  simp [set_last_concat]

theorem preserves_fb_queue_flash_zip (ptn : CStr) (data : Data) (sz : Nat) (func : Callback) :
    Preserves (fb_queue_flash_zip ptn data sz func) := by
  constructor
  intro s
  rw [fb_queue_flash_zip_run]
  exact ⟨⟨_, List.map_append _ _ _⟩, ⟨[], by simp [visits, returns, requests, Res.state]⟩⟩

theorem preserves_sys_open (env : Env) (fname : CStr) :
    Preserves (sys_open env fname) := by
  unfold Fastboot.sys_open
  repeat' first
    | exact preserves_pure _
    | exact preserves_get_state
    | exact preserves_set_fds _
    | exact preserves_emit_sys_open _
    | apply preserves_bind
    | intro _
    | dsimp only
    | split

theorem preserves_sys_read (fd : Int) (n : Nat) :
    Preserves (sys_read fd n) := by
  unfold Fastboot.sys_read
  repeat' first
    | exact preserves_pure _
    | exact preserves_get_state
    | exact preserves_set_fds _
    | apply preserves_bind
    | intro _
    | dsimp only
    | split

theorem preserves_sys_lseek_set (fd : Int) (off : Int) :
    Preserves (sys_lseek_set fd off) := by
  unfold Fastboot.sys_lseek_set
  repeat' first
    | exact preserves_pure _
    | exact preserves_get_state
    | exact preserves_set_fds _
    | apply preserves_bind
    | intro _
    | dsimp only
    | split

theorem preserves_sys_lseek_cur (fd : Int) :
    Preserves (sys_lseek_cur fd) := by
  unfold Fastboot.sys_lseek_cur
  repeat' first
    | exact preserves_pure _
    | exact preserves_get_state
    | apply preserves_bind
    | intro _
    | dsimp only
    | split

theorem preserves_sys_close (fd : Int) :
    Preserves (sys_close fd) := by
  unfold Fastboot.sys_close
  repeat' first
    | exact preserves_get_state
    | exact preserves_set_fds _
    | exact preserves_emit_sys_close _
    | apply preserves_bind
    | intro _

theorem preserves_htc_largezip_read_header (env : Env) (fd : Int) (h : htc_largezip_header_t) :
    Preserves (htc_largezip_read_header env fd h) := by
  unfold Fastboot.htc_largezip_read_header
  repeat' first
    | exact preserves_pure _
    | exact preserves_fprintf _ _
    | exact preserves_sys_read _ _
    | exact preserves_sys_lseek_set _ _
    | exact preserves_sys_lseek_cur _
    | apply preserves_bind
    | intro _
    | dsimp only
    | split

theorem preserves_largezip_open (env : Env) (fname : Option CStr) :
    Preserves (largezip_open env fname) := by
  unfold Fastboot.largezip_open
  repeat' first
    | exact preserves_pure _
    | exact preserves_get_state
    | exact preserves_die _ _
    | exact preserves_update_zip _
    | exact preserves_sys_open _ _
    | exact preserves_htc_largezip_read_header _ _ _
    | apply preserves_bind
    | intro _
    | dsimp only
    | split

theorem preserves_fb_queue_flash_largezip (env : Env) (fname : Option CStr) :
    Preserves (fb_queue_flash_largezip env fname) := by
  unfold Fastboot.fb_queue_flash_largezip
  repeat' first
    | exact preserves_pure _
    | exact preserves_get_state
    | exact preserves_die _ _
    | exact preserves_lift _
    | exact preserves_update_zip _
    | exact preserves_fb_queue_flash_zip _ _ _ _
    | exact preserves_sys_read _ _
    | exact preserves_sys_lseek_set _ _
    | exact preserves_sys_close _
    | exact preserves_largezip_open _ _
    | apply preserves_bind
    | intro _
    | dsimp only
    | split

theorem preserves_OpenArchiveFd (env : Env) (fd : Int) :
    Preserves (OpenArchiveFd env fd) := by
  unfold Fastboot.OpenArchiveFd
  repeat' first
    | exact preserves_pure _
    | exact preserves_get_state
    | apply preserves_bind
    | intro _
    | dsimp only
    | split

theorem preserves_CloseArchive :
    Preserves (CloseArchive) := by
  unfold Fastboot.CloseArchive
  repeat' first
    | exact preserves_update_zip _
    | exact preserves_emit_CloseArchive
    | apply preserves_bind
    | intro _

theorem preserves_multizip_open (env : Env) (fname : Option CStr) :
    Preserves (multizip_open env fname) := by
  unfold Fastboot.multizip_open
  repeat' first
    | exact preserves_pure _
    | exact preserves_get_state
    | exact preserves_die _ _
    | exact preserves_update_zip _
    | exact preserves_sys_open _ _
    | exact preserves_OpenArchiveFd _ _
    | exact preserves_CloseArchive
    | apply preserves_bind
    | intro _
    | dsimp only
    | split

theorem preserves_fb_queue_flash_multizip (env : Env) (fname : Option CStr) :
    Preserves (fb_queue_flash_multizip env fname) := by
  unfold Fastboot.fb_queue_flash_multizip
  repeat' first
    | exact preserves_get_state
    | exact preserves_lift _
    | exact preserves_update_zip _
    | exact preserves_fb_queue_flash_zip _ _ _ _
    | exact preserves_CloseArchive
    | exact preserves_multizip_open _ _
    | apply preserves_bind
    | intro _
    | dsimp only
    | split

theorem preserves_cb_default (env : Env) (i : Nat) (status : Int) (resp : CStr) :
    Preserves (cb_default env i status resp) := by
  unfold Fastboot.cb_default
  repeat' first
    | exact preserves_pure _
    | exact preserves_now _
    | exact preserves_fprintf _ _
    | exact preserves_action _
    | exact preserves_modify_start _ _
    | apply preserves_bind
    | intro _
    | dsimp only
    | split

theorem preserves_print_alternatives (value : List CStr) (rem n : Nat) :
    Preserves (print_alternatives value rem n) := by
  induction rem generalizing n with
  | zero => exact preserves_pure _
  | succ rem ih =>
    unfold Fastboot.print_alternatives
    split
    · exact preserves_undefined _
    · exact preserves_bind (preserves_fprintf _ _) (fun _ => ih _)

theorem preserves_cb_check_verdict (env : Env) (i : Nat) (a : Action) (resp : CStr) (invert : Int) :
    Preserves (cb_check_verdict env i a resp invert) := by
  unfold Fastboot.cb_check_verdict
  repeat' first
    | exact preserves_pure _
    | exact preserves_undefined _
    | exact preserves_lift _
    | exact preserves_now _
    | exact preserves_fprintf _ _
    | exact preserves_modify_start _ _
    | exact preserves_print_alternatives _ _ _
    | apply preserves_bind
    | intro _
    | dsimp only
    | split

theorem preserves_cb_check_ignore (env : Env) (i : Nat) (a : Action) (p : CStr) :
    Preserves (cb_check_ignore env i a p) := by
  unfold Fastboot.cb_check_ignore
  repeat' first
    | exact preserves_pure _
    | exact preserves_now _
    | exact preserves_fprintf _ _
    | exact preserves_modify_start _ _
    | apply preserves_bind
    | intro _

theorem preserves_cb_check (env : Env) (i : Nat) (status : Int) (resp : CStr) (invert : Int) :
    Preserves (cb_check env i status resp invert) := by
  unfold Fastboot.cb_check
  repeat' first
    | exact preserves_pure _
    | exact preserves_fprintf _ _
    | exact preserves_action _
    | exact preserves_cb_check_verdict _ _ _ _ _
    | exact preserves_cb_check_ignore _ _ _ _
    | apply preserves_bind
    | intro _
    | dsimp only
    | split

theorem preserves_cb_multizip_check (env : Env) (i : Nat) (status : Int) (resp : CStr) :
    Preserves (cb_multizip_check env i status resp) := by
  unfold Fastboot.cb_multizip_check Fastboot.fb_queue_wait_for_disconnect
  repeat' first
    | exact preserves_pure _
    | exact preserves_now _
    | exact preserves_update_zip _
    | exact preserves_set_restart_usb _
    | exact preserves_fprintf _ _
    | exact preserves_emit_sleep _
    | exact preserves_action _
    | exact preserves_queue_action _ _
    | exact preserves_fb_queue_flash_multizip _ _
    | apply preserves_bind
    | intro _
    | dsimp only
    | split

theorem preserves_cb_largezip_check (env : Env) (i : Nat) (status : Int) (resp : CStr) :
    Preserves (cb_largezip_check env i status resp) := by
  unfold Fastboot.cb_largezip_check Fastboot.fb_queue_wait_for_disconnect
  repeat' first
    | exact preserves_pure _
    | exact preserves_now _
    | exact preserves_update_zip _
    | exact preserves_set_restart_usb _
    | exact preserves_fprintf _ _
    | exact preserves_emit_sleep _
    | exact preserves_action _
    | exact preserves_queue_action _ _
    | exact preserves_fb_queue_flash_largezip _ _
    | apply preserves_bind
    | intro _
    | dsimp only
    | split

theorem preserves_cb_display (i : Nat) (status : Int) (resp : CStr) :
    Preserves (cb_display i status resp) := by
  unfold Fastboot.cb_display
  repeat' first
    | exact preserves_pure _
    | exact preserves_undefined _
    | exact preserves_fprintf _ _
    | exact preserves_action _
    | apply preserves_bind
    | intro _
    | dsimp only
    | split

theorem preserves_cb_save (i : Nat) (status : Int) (resp : CStr) :
    Preserves (cb_save i status resp) := by
  unfold Fastboot.cb_save
  repeat' first
    | exact preserves_pure _
    | exact preserves_get_state
    | exact preserves_undefined _
    | exact preserves_lift _
    | exact preserves_set_mem _ _
    | exact preserves_fprintf _ _
    | exact preserves_action _
    | apply preserves_bind
    | intro _
    | dsimp only
    | split

theorem preserves_cb_do_nothing :
    Preserves (cb_do_nothing) := by
  unfold Fastboot.cb_do_nothing
  repeat' first
    | exact preserves_pure _
    | exact preserves_fprintf _ _
    | apply preserves_bind
    | intro _

theorem preserves_call_func (env : Env) (func : Callback) (i : Nat) (status : Int)
    (resp : CStr) : Preserves (call_func env func i status resp) := by
  cases func
  · exact preserves_cb_default _ _ _ _
  · exact preserves_cb_check _ _ _ _ _
  · exact preserves_cb_check _ _ _ _ _
  · exact preserves_cb_multizip_check _ _ _ _
  · exact preserves_cb_largezip_check _ _ _ _
  · exact preserves_cb_display _ _ _
  · exact preserves_cb_save _ _ _
  · exact preserves_cb_do_nothing

theorem Quiet.to_delta {s t : State} (h : Quiet s t) : Delta s t [] [] [] := ⟨h.queue, h.log⟩

theorem Delta.delta_trans {s t u : State} {v1 v2 : List Nat} {r1 r2 : List (Nat × Int)}
    {q1 q2 : List Request} (h1 : Delta s t v1 r1 q1) (h2 : Delta t u v2 r2 q2) :
    Delta s u (v1 ++ v2) (r1 ++ r2) (q1 ++ q2) := by
  obtain ⟨⟨e1, hq1⟩, ⟨n1, hl1, hv1, hr1, hq1'⟩⟩ := h1
  obtain ⟨⟨e2, hq2⟩, ⟨n2, hl2, hv2, hr2, hq2'⟩⟩ := h2
  refine ⟨⟨e1 ++ e2, by rw [hq2, hq1, List.append_assoc]⟩,
    ⟨n1 ++ n2, by rw [hl2, hl1, List.append_assoc], ?_, ?_, ?_⟩⟩
  · rw [visits] at hv1 hv2 ⊢; rw [List.filterMap_append, hv1, hv2]
  · rw [returns] at hr1 hr2 ⊢; rw [List.filterMap_append, hr1, hr2]
  · rw [requests] at hq1' hq2' ⊢; rw [List.filterMap_append, hq1', hq2']

theorem Delta.delta_of_emit {s t : State} (o : Obs) (hq : t.queue = s.queue)
    (hl : t.log = s.log ++ [o]) :
    Delta s t o.visit?.toList o.ret?.toList o.request?.toList := by
  refine ⟨⟨[], by simp [hq]⟩, ⟨[o], hl, ?_, ?_, ?_⟩⟩
  · cases h : o.visit? <;> simp [visits, h]
  · cases h : o.ret? <;> simp [returns, h]
  · cases h : o.request? <;> simp [requests, h]

theorem Delta.queue_length_le {s t : State} {vs : List Nat} {rs : List (Nat × Int)}
    {qs : List Request} (h : Delta s t vs rs qs) : s.queue.length ≤ t.queue.length := by
  obtain ⟨ext, hq⟩ := h.queue
  have := congrArg List.length hq
  simp at this
  omega

theorem Delta.queue_getElem? {s t : State} {vs : List Nat} {rs : List (Nat × Int)}
    {qs : List Request} (h : Delta s t vs rs qs) (i : Nat) (a : Action)
    (ha : s.queue[i]? = some a) : ∃ b, t.queue[i]? = some b ∧ b.static = a.static := by
  obtain ⟨ext, hq⟩ := h.queue
  have hi : i < s.queue.length := by
    rcases Nat.lt_or_ge i s.queue.length with h | h
    · exact h
    · rw [List.getElem?_eq_none h] at ha; cases ha
  have h1 : (t.queue.map Action.static)[i]? = some a.static := by
    rw [hq, List.getElem?_append_left (by simpa using hi)]
    simp [ha]
  rw [List.getElem?_map] at h1
  cases hb : t.queue[i]? with
  | none => rw [hb] at h1; cases h1
  | some b => rw [hb] at h1; exact ⟨b, rfl, by simpa using h1⟩

theorem Delta.delta_emit (o : Obs) (s : State) :
    Delta s { s with log := s.log ++ [o] } o.visit?.toList o.ret?.toList o.request?.toList :=
  Delta.delta_of_emit o rfl rfl

theorem request_of_static (a : Action) : request_of a.static = request_of a := rfl

theorem request_of_congr {a b : Action} (h : b.static = a.static) :
    request_of b = request_of a := by
  rw [← request_of_static a, ← request_of_static b, h]

theorem check_restart_spec (env : Env) (l : Locals) (s : State) :
    ∃ l' s', check_restart env l s = .ok l' s' ∧ Quiet s s' ∧ l'.status = l.status := by
  unfold check_restart
  by_cases h : s.restart_usb = 1
  · refine ⟨{ l with transport := env.reopen_device (events s.log) },
      { s with log := s.log ++ [.call .reopen_device], restart_usb := 0 }, by simp [h], ?_, rfl⟩
    exact Quiet.quiet_of_emit (.call .reopen_device) rfl rfl rfl rfl rfl
  · exact ⟨l, s, by simp [h], Quiet.quiet_refl s, rfl⟩

theorem loop_head_spec (env : Env) (i : Nat) (a : Action) (l : Locals) (s : State) :
    ∃ l' s', loop_head env i a l s = .ok l' s' ∧ Delta s s' [i] [] [] ∧ l'.status = l.status := by
  obtain ⟨l1, s1, h1, hq1, hl1⟩ := check_restart_spec env l { s with log := s.log ++ [.visit i] }
  have hv : Delta s { s with log := s.log ++ [.visit i] } [i] [] [] :=
    Delta.delta_of_emit (.visit i) rfl rfl
  have hmod := (preserves_modify_start i (env.now s1.clock)).quiet { s1 with clock := s1.clock + 1 }
  have hnow : Quiet s1 { s1 with clock := s1.clock + 1 } := Quiet.quiet_of_eq rfl rfl
  simp only [modify_run, Res.state] at hmod
  have h2 := (hv.delta_trans hq1.to_delta).delta_trans ((hnow.quiet_trans hmod).to_delta)
  simp only [List.append_nil] at h2
  cases hm : a.msg with
  | none =>
    refine ⟨if l1.start < 0 then { l1 with start := env.now s1.clock } else l1, _, ?_, h2, ?_⟩
    · simp only [loop_head, bind_run, emit_run, h1, now_run, modify_run, hm, pure_run]
    · split <;> simp [hl1]
  | some m =>
    have h3 := h2.delta_trans (Delta.delta_emit (.message m) _)
    simp only [List.append_nil, Obs.visit?, Obs.ret?, Obs.request?, Option.toList] at h3
    refine ⟨if l1.start < 0 then { l1 with start := env.now s1.clock } else l1, _, ?_, h3, ?_⟩
    · simp only [loop_head, bind_run, emit_run, h1, now_run, modify_run, hm, pure_run]
    · split <;> simp [hl1]

theorem call_and_check_ok (env : Env) (i : Nat) (a : Action) (e : Event) (query : Bool)
    (l : Locals) (s : State) (rq : Request) (he : (Obs.call e).request? = some rq)
    (b : Bool) (l' : Locals) (s' : State)
    (h : call_and_check env i a e query l s = .ok (b, l') s') :
    Delta s s' [] [(i, l'.status)] [rq] ∧ b = decide (l'.status ≠ 0) := by
  have hreq := Delta.delta_emit (.call e) s
  rw [he] at hreq
  simp only [call_and_check, bind_run, request_run] at h
  generalize hst : (env.device (events s.log) e).status = st at h
  generalize hresp : (if st ≠ 0 then (env.device (events s.log) e).error
    else if query = true then (env.device (events s.log) e).resp else []) = resp at h
  have hcb := (preserves_call_func env a.func i st resp).quiet { s with log := s.log ++ [.call e] }
  cases hc : call_func env a.func i st resp { s with log := s.log ++ [.call e] } with
  | fault f s1 => rw [hc] at h; cases h
  | ok v s1 =>
    rw [hc] at h hcb
    simp only [emit_run, pure_run, Res.ok.injEq, Prod.mk.injEq] at h
    obtain ⟨⟨hb, hl⟩, hs⟩ := h
    subst hs hl
    have h3 := (hreq.delta_trans hcb.to_delta).delta_trans (Delta.delta_emit (.ret i v) s1)
    exact ⟨by simpa [Obs.visit?, Obs.ret?, Obs.request?] using h3, hb.symm⟩

theorem call_and_check_fault (env : Env) (i : Nat) (a : Action) (e : Event) (query : Bool)
    (l : Locals) (s : State) (f : Fault) (s' : State)
    (h : call_and_check env i a e query l s = .fault f s') :
    ∃ qs, Delta s s' [] [] qs := by
  have hreq := Delta.delta_emit (.call e) s
  simp only [call_and_check, bind_run, request_run] at h
  generalize hst : (env.device (events s.log) e).status = st at h
  generalize hresp : (if st ≠ 0 then (env.device (events s.log) e).error
    else if query = true then (env.device (events s.log) e).resp else []) = resp at h
  have hcb := (preserves_call_func env a.func i st resp).quiet { s with log := s.log ++ [.call e] }
  cases hc : call_func env a.func i st resp { s with log := s.log ++ [.call e] } with
  | fault f1 s1 =>
    rw [hc] at h hcb
    simp only [Res.fault.injEq] at h
    obtain ⟨_, hs⟩ := h
    subst hs
    exact ⟨_, by simpa [Obs.visit?, Obs.ret?] using hreq.delta_trans hcb.to_delta⟩
  | ok v s1 =>
    rw [hc] at h
    simp only [emit_run, pure_run] at h
    cases h

theorem dispatch_ok (env : Env) (i : Nat) (a : Action) (l : Locals) (s : State)
    (b : Bool) (l' : Locals) (s' : State) (h : dispatch env i a l s = .ok (b, l') s') :
    ∃ rs, Delta s s' [] rs (request_of a).toList ∧
      ((rs = [] ∧ b = false ∧ l'.status = l.status) ∨
       (rs = [(i, l'.status)] ∧ b = decide (l'.status ≠ 0))) := by
  unfold dispatch at h
  unfold request_of
  split at h
  · rename_i h1
    rw [if_pos h1]
    have := call_and_check_ok env i a (.fb_download_data l.transport a.data a.size) false l s _ rfl b l' s' h
    exact ⟨_, this.1, Or.inr ⟨rfl, this.2⟩⟩
  rename_i h1
  rw [if_neg h1]
  split at h
  · rename_i h2
    rw [if_pos h2]
    have := call_and_check_ok env i a (.fb_command l.transport a.cmd) false l s _ rfl b l' s' h
    exact ⟨_, this.1, Or.inr ⟨rfl, this.2⟩⟩
  rename_i h2
  rw [if_neg h2]
  split at h
  · rename_i h3
    rw [if_pos h3]
    have := call_and_check_ok env i a (.fb_command_response l.transport a.cmd) true l s _ rfl b l' s' h
    exact ⟨_, this.1, Or.inr ⟨rfl, this.2⟩⟩
  rename_i h3
  rw [if_neg h3]
  split at h
  · rename_i h4
    have h5 : ¬ a.op = OP_DOWNLOAD_SPARSE := by rw [h4]; decide
    have h6 : ¬ a.op = OP_WAIT_FOR_DISCONNECT := by rw [h4]; decide
    rw [if_neg h5, if_neg h6]
    cases hd : a.data with
    | text n =>
      simp only [hd, bind_run, fprintf_run, pure_run, Res.ok.injEq, Prod.mk.injEq] at h
      obtain ⟨⟨hb, hl⟩, hs⟩ := h
      subst hs hl hb
      have hw := Delta.delta_emit (.print ⟨"%s\n".toList, [.str n]⟩) s
      exact ⟨[], by simpa [Obs.visit?, Obs.ret?, Obs.request?] using hw, Or.inl ⟨rfl, rfl, rfl⟩⟩
    | _ =>
      simp only [hd, undefined_run] at h
      cases h
  rename_i h4
  split at h
  · rename_i h5
    rw [if_pos h5]
    have := call_and_check_ok env i a (.fb_download_data_sparse l.transport a.data) false l s _ rfl b l' s' h
    exact ⟨_, this.1, Or.inr ⟨rfl, this.2⟩⟩
  rename_i h5
  rw [if_neg h5]
  split at h
  · rename_i h6
    rw [if_pos h6]
    simp only [bind_run, emit_run, pure_run, Res.ok.injEq, Prod.mk.injEq] at h
    obtain ⟨⟨hb, hl⟩, hs⟩ := h
    subst hs hl hb
    have hw := Delta.delta_emit (.call (.WaitForDisconnect l.transport)) s
    exact ⟨[], by simpa [Obs.visit?, Obs.ret?, Obs.request?] using hw, Or.inl ⟨rfl, rfl, rfl⟩⟩
  · simp only [die_run] at h
    cases h

theorem dispatch_fault (env : Env) (i : Nat) (a : Action) (l : Locals) (s : State)
    (f : Fault) (s' : State) (h : dispatch env i a l s = .fault f s') :
    ∃ qs, Delta s s' [] [] qs := by
  have hrefl : ∀ t : State, Delta t t [] [] [] := fun t => (Quiet.quiet_refl t).to_delta
  unfold dispatch at h
  split at h
  · exact call_and_check_fault _ _ _ _ _ _ _ _ _ h
  split at h
  · exact call_and_check_fault _ _ _ _ _ _ _ _ _ h
  split at h
  · exact call_and_check_fault _ _ _ _ _ _ _ _ _ h
  split at h
  · cases hd : a.data with
    | text n =>
      simp only [hd, bind_run, fprintf_run, pure_run] at h
      cases h
    | _ =>
      simp only [hd, undefined_run, Res.fault.injEq] at h
      obtain ⟨_, hs⟩ := h
      subst hs
      exact ⟨_, hrefl _⟩
  split at h
  · exact call_and_check_fault _ _ _ _ _ _ _ _ _ h
  split at h
  · simp only [bind_run, emit_run, pure_run] at h
    cases h
  · simp only [die_run, Res.fault.injEq] at h
    obtain ⟨_, hs⟩ := h
    subst hs
    exact ⟨_, hrefl _⟩

theorem loop_body_ok (env : Env) (i : Nat) (a : Action) (l : Locals) (s : State)
    (b : Bool) (l' : Locals) (s' : State) (h : loop_body env i a l s = .ok (b, l') s') :
    ∃ rs, Delta s s' [i] rs (request_of a).toList ∧
      ((rs = [] ∧ b = false ∧ l'.status = l.status) ∨
       (rs = [(i, l'.status)] ∧ b = decide (l'.status ≠ 0))) := by
  obtain ⟨l1, s1, h1, hd1, hl1⟩ := loop_head_spec env i a l s
  simp only [loop_body, bind_run, h1] at h
  obtain ⟨rs, hd, hor⟩ := dispatch_ok env i a l1 s1 b l' s' h
  refine ⟨rs, by simpa using hd1.delta_trans hd, ?_⟩
  rw [← hl1]
  exact hor

theorem loop_body_fault (env : Env) (i : Nat) (a : Action) (l : Locals) (s : State)
    (f : Fault) (s' : State) (h : loop_body env i a l s = .fault f s') :
    ∃ qs, Delta s s' [i] [] qs := by
  obtain ⟨l1, s1, h1, hd1, _⟩ := loop_head_spec env i a l s
  simp only [loop_body, bind_run, h1] at h
  obtain ⟨qs, hd⟩ := dispatch_fault env i a l1 s1 f s' h
  exact ⟨_, by simpa using hd1.delta_trans hd⟩

theorem finish_spec (env : Env) (l : Locals) (s : State) :
    ∃ s', finish env l s = (.returned l.status, s') ∧ Delta s s' [] [] [] ∧
      s'.queue = s.queue := by
  refine ⟨_, rfl, ?_, rfl⟩
  have h1 : Quiet s { s with clock := s.clock + 1 } := Quiet.quiet_of_eq rfl rfl
  have h2 := Delta.delta_emit (.print ⟨"finished. total time: %.3fs\n".toList,
    [.time (env.now s.clock - l.start)]⟩) { s with clock := s.clock + 1 }
  simpa [Obs.visit?, Obs.ret?, Obs.request?] using h1.to_delta.delta_trans h2

theorem requests_step (q : List Action) (i n : Nat) (a b : Action) (hb : q[i]? = some b)
    (hab : b.static = a.static) :
    ((q.drop i).take (n + 1)).filterMap request_of =
      (request_of a).toList ++ ((q.drop (i + 1)).take n).filterMap request_of := by
  have hi : i < q.length := by
    rcases Nat.lt_or_ge i q.length with h | h
    · exact h
    · rw [List.getElem?_eq_none h] at hb; cases hb
  have hbe : q[i] = b := by
    rw [List.getElem?_eq_getElem hi] at hb
    exact Option.some.inj hb
  have hd : q.drop i = b :: q.drop (i + 1) := by
    rw [← hbe]; exact List.drop_eq_getElem_cons hi
  rw [hd, List.take_succ_cons, List.filterMap_cons, request_of_congr hab]
  cases request_of a <;> rfl

theorem walk_spec (env : Env) (fuel : Nat) : ∀ (i : Nat) (l : Locals) (s : State) (o : Outcome)
    (s' : State), l.status = 0 → i ≤ s.queue.length → walk env fuel i l s = (o, s') →
    ∃ n rs qs, Delta s s' (List.range' i n) rs qs ∧
      i + n ≤ s'.queue.length ∧
      ((∀ f, o ≠ .fault f) → qs = ((s'.queue.drop i).take n).filterMap request_of) ∧
      (∀ p ∈ rs, i ≤ p.1 ∧ p.1 < i + n ∧ (p.2 ≠ 0 → o = .returned p.2 ∧ p.1 + 1 = i + n)) ∧
      (∀ v, o = .returned v → v ≠ 0 → ∃ k, (k, v) ∈ rs) ∧
      (o = .returned 0 → s'.queue.length ≤ i + n) ∧
      (o = .out_of_fuel → n = fuel ∧ i + fuel < s'.queue.length) := by
  induction fuel with
  | zero =>
    intro i l s o s' hl hi h
    unfold walk at h
    cases ha : s.queue[i]? with
    | none =>
      obtain ⟨s1, hf, hd, hq⟩ := finish_spec env l s
      simp only [ha, hf, Prod.mk.injEq] at h
      obtain ⟨ho, hs⟩ := h
      subst ho hs
      have hlen : s.queue.length ≤ i := List.getElem?_eq_none_iff.1 ha
      refine ⟨0, [], [], hd, by rw [hq]; omega, fun _ => by simp, by simp, ?_, ?_, by simp⟩
      · intro v hv hv0
        simp only [Outcome.returned.injEq] at hv
        omega
      · intro _; rw [hq]; omega
    | some a =>
      simp only [ha, Prod.mk.injEq] at h
      obtain ⟨ho, hs⟩ := h
      subst ho hs
      have hlt : i < s.queue.length := by
        rcases Nat.lt_or_ge i s.queue.length with h | h
        · exact h
        · rw [List.getElem?_eq_none h] at ha; cases ha
      exact ⟨0, [], [], (Quiet.quiet_refl s).to_delta, by omega, fun _ => by simp, by simp, by simp,
        by simp, fun _ => ⟨rfl, by omega⟩⟩
  | succ fuel ih =>
    intro i l s o s' hl hi h
    unfold walk at h
    cases ha : s.queue[i]? with
    | none =>
      obtain ⟨s1, hf, hd, hq⟩ := finish_spec env l s
      simp only [ha, hf, Prod.mk.injEq] at h
      obtain ⟨ho, hs⟩ := h
      subst ho hs
      have hlen : s.queue.length ≤ i := List.getElem?_eq_none_iff.1 ha
      refine ⟨0, [], [], hd, by rw [hq]; omega, fun _ => by simp, by simp, ?_, ?_, by simp⟩
      · intro v hv hv0
        simp only [Outcome.returned.injEq] at hv
        omega
      · intro _; rw [hq]; omega
    | some a =>
      have hlt : i < s.queue.length := by
        rcases Nat.lt_or_ge i s.queue.length with h | h
        · exact h
        · rw [List.getElem?_eq_none h] at ha; cases ha
      simp only [ha] at h
      cases hb : loop_body env i a l s with
      | fault f s1 =>
        simp only [hb, Prod.mk.injEq] at h
        obtain ⟨ho, hs⟩ := h
        subst ho hs
        obtain ⟨qs, hd⟩ := loop_body_fault env i a l s f s1 hb
        have := hd.queue_length_le
        exact ⟨1, [], qs, by simpa using hd, by omega, fun hnf => absurd rfl (hnf f), by simp,
          by simp, by simp, by simp⟩
      | ok v s1 =>
        obtain ⟨b, l1⟩ := v
        obtain ⟨rs, hd, hor⟩ := loop_body_ok env i a l s b l1 s1 hb
        have hlen1 := hd.queue_length_le
        cases b with
        | true =>
          obtain ⟨s2, hf, hd2, hq2⟩ := finish_spec env l1 s1
          simp only [hb, hf, Prod.mk.injEq] at h
          obtain ⟨ho, hs⟩ := h
          subst ho hs
          rcases hor with ⟨_, hbf, _⟩ | ⟨hrs, hbt⟩
          · cases hbf
          have hne : l1.status ≠ 0 := by simpa using hbt.symm
          obtain ⟨b1, hb1, hb1s⟩ := (hd.delta_trans hd2).queue_getElem? i a ha
          refine ⟨1, rs, (request_of a).toList, by simpa using hd.delta_trans hd2, by rw [hq2]; omega,
            fun _ => ?_, ?_, ?_, ?_, by simp⟩
          · have := requests_step _ i 0 a b1 hb1 hb1s
            simpa using this.symm
          · intro p hp
            rw [hrs] at hp
            simp only [List.mem_singleton] at hp
            subst hp
            exact ⟨le_refl _, by omega, fun _ => ⟨rfl, rfl⟩⟩
          · intro v hv _
            simp only [Outcome.returned.injEq] at hv
            exact ⟨i, by rw [hrs, hv]; simp⟩
          · intro h0
            simp only [Outcome.returned.injEq] at h0
            exact absurd h0 hne
        | false =>
          simp only [hb] at h
          have hl1 : l1.status = 0 := by
            rcases hor with ⟨_, _, hls⟩ | ⟨_, hbt⟩
            · rw [hls, hl]
            · simpa using hbt.symm
          obtain ⟨n, rs', qs', hd', hn', hq', hr', hv', h0', hf'⟩ :=
            ih (i + 1) l1 s1 o s' hl1 (by omega) h
          obtain ⟨b1, hb1, hb1s⟩ := (hd.delta_trans hd').queue_getElem? i a ha
          have hrs0 : ∀ p ∈ rs, p.1 = i ∧ p.2 = 0 := by
            intro p hp
            rcases hor with ⟨hrs, _, _⟩ | ⟨hrs, _⟩
            · rw [hrs] at hp; cases hp
            · rw [hrs] at hp
              simp only [List.mem_singleton] at hp
              subst hp
              exact ⟨rfl, hl1⟩
          refine ⟨n + 1, rs ++ rs', (request_of a).toList ++ qs', ?_, by omega, ?_, ?_, ?_, ?_, ?_⟩
          · have := hd.delta_trans hd'
            rwa [List.range'_succ]
          · intro hnf
            rw [hq' hnf]
            exact (requests_step s'.queue i n a b1 hb1 hb1s).symm
          · intro p hp
            rcases List.mem_append.1 hp with hp | hp
            · obtain ⟨h1, h2⟩ := hrs0 p hp
              exact ⟨by omega, by omega, fun h => absurd h2 h⟩
            · obtain ⟨h1, h2, h3⟩ := hr' p hp
              exact ⟨by omega, by omega, fun h => ⟨(h3 h).1, by have := (h3 h).2; omega⟩⟩
          · intro v hv hv0
            obtain ⟨k, hk⟩ := hv' v hv hv0
            exact ⟨k, List.mem_append.2 (Or.inr hk)⟩
          · intro h0
            have := h0' h0
            omega
          · intro hof
            obtain ⟨h1, h2⟩ := hf' hof
            exact ⟨by omega, by omega⟩

theorem execute_spec (env : Env) (fuel transport : Nat) (s : State) (o : Outcome) (s' : State)
    (h : fb_execute_queue env fuel transport s = (o, s')) :
    ∃ n rs qs, Delta s s' (List.range n) rs qs ∧
      n ≤ s'.queue.length ∧
      ((∀ f, o ≠ .fault f) → qs = (s'.queue.take n).filterMap request_of) ∧
      (∀ p ∈ rs, p.1 < n ∧ (p.2 ≠ 0 → o = .returned p.2 ∧ p.1 + 1 = n)) ∧
      (∀ v, o = .returned v → v ≠ 0 → ∃ k, (k, v) ∈ rs) ∧
      (o = .returned 0 → n = s'.queue.length) ∧
      (o = .out_of_fuel → n = fuel ∧ fuel < s'.queue.length) := by
  unfold fb_execute_queue at h
  split at h
  · rename_i he
    simp only [Prod.mk.injEq] at h
    obtain ⟨ho, hs⟩ := h
    subst ho hs
    have hq : s.queue = [] := by simpa using he
    exact ⟨0, [], [], (Quiet.quiet_refl s).to_delta, by simp, fun _ => by simp, by simp, by simp,
      fun _ => by simp [hq], by simp⟩
  · obtain ⟨n, rs, qs, hd, hn, hq, hr, hv, h0, hf⟩ :=
      walk_spec env fuel 0 _ s o s' rfl (Nat.zero_le _) h
    refine ⟨n, rs, qs, by simpa [List.range_eq_range'] using hd, by omega, ?_, ?_, hv, ?_, ?_⟩
    · intro hnf; simpa using hq hnf
    · intro p hp
      obtain ⟨_, h2, h3⟩ := hr p hp
      exact ⟨by omega, fun h => ⟨(h3 h).1, by have := (h3 h).2; omega⟩⟩
    · intro h; have := h0 h; omega
    · intro h; have := hf h; omega

theorem lookup_fds_set (fds : List (Int × OpenFile)) (fd : Int) (f : OpenFile) :
    (fds_set fds fd f).lookup fd = some f := by
  simp [fds_set, List.lookup]

theorem to_int32_of_lt (x : Int) (h0 : 0 ≤ x) (h1 : x < 2147483648) : to_int32 x = x := by
  unfold to_int32; omega

theorem to_uint32_of_lt (x : Int) (h0 : 0 ≤ x) (h1 : x < 4294967296) :
    to_uint32 x = x.toNat := by
  unfold to_uint32
  rw [Int.emod_eq_of_lt h0 h1]

theorem index_ok (xs : List Int) (c : Int) (x : Int) (hc : 0 ≤ c) (hx : xs[c.toNat]? = some x) :
    index xs c = .ok x := by
  unfold index
  rw [if_neg (by omega), hx]

theorem sys_lseek_set_run (fd off : Int) (s : State) (f : OpenFile)
    (hf : s.fds.lookup fd = some f) (hoff : 0 ≤ off) :
    sys_lseek_set fd off s = .ok off { s with fds := fds_set s.fds fd { f with pos := off.toNat } } := by
  simp [sys_lseek_set, hf, not_lt.2 hoff]

theorem sys_read_run (fd : Int) (n : Nat) (s : State) (f : OpenFile)
    (hf : s.fds.lookup fd = some f) :
    sys_read fd n s = .ok (some ((f.bytes.drop f.pos).take n))
      { s with fds := fds_set s.fds fd ⟨f.bytes, f.pos + ((f.bytes.drop f.pos).take n).length⟩ } := by
  simp [sys_read, hf]

theorem sys_close_run (fd : Int) (s : State) :
    sys_close fd s = .ok () { s with
      log := s.log ++ [.call (.sys_close fd)]
      fds := s.fds.filter fun p => p.1 != fd } := by
  simp [sys_close]

theorem largezip_open_skip (env : Env) (fname : Option CStr) (s : State)
    (h : s.zip_info.open_fd ≠ 0) : largezip_open env fname s = .ok () s := by
  simp [largezip_open, h]

/-- The two nodes `fb_queue_flash_zip` appends for sub-image `c` with content `b`. -/
theorem largezip_next (env : Env) (s : State) (c len start : Int) (f : OpenFile)
    (hfd : s.zip_info.open_fd ≠ 0) (hc : s.zip_info.current_flash = c) (hc0 : 0 ≤ c)
    (hc8 : c < 8) (hlen : s.zip_info.largezip.lengths[c.toNat]? = some len) (hpos : 0 < len)
    (hlen31 : len < 2147483648) (hst : s.zip_info.largezip.starts[c.toNat]? = some start)
    (hst0 : 0 ≤ start) (hf : s.fds.lookup s.zip_info.open_fd = some f)
    (hfit : start.toNat + len.toNat ≤ f.bytes.length) :
    fb_queue_flash_largezip env none s = .ok ()
      { s with
        queue := s.queue ++
          [{ op := OP_DOWNLOAD, cmd := [], prod := none,
             data := .bytes ((f.bytes.drop start.toNat).take len.toNat), size := len.toNat,
             msg := mkmsg "sending '%s' (%d KB)"
               [.str (fmt_d c ++ "-zip".toList), .int (len.toNat / 1024 : Nat)],
             func := .cb_default, start := -1 },
           { op := OP_COMMAND, cmd := "flash:zip".toList, prod := none, data := .null,
             size := 0, msg := mkmsg "writing '%s'" [.str (fmt_d c ++ "-zip".toList)],
             func := .cb_largezip_check, start := -1 }]
        fds := fds_set (fds_set s.fds s.zip_info.open_fd { f with pos := start.toNat })
          s.zip_info.open_fd { f with pos := start.toNat + len.toNat }
        zip_info := { s.zip_info with
          current_data := some ((f.bytes.drop start.toNat).take len.toNat) } } := by
  have hrl : ((f.bytes.drop start.toNat).take len.toNat).length = len.toNat := by
    rw [List.length_take, List.length_drop]; omega
  have hne : ¬ ((len.toNat : Int) ≠ to_int32 len) := by
    rw [to_int32_of_lt len (le_of_lt hpos) hlen31]; omega
  unfold fb_queue_flash_largezip
  simp only [bind_run, largezip_open_skip env none s hfd, get_state_run, hc, ge_iff_le,
    not_le.2 hc8, if_false, index_ok _ c len hc0 hlen, lift_ok_run, not_le.2 hpos,
    index_ok _ c start hc0 hst, sys_lseek_set_run _ _ s f hf hst0]
  rw [if_neg (by omega)]
  have hread := sys_read_run s.zip_info.open_fd len.toNat
    { s with fds := fds_set s.fds s.zip_info.open_fd { f with pos := start.toNat } }
    { f with pos := start.toNat } (lookup_fds_set _ _ _)
  dsimp only at hread
  simp only [bind_run, hread, update_zip_run, Option.getD_some, hrl]
  rw [if_neg hne, fb_queue_flash_zip_run, to_uint32_of_lt len (le_of_lt hpos) (by omega)]
  simp only [hc]

theorem largezip_stop (env : Env) (s : State) (c len : Int)
    (hfd : s.zip_info.open_fd ≠ 0) (hc : s.zip_info.current_flash = c) (hc0 : 0 ≤ c)
    (hc8 : c < 8) (hlen : s.zip_info.largezip.lengths[c.toNat]? = some len) (hpos : len ≤ 0) :
    fb_queue_flash_largezip env none s = .ok ()
      { s with
        log := s.log ++ [.call (.sys_close s.zip_info.open_fd)]
        fds := s.fds.filter fun p => p.1 != s.zip_info.open_fd } := by
  unfold fb_queue_flash_largezip
  simp only [bind_run, largezip_open_skip env none s hfd, get_state_run, hc, ge_iff_le,
    not_le.2 hc8, if_false, index_ok _ c len hc0 hlen, lift_ok_run, hpos, if_true,
    sys_close_run]

theorem sys_lseek_cur_run (fd : Int) (s : State) (f : OpenFile)
    (hf : s.fds.lookup fd = some f) : sys_lseek_cur fd s = .ok (f.pos : Int) s := by
  simp [sys_lseek_cur, hf]

theorem read_header_ok (env : Env) (fd : Int) (header : htc_largezip_header_t) (s : State)
    (bytes : List Char) (hf : s.fds.lookup fd = some ⟨bytes, 0⟩)
    (hsize : env.decl.sizeof_header ≤ bytes.length)
    (hmagic : strncmp (env.decl.layout (bytes.take env.decl.sizeof_header)).magic
      env.decl.HTC_LARGEZIP_HEADER_MAGIC (strlen env.decl.HTC_LARGEZIP_HEADER_MAGIC) = 0) :
    htc_largezip_read_header env fd header s =
      .ok (1, env.decl.layout (bytes.take env.decl.sizeof_header))
        { s with fds := fds_set s.fds fd ⟨bytes, env.decl.sizeof_header⟩ } := by
  have hlen : (bytes.take env.decl.sizeof_header).length = env.decl.sizeof_header := by
    rw [List.length_take]; omega
  simp only [htc_largezip_read_header, bind_run, sys_lseek_cur_run fd s _ hf,
    sys_read_run fd _ s _ hf, List.drop_zero, hlen, Nat.zero_add, ne_eq, not_true_eq_false,
    if_false, Option.getD_some, hmagic, pure_run]

theorem largezip_open_fresh (env : Env) (s : State) (fname : CStr) (bytes : List Char)
    (h0 : s.zip_info.open_fd = 0) (hfile : env.files fname = some bytes)
    (hsize : env.decl.sizeof_header ≤ bytes.length)
    (hmagic : strncmp (env.decl.layout (bytes.take env.decl.sizeof_header)).magic
      env.decl.HTC_LARGEZIP_HEADER_MAGIC (strlen env.decl.HTC_LARGEZIP_HEADER_MAGIC) = 0) :
    largezip_open env (some fname) s = .ok ()
      { s with
        log := s.log ++ [.call (.sys_open fname)]
        fds := fds_set (fds_set s.fds (lowest_free s.fds) ⟨bytes, 0⟩) (lowest_free s.fds)
          ⟨bytes, env.decl.sizeof_header⟩
        zip_info := { s.zip_info with
          open_fd := lowest_free s.fds
          current_data := none
          current_flash := 0
          largezip := env.decl.layout (bytes.take env.decl.sizeof_header) } } := by
  have hread := read_header_ok env (lowest_free s.fds) s.zip_info.largezip
    { s with
      log := s.log ++ [.call (.sys_open fname)]
      fds := fds_set s.fds (lowest_free s.fds) ⟨bytes, 0⟩
      zip_info := { s.zip_info with
        open_fd := lowest_free s.fds, current_data := none, current_flash := 0 } }
    bytes (lookup_fds_set _ _ _) hsize hmagic
  dsimp only at hread
  simp only [largezip_open, bind_run, get_state_run, h0, if_true, sys_open, emit_run, hfile,
    set_fds_run, pure_run, update_zip_run, hread]
  simp

theorem largezip_after_open (env : Env) (fname : Option CStr) (s s1 : State)
    (h : largezip_open env fname s = .ok () s1) (h1 : s1.zip_info.open_fd ≠ 0) :
    fb_queue_flash_largezip env fname s = fb_queue_flash_largezip env none s1 := by
  unfold fb_queue_flash_largezip
  simp only [bind_run, h, largezip_open_skip env none s1 h1]

theorem events_append (a b : List Obs) : events (a ++ b) = events a ++ events b := by
  simp [events, List.filterMap_append]

theorem events_message (a : Action) : events (a.msg.map Obs.message).toList = [] := by
  cases a.msg <;> rfl

theorem loop_head_run (env : Env) (i : Nat) (a : Action) (l : Locals) (s : State)
    (hr : s.restart_usb ≠ 1) :
    loop_head env i a l s =
      .ok (if l.start < 0 then { l with start := env.now s.clock } else l)
        { s with
          clock := s.clock + 1
          queue := set_at (fun a => { a with start := env.now s.clock }) i s.queue
          log := s.log ++ [.visit i] ++ (a.msg.map Obs.message).toList } := by
  cases hm : a.msg <;>
    simp [loop_head, check_restart, hr, hm]

theorem loop_head_restart (env : Env) (i : Nat) (a : Action) (l : Locals) (s : State)
    (hr : s.restart_usb = 1) :
    loop_head env i a l s =
      .ok (if l.start < 0 then
            { l with transport := env.reopen_device (events s.log), start := env.now s.clock }
          else { l with transport := env.reopen_device (events s.log) })
        { s with
          clock := s.clock + 1
          restart_usb := 0
          queue := set_at (fun a => { a with start := env.now s.clock }) i s.queue
          log := s.log ++ [.visit i, .call .reopen_device] ++ (a.msg.map Obs.message).toList } := by
  have he : events (s.log ++ [.visit i]) = events s.log := by simp [events_append, events]
  cases hm : a.msg <;>
    simp [loop_head, check_restart, hr, hm, he]

theorem call_and_check_run (env : Env) (i : Nat) (a : Action) (e : Event) (query : Bool)
    (l : Locals) (s s1 : State) (v : Int)
    (h : call_func env a.func i (env.device (events s.log) e).status
      (if (env.device (events s.log) e).status ≠ 0 then (env.device (events s.log) e).error
        else if query then (env.device (events s.log) e).resp else [])
      { s with log := s.log ++ [.call e] } = .ok v s1) :
    call_and_check env i a e query l s =
      .ok (decide (v ≠ 0), { l with status := v }) { s1 with log := s1.log ++ [.ret i v] } := by
  simp only [call_and_check, bind_run, request_run, h, emit_run, pure_run]

theorem cb_default_okay (env : Env) (i : Nat) (resp : CStr) (s : State) (a : Action)
    (ha : s.queue[i]? = some a) :
    cb_default env i 0 resp s = .ok 0
      { s with
        clock := s.clock + 1
        log := s.log ++ [.print ⟨"OKAY [%7.3fs]\n".toList, [.time (env.now s.clock - a.start)]⟩]
        queue := set_at (fun a => { a with start := env.now s.clock }) i s.queue } := by
  simp [cb_default, action_run i s a ha]

theorem walk_step (env : Env) (fuel i : Nat) (a : Action) (l l' : Locals) (s s' : State)
    (ha : s.queue[i]? = some a) (hb : loop_body env i a l s = .ok (false, l') s') :
    walk env (fuel + 1) i l s = walk env fuel (i + 1) l' s' := by
  rw [walk]
  simp only [ha, hb]

theorem walk_end (env : Env) (fuel i : Nat) (l : Locals) (s : State)
    (ha : s.queue[i]? = none) : walk env fuel i l s = finish env l s := by
  cases fuel <;> rw [walk] <;> simp only [ha]

theorem getElem?_set_at (f : Action → Action) (i j : Nat) (q : List Action) :
    (set_at f i q)[j]? = if i = j then q[j]?.map f else q[j]? := by
  induction q generalizing i j with
  | nil => cases i <;> simp [set_at]
  | cons a q ih =>
    cases i with
    | zero =>
      cases j with
      | zero => simp [set_at]
      | succ j => simp [set_at]
    | succ i =>
      cases j with
      | zero => simp [set_at]
      | succ j => simp [set_at, ih]

theorem set_at_start_static (t : Int) (i : Nat) (q : List Action) :
    (set_at (fun a => { a with start := t }) i q).map Action.static = q.map Action.static :=
  set_at_static (fun a => { a with start := t }) (fun _ => rfl) i q

theorem static_getElem? (q : List Action) (i : Nat) (a0 : Action)
    (h : (q.map Action.static)[i]? = some a0) : ∃ a, q[i]? = some a ∧ a.static = a0 := by
  rw [List.getElem?_map] at h
  cases ha : q[i]? with
  | none => rw [ha] at h; cases h
  | some a => rw [ha] at h; exact ⟨a, rfl, by simpa using h⟩

theorem loop_body_download (env : Env) (i : Nat) (a : Action) (l : Locals) (s s1 : State)
    (v : Int) (hr : s.restart_usb ≠ 1) (hop : a.op = OP_DOWNLOAD)
    (hcall : call_func env a.func i
      (env.device (events s.log) (.fb_download_data l.transport a.data a.size)).status
      (if (env.device (events s.log) (.fb_download_data l.transport a.data a.size)).status ≠ 0
        then (env.device (events s.log) (.fb_download_data l.transport a.data a.size)).error
        else [])
      { s with
        clock := s.clock + 1
        queue := set_at (fun a => { a with start := env.now s.clock }) i s.queue
        log := s.log ++ [.visit i] ++ (a.msg.map Obs.message).toList ++
          [.call (.fb_download_data l.transport a.data a.size)] } = .ok v s1) :
    loop_body env i a l s =
      .ok (decide (v ≠ 0),
          { transport := l.transport, status := v,
            start := if l.start < 0 then env.now s.clock else l.start })
        { s1 with log := s1.log ++ [.ret i v] } := by
  have he : events (s.log ++ [.visit i] ++ (a.msg.map Obs.message).toList) = events s.log := by
    simp [events_append, events_message, events]
  simp only [loop_body, bind_run, loop_head_run env i a l s hr, dispatch, hop, if_true]
  have htr : (if l.start < 0 then { l with start := env.now s.clock } else l).transport
      = l.transport := by split <;> rfl
  rw [call_and_check_run env i a _ false _ _ s1 v (by
    dsimp only
    rw [he, htr]
    simpa using hcall)]
  congr 2
  split <;> rfl

theorem loop_body_command (env : Env) (i : Nat) (a : Action) (l : Locals) (s s1 : State)
    (v : Int) (hr : s.restart_usb ≠ 1) (hop : a.op = OP_COMMAND)
    (hcall : call_func env a.func i
      (env.device (events s.log) (.fb_command l.transport a.cmd)).status
      (if (env.device (events s.log) (.fb_command l.transport a.cmd)).status ≠ 0
        then (env.device (events s.log) (.fb_command l.transport a.cmd)).error
        else [])
      { s with
        clock := s.clock + 1
        queue := set_at (fun a => { a with start := env.now s.clock }) i s.queue
        log := s.log ++ [.visit i] ++ (a.msg.map Obs.message).toList ++
          [.call (.fb_command l.transport a.cmd)] } = .ok v s1) :
    loop_body env i a l s =
      .ok (decide (v ≠ 0),
          { transport := l.transport, status := v,
            start := if l.start < 0 then env.now s.clock else l.start })
        { s1 with log := s1.log ++ [.ret i v] } := by
  have he : events (s.log ++ [.visit i] ++ (a.msg.map Obs.message).toList) = events s.log := by
    simp [events_append, events_message, events]
  have hop1 : ¬ OP_COMMAND = OP_DOWNLOAD := by decide
  simp only [loop_body, bind_run, loop_head_run env i a l s hr, dispatch, hop, hop1, if_true,
    if_false]
  have htr : (if l.start < 0 then { l with start := env.now s.clock } else l).transport
      = l.transport := by split <;> rfl
  rw [call_and_check_run env i a _ false _ _ s1 v (by
    dsimp only
    rw [he, htr]
    simpa using hcall)]
  congr 2
  split <;> rfl

theorem step_download (env : Env) (fd : Int) (bytes : List Char) (h : htc_largezip_header_t)
    (s : State) (c : Int) (q : List Action) (ev : List Event) (i : Nat) (a0 : Action)
    (l : Locals) (fuel : Nat) (hS : Sess fd bytes h s c 0 q ev) (hq : q[i]? = some a0)
    (hop : a0.op = OP_DOWNLOAD) (hfn : a0.func = .cb_default)
    (hdev : (env.device ev (.fb_download_data l.transport a0.data a0.size)).status = 0) :
    ∃ l' s', walk env (fuel + 1) i l s = walk env fuel (i + 1) l' s' ∧
      l'.transport = l.transport ∧ l'.status = 0 ∧
      Sess fd bytes h s' c 0 q (ev ++ [.fb_download_data l.transport a0.data a0.size]) := by
  obtain ⟨a, ha, has⟩ := static_getElem? s.queue i a0 (by rw [hS.queue]; exact hq)
  have hop' : a.op = OP_DOWNLOAD := by rw [← hop, ← has]; rfl
  have hfn' : a.func = .cb_default := by rw [← hfn, ← has]; rfl
  have hdata : a.data = a0.data := by rw [← has]; rfl
  have hsize : a.size = a0.size := by rw [← has]; rfl
  have hr : s.restart_usb ≠ 1 := by rw [hS.restart]; decide
  have hst : (env.device (events s.log) (.fb_download_data l.transport a.data a.size)).status
      = 0 := by rw [hS.events, hdata, hsize]; exact hdev
  have hcall := cb_default_okay env i []
    { s with
      clock := s.clock + 1
      queue := set_at (fun a => { a with start := env.now s.clock }) i s.queue
      log := s.log ++ [.visit i] ++ (a.msg.map Obs.message).toList ++
        [.call (.fb_download_data l.transport a.data a.size)] }
    { a with start := env.now s.clock } (by simp [getElem?_set_at, ha])
  have hbody := loop_body_download env i a l s _ 0 hr hop' (by
    rw [hst, hfn']
    simpa [call_func] using hcall)
  refine ⟨_, _, walk_step env fuel i a l _ s _ ha hbody, rfl, rfl, ?_⟩
  constructor
  · simp only [set_at_start_static]
    exact hS.queue
  · exact hS.open_fd
  · exact hS.flash
  · exact hS.header
  · exact hS.file
  · exact hS.restart
  · simp only [events_append, events_message, hS.events, hdata, hsize]
    simp [events]

theorem sub_image_length (bytes : List Char) (start len : Int)
    (hfit : start.toNat + len.toNat ≤ bytes.length) :
    (sub_image bytes start len).length = len.toNat := by
  unfold sub_image
  rw [List.length_take, List.length_drop]; omega

theorem sess_next (env : Env) (fd : Int) (bytes : List Char) (h : htc_largezip_header_t)
    (s : State) (c r : Int) (q : List Action) (ev : List Event) (len start : Int)
    (hS : Sess fd bytes h s c r q ev) (hfd : fd ≠ 0) (hc0 : 0 ≤ c) (hc8 : c < 8)
    (hlen : h.lengths[c.toNat]? = some len) (hpos : 0 < len) (hlen31 : len < 2147483648)
    (hst : h.starts[c.toNat]? = some start) (hst0 : 0 ≤ start)
    (hfit : start.toNat + len.toNat ≤ bytes.length) :
    ∃ s1, fb_queue_flash_largezip env none s = .ok () s1 ∧
      Sess fd bytes h s1 c r
        (q ++ [download_node c (sub_image bytes start len), flash_node c]) ev := by
  obtain ⟨pos, hf⟩ := hS.file
  have hnext := largezip_next env s c len start ⟨bytes, pos⟩ (by rw [hS.open_fd]; exact hfd)
    hS.flash hc0 hc8 (by rw [hS.header]; exact hlen) hpos hlen31
    (by rw [hS.header]; exact hst) hst0 (by rw [hS.open_fd]; exact hf) hfit
  refine ⟨_, hnext, ?_⟩
  constructor
  · have hl := sub_image_length bytes start len hfit
    simp only [List.map_append, hS.queue, List.map_cons, List.map_nil, Action.static,
      download_node, flash_node, hl]
    rfl
  · exact hS.open_fd
  · exact hS.flash
  · exact hS.header
  · exact ⟨_, by rw [← hS.open_fd]; exact lookup_fds_set _ _ _⟩
  · exact hS.restart
  · exact hS.events

theorem sess_stop (env : Env) (fd : Int) (bytes : List Char) (h : htc_largezip_header_t)
    (s : State) (c r : Int) (q : List Action) (ev : List Event) (len : Int)
    (hS : Sess fd bytes h s c r q ev) (hfd : fd ≠ 0) (hc0 : 0 ≤ c) (hc8 : c < 8)
    (hlen : h.lengths[c.toNat]? = some len) (hpos : len ≤ 0) :
    ∃ s1, fb_queue_flash_largezip env none s = .ok () s1 ∧
      s1.queue = s.queue ∧ s1.zip_info = s.zip_info ∧ s1.restart_usb = s.restart_usb ∧
      events s1.log = ev ++ [.sys_close fd] := by
  have hstop := largezip_stop env s c len (by rw [hS.open_fd]; exact hfd) hS.flash hc0 hc8
    (by rw [hS.header]; exact hlen) hpos
  refine ⟨_, hstop, rfl, rfl, rfl, ?_⟩
  rw [events_append, hS.events, hS.open_fd]
  rfl

theorem cb_largezip_fail (env : Env) (fd : Int) (bytes : List Char)
    (h : htc_largezip_header_t) (s : State) (c r : Int) (q : List Action) (ev : List Event)
    (len start : Int) (i : Nat) (st : Int) (resp : CStr)
    (hS : Sess fd bytes h s c r q ev) (hfd : fd ≠ 0) (hc0 : 0 ≤ c) (hc8 : c < 8)
    (hlen : h.lengths[c.toNat]? = some len) (hpos : 0 < len) (hlen31 : len < 2147483648)
    (hst : h.starts[c.toNat]? = some start) (hst0 : 0 ≤ start)
    (hfit : start.toNat + len.toNat ≤ bytes.length)
    (hne : st ≠ 0) (hhb : strstr_found resp "hboot pre-update".toList = true) :
    ∃ s1, cb_largezip_check env i st resp s = .ok 0 s1 ∧
      Sess fd bytes h s1 c 1
        (q ++ [wait_node, download_node c (sub_image bytes start len), flash_node c])
        (ev ++ [.sleep 5]) := by
  have hS1 : Sess fd bytes h
      { s with
        queue := s.queue ++ [⟨OP_WAIT_FOR_DISCONNECT, [], none, .null, 0, none, .cb_default, -1⟩]
        log := s.log ++ [.call (.sleep 5)]
        restart_usb := 1 } c 1 (q ++ [wait_node]) (ev ++ [.sleep 5]) := by
    constructor
    · simp only [List.map_append, hS.queue]
      rfl
    · exact hS.open_fd
    · exact hS.flash
    · exact hS.header
    · exact hS.file
    · rfl
    · rw [events_append, hS.events]
      rfl
  obtain ⟨s1, hrun, hS2⟩ := sess_next env fd bytes h _ c 1 _ _ len start hS1 hfd hc0 hc8 hlen
    hpos hlen31 hst hst0 hfit
  refine ⟨s1, ?_, by simpa using hS2⟩
  have hw : ¬ CMD_SIZE ≤ ([] : CStr).length := by decide
  simp only [cb_largezip_check, hne, ne_eq, not_false_eq_true, if_true, hhb, bind_run,
    fb_queue_wait_for_disconnect, queue_action_run, if_neg hw, emit_run, set_restart_usb_run,
    hrun, pure_run]

theorem cb_largezip_okay_next (env : Env) (fd : Int) (bytes : List Char)
    (h : htc_largezip_header_t) (s : State) (c r : Int) (q : List Action) (ev : List Event)
    (len start : Int) (i : Nat) (resp : CStr) (a : Action)
    (hS : Sess fd bytes h s c r q ev) (ha : s.queue[i]? = some a) (hfd : fd ≠ 0)
    (hc0 : 0 ≤ c + 1) (hc8 : c + 1 < 8)
    (hlen : h.lengths[(c + 1).toNat]? = some len) (hpos : 0 < len) (hlen31 : len < 2147483648)
    (hst : h.starts[(c + 1).toNat]? = some start) (hst0 : 0 ≤ start)
    (hfit : start.toNat + len.toNat ≤ bytes.length) :
    ∃ s1, cb_largezip_check env i 0 resp s = .ok 0 s1 ∧
      Sess fd bytes h s1 (c + 1) r
        (q ++ [download_node (c + 1) (sub_image bytes start len), flash_node (c + 1)]) ev := by
  have hS1 : Sess fd bytes h
      { s with
        clock := s.clock + 1
        log := s.log ++ [.print ⟨"OKAY [%7.3fs]\n".toList, [.time (env.now s.clock - a.start)]⟩]
        zip_info := { s.zip_info with current_flash := s.zip_info.current_flash + 1 } }
      (c + 1) r q ev := by
    constructor
    · exact hS.queue
    · exact hS.open_fd
    · simp only [hS.flash]
    · exact hS.header
    · exact hS.file
    · exact hS.restart
    · rw [events_append, hS.events]
      simp [events]
  obtain ⟨s1, hrun, hS2⟩ := sess_next env fd bytes h _ (c + 1) r _ _ len start hS1 hfd hc0 hc8
    hlen hpos hlen31 hst hst0 hfit
  refine ⟨s1, ?_, hS2⟩
  simp only [cb_largezip_check, ne_eq, not_true_eq_false, if_false, bind_run,
    action_run i s a ha, now_run, fprintf_run, update_zip_run, hrun, pure_run]

theorem cb_largezip_okay_stop (env : Env) (fd : Int) (bytes : List Char)
    (h : htc_largezip_header_t) (s : State) (c r : Int) (q : List Action) (ev : List Event)
    (len : Int) (i : Nat) (resp : CStr) (a : Action)
    (hS : Sess fd bytes h s c r q ev) (ha : s.queue[i]? = some a) (hfd : fd ≠ 0)
    (hc0 : 0 ≤ c + 1) (hc8 : c + 1 < 8)
    (hlen : h.lengths[(c + 1).toNat]? = some len) (hpos : len ≤ 0) :
    ∃ s1, cb_largezip_check env i 0 resp s = .ok 0 s1 ∧
      s1.queue = s.queue ∧ s1.zip_info.current_flash = c + 1 ∧ s1.restart_usb = r ∧
      events s1.log = ev ++ [.sys_close fd] := by
  have hS1 : Sess fd bytes h
      { s with
        clock := s.clock + 1
        log := s.log ++ [.print ⟨"OKAY [%7.3fs]\n".toList, [.time (env.now s.clock - a.start)]⟩]
        zip_info := { s.zip_info with current_flash := s.zip_info.current_flash + 1 } }
      (c + 1) r q ev := by
    constructor
    · exact hS.queue
    · exact hS.open_fd
    · simp only [hS.flash]
    · exact hS.header
    · exact hS.file
    · exact hS.restart
    · rw [events_append, hS.events]
      simp [events]
  obtain ⟨s1, hrun, hq1, hz1, hr1, he1⟩ := sess_stop env fd bytes h _ (c + 1) r _ _ len hS1 hfd
    hc0 hc8 hlen hpos
  refine ⟨s1, ?_, hq1, ?_, by rw [hr1]; exact hS.restart, he1⟩
  · simp only [cb_largezip_check, ne_eq, not_true_eq_false, if_false, bind_run,
      action_run i s a ha, now_run, fprintf_run, update_zip_run, hrun, pure_run]
  · rw [hz1]
    simp only [hS.flash]

theorem sess_head (env : Env) (fd : Int) (bytes : List Char) (h : htc_largezip_header_t)
    (s : State) (c r : Int) (q : List Action) (ev : List Event) (i : Nat) (a : Action)
    (e : Event) (hS : Sess fd bytes h s c r q ev) :
    Sess fd bytes h
      { s with
        clock := s.clock + 1
        queue := set_at (fun a => { a with start := env.now s.clock }) i s.queue
        log := s.log ++ [.visit i] ++ (a.msg.map Obs.message).toList ++ [.call e] }
      c r q (ev ++ [e]) := by
  constructor
  · simp only [set_at_start_static]
    exact hS.queue
  · exact hS.open_fd
  · exact hS.flash
  · exact hS.header
  · exact hS.file
  · exact hS.restart
  · simp only [events_append, events_message, hS.events]
    simp [events]

theorem sess_ret (fd : Int) (bytes : List Char) (h : htc_largezip_header_t)
    (s : State) (c r : Int) (q : List Action) (ev : List Event) (i : Nat) (v : Int)
    (hS : Sess fd bytes h s c r q ev) :
    Sess fd bytes h { s with log := s.log ++ [.ret i v] } c r q ev := by
  constructor
  · exact hS.queue
  · exact hS.open_fd
  · exact hS.flash
  · exact hS.header
  · exact hS.file
  · exact hS.restart
  · rw [events_append, hS.events]
    simp [events]

theorem step_flash_fail (env : Env) (fd : Int) (bytes : List Char) (h : htc_largezip_header_t)
    (s : State) (c : Int) (q : List Action) (ev : List Event) (i : Nat) (a0 : Action)
    (l : Locals) (fuel : Nat) (len start : Int)
    (hS : Sess fd bytes h s c 0 q ev) (hq : q[i]? = some a0)
    (hop : a0.op = OP_COMMAND) (hfn : a0.func = .cb_largezip_check) (hfd : fd ≠ 0)
    (hc0 : 0 ≤ c) (hc8 : c < 8)
    (hlen : h.lengths[c.toNat]? = some len) (hpos : 0 < len) (hlen31 : len < 2147483648)
    (hst : h.starts[c.toNat]? = some start) (hst0 : 0 ≤ start)
    (hfit : start.toNat + len.toNat ≤ bytes.length)
    (hdev : (env.device ev (.fb_command l.transport a0.cmd)).status ≠ 0)
    (hhb : strstr_found (env.device ev (.fb_command l.transport a0.cmd)).error
      "hboot pre-update".toList = true) :
    ∃ l' s', walk env (fuel + 1) i l s = walk env fuel (i + 1) l' s' ∧
      l'.transport = l.transport ∧ l'.status = 0 ∧
      Sess fd bytes h s' c 1
        (q ++ [wait_node, download_node c (sub_image bytes start len), flash_node c])
        (ev ++ [.fb_command l.transport a0.cmd, .sleep 5]) := by
  obtain ⟨a, ha, has⟩ := static_getElem? s.queue i a0 (by rw [hS.queue]; exact hq)
  subst has
  have hop' : a.op = OP_COMMAND := hop
  have hfn' : a.func = .cb_largezip_check := hfn
  have hr : s.restart_usb ≠ 1 := by rw [hS.restart]; decide
  have hdev' : (env.device (events s.log) (.fb_command l.transport a.cmd)).status ≠ 0 := by
    rw [hS.events]; exact hdev
  have hhb' : strstr_found (env.device (events s.log) (.fb_command l.transport a.cmd)).error
      "hboot pre-update".toList = true := by rw [hS.events]; exact hhb
  have hSS := sess_head env fd bytes h s c 0 q ev i a (.fb_command l.transport a.cmd) hS
  obtain ⟨s1, hcb, hS1⟩ := cb_largezip_fail env fd bytes h _ c 0 q _ len start i _ _ hSS hfd
    hc0 hc8 hlen hpos hlen31 hst hst0 hfit hdev' hhb'
  have hbody := loop_body_command env i a l s s1 0 hr hop' (by
    rw [if_pos hdev', hfn']
    simpa [call_func] using hcb)
  refine ⟨_, _, walk_step env fuel i a l _ s _ ha hbody, rfl, rfl, ?_⟩
  have := sess_ret fd bytes h s1 c 1 _ _ i 0 hS1
  simpa using this

theorem step_flash_okay_next (env : Env) (fd : Int) (bytes : List Char)
    (h : htc_largezip_header_t) (s : State) (c : Int) (q : List Action) (ev : List Event)
    (i : Nat) (a0 : Action) (l : Locals) (fuel : Nat) (len start : Int)
    (hS : Sess fd bytes h s c 0 q ev) (hq : q[i]? = some a0)
    (hop : a0.op = OP_COMMAND) (hfn : a0.func = .cb_largezip_check) (hfd : fd ≠ 0)
    (hc0 : 0 ≤ c + 1) (hc8 : c + 1 < 8)
    (hlen : h.lengths[(c + 1).toNat]? = some len) (hpos : 0 < len) (hlen31 : len < 2147483648)
    (hst : h.starts[(c + 1).toNat]? = some start) (hst0 : 0 ≤ start)
    (hfit : start.toNat + len.toNat ≤ bytes.length)
    (hdev : (env.device ev (.fb_command l.transport a0.cmd)).status = 0) :
    ∃ l' s', walk env (fuel + 1) i l s = walk env fuel (i + 1) l' s' ∧
      l'.transport = l.transport ∧ l'.status = 0 ∧
      Sess fd bytes h s' (c + 1) 0
        (q ++ [download_node (c + 1) (sub_image bytes start len), flash_node (c + 1)])
        (ev ++ [.fb_command l.transport a0.cmd]) := by
  obtain ⟨a, ha, has⟩ := static_getElem? s.queue i a0 (by rw [hS.queue]; exact hq)
  subst has
  have hop' : a.op = OP_COMMAND := hop
  have hfn' : a.func = .cb_largezip_check := hfn
  have hr : s.restart_usb ≠ 1 := by rw [hS.restart]; decide
  have hdev' : (env.device (events s.log) (.fb_command l.transport a.cmd)).status = 0 := by
    rw [hS.events]; exact hdev
  have hSS := sess_head env fd bytes h s c 0 q ev i a (.fb_command l.transport a.cmd) hS
  obtain ⟨s1, hcb, hS1⟩ := cb_largezip_okay_next env fd bytes h _ c 0 q _ len start i []
    { a with start := env.now s.clock } hSS (by simp [getElem?_set_at, ha]) hfd
    hc0 hc8 hlen hpos hlen31 hst hst0 hfit
  have hbody := loop_body_command env i a l s s1 0 hr hop' (by
    rw [hdev', hfn']
    simpa [call_func] using hcb)
  refine ⟨_, _, walk_step env fuel i a l _ s _ ha hbody, rfl, rfl, ?_⟩
  have := sess_ret fd bytes h s1 (c + 1) 0 _ _ i 0 hS1
  simpa using this

theorem step_flash_okay_stop (env : Env) (fd : Int) (bytes : List Char)
    (h : htc_largezip_header_t) (s : State) (c : Int) (q : List Action) (ev : List Event)
    (i : Nat) (a0 : Action) (l : Locals) (fuel : Nat) (len : Int)
    (hS : Sess fd bytes h s c 0 q ev) (hq : q[i]? = some a0)
    (hop : a0.op = OP_COMMAND) (hfn : a0.func = .cb_largezip_check) (hfd : fd ≠ 0)
    (hc0 : 0 ≤ c + 1) (hc8 : c + 1 < 8)
    (hlen : h.lengths[(c + 1).toNat]? = some len) (hpos : len ≤ 0)
    (hdev : (env.device ev (.fb_command l.transport a0.cmd)).status = 0) :
    ∃ l' s', walk env (fuel + 1) i l s = walk env fuel (i + 1) l' s' ∧
      l'.status = 0 ∧ s'.queue.length = q.length ∧ s'.zip_info.current_flash = c + 1 ∧
      events s'.log = ev ++ [.fb_command l.transport a0.cmd, .sys_close fd] := by
  obtain ⟨a, ha, has⟩ := static_getElem? s.queue i a0 (by rw [hS.queue]; exact hq)
  subst has
  have hop' : a.op = OP_COMMAND := hop
  have hfn' : a.func = .cb_largezip_check := hfn
  have hr : s.restart_usb ≠ 1 := by rw [hS.restart]; decide
  have hdev' : (env.device (events s.log) (.fb_command l.transport a.cmd)).status = 0 := by
    rw [hS.events]; exact hdev
  have hSS := sess_head env fd bytes h s c 0 q ev i a (.fb_command l.transport a.cmd) hS
  obtain ⟨s1, hcb, hq1, hc1, _, he1⟩ := cb_largezip_okay_stop env fd bytes h _ c 0 q _ len i []
    { a with start := env.now s.clock } hSS (by simp [getElem?_set_at, ha]) hfd
    hc0 hc8 hlen hpos
  have hbody := loop_body_command env i a l s s1 0 hr hop' (by
    rw [hdev', hfn']
    simpa [call_func] using hcb)
  refine ⟨_, _, walk_step env fuel i a l _ s _ ha hbody, rfl, ?_, hc1, ?_⟩
  · have := congrArg List.length hSS.queue
    simp only [List.length_map] at this
    simpa [hq1] using this
  · simp only [events_append, he1]
    simp [events, Action.static]

theorem step_wait_restart (env : Env) (fd : Int) (bytes : List Char)
    (h : htc_largezip_header_t) (s : State) (c : Int) (q : List Action) (ev : List Event)
    (i : Nat) (a0 : Action) (l : Locals) (fuel : Nat)
    (hS : Sess fd bytes h s c 1 q ev) (hq : q[i]? = some a0)
    (hop : a0.op = OP_WAIT_FOR_DISCONNECT) :
    ∃ l' s', walk env (fuel + 1) i l s = walk env fuel (i + 1) l' s' ∧
      l'.transport = env.reopen_device ev ∧ l'.status = l.status ∧
      Sess fd bytes h s' c 0 q
        (ev ++ [.reopen_device, .WaitForDisconnect (env.reopen_device ev)]) := by
  obtain ⟨a, ha, has⟩ := static_getElem? s.queue i a0 (by rw [hS.queue]; exact hq)
  subst has
  have hop' : a.op = OP_WAIT_FOR_DISCONNECT := hop
  have h1 : ¬ OP_WAIT_FOR_DISCONNECT = OP_DOWNLOAD := by decide
  have h2 : ¬ OP_WAIT_FOR_DISCONNECT = OP_COMMAND := by decide
  have h3 : ¬ OP_WAIT_FOR_DISCONNECT = OP_QUERY := by decide
  have h4 : ¬ OP_WAIT_FOR_DISCONNECT = OP_NOTICE := by decide
  have h5 : ¬ OP_WAIT_FOR_DISCONNECT = OP_DOWNLOAD_SPARSE := by decide
  have htr : (if l.start < 0 then
        { l with transport := env.reopen_device (events s.log), start := env.now s.clock }
      else { l with transport := env.reopen_device (events s.log) }).transport
      = env.reopen_device (events s.log) := by split <;> rfl
  have hbody : loop_body env i a l s = .ok (false,
      (if l.start < 0 then
        { l with transport := env.reopen_device (events s.log), start := env.now s.clock }
      else { l with transport := env.reopen_device (events s.log) }))
      { s with
        clock := s.clock + 1
        restart_usb := 0
        queue := set_at (fun a => { a with start := env.now s.clock }) i s.queue
        log := s.log ++ [.visit i, .call .reopen_device] ++ (a.msg.map Obs.message).toList ++
          [.call (.WaitForDisconnect (env.reopen_device (events s.log)))] } := by
    simp only [loop_body, bind_run, loop_head_restart env i a l s hS.restart, dispatch, hop',
      h1, h2, h3, h4, h5, if_true, if_false, emit_run, pure_run, htr]
  refine ⟨_, _, walk_step env fuel i a l _ s _ ha hbody, ?_, ?_, ?_⟩
  · rw [htr, hS.events]
  · split <;> rfl
  · constructor
    · simp only [set_at_start_static]
      exact hS.queue
    · exact hS.open_fd
    · exact hS.flash
    · exact hS.header
    · exact hS.file
    · rfl
    · simp only [events_append, events_message, hS.events]
      simp [events]

theorem finish_run (env : Env) (l : Locals) (s : State) :
    finish env l s = (.returned l.status,
      { s with
        clock := s.clock + 1
        log := s.log ++ [.print ⟨"finished. total time: %.3fs\n".toList,
          [.time (env.now s.clock - l.start)]⟩] }) := rfl

theorem restart_session (env : Env) (s : State) (fname : CStr) (bytes : List Char)
    (l0 l1 l2 st0 st1 : Int) (ls ss : List Int) (k transport : Nat)
    (hq : s.queue = []) (hfd : s.zip_info.open_fd = 0) (hr : s.restart_usb = 0)
    (hlog : s.log = []) (hfile : env.files fname = some bytes)
    (hfree : lowest_free s.fds ≠ 0) (hsize : env.decl.sizeof_header ≤ bytes.length)
    (hmagic : strncmp (env.decl.layout (bytes.take env.decl.sizeof_header)).magic
      env.decl.HTC_LARGEZIP_HEADER_MAGIC (strlen env.decl.HTC_LARGEZIP_HEADER_MAGIC) = 0)
    (hlens : (env.decl.layout (bytes.take env.decl.sizeof_header)).lengths
      = l0 :: l1 :: l2 :: ls)
    (hstarts : (env.decl.layout (bytes.take env.decl.sizeof_header)).starts = st0 :: st1 :: ss)
    (hl0 : 0 < l0 ∧ l0 < 2147483648) (hl1 : 0 < l1 ∧ l1 < 2147483648) (hl2 : l2 ≤ 0)
    (hs0 : 0 ≤ st0 ∧ st0.toNat + l0.toNat ≤ bytes.length)
    (hs1 : 0 ≤ st1 ∧ st1.toNat + l1.toNat ≤ bytes.length)
    (hfail : ∀ hist e, first_flash_zip hist e = true → (env.device hist e).status ≠ 0)
    (htext : ∀ hist e, first_flash_zip hist e = true →
      strstr_found (env.device hist e).error "hboot pre-update".toList = true)
    (hokay : ∀ hist e, first_flash_zip hist e = false → (env.device hist e).status = 0) :
    ∃ s' t1, t1 = env.reopen_device (restart_history fname transport (sub_image bytes st0 l0)) ∧
      largezip_session env fname (k + 7) transport s = some (.returned 0, s') ∧
      events s'.log =
        [.sys_open fname,
         .fb_download_data transport (.bytes (sub_image bytes st0 l0)) l0.toNat,
         .fb_command transport "flash:zip".toList,
         .sleep 5,
         .reopen_device,
         .WaitForDisconnect t1,
         .fb_download_data t1 (.bytes (sub_image bytes st0 l0)) l0.toNat,
         .fb_command t1 "flash:zip".toList,
         .fb_download_data t1 (.bytes (sub_image bytes st1 l1)) l1.toNat,
         .fb_command t1 "flash:zip".toList,
         .sys_close (lowest_free s.fds)] ∧
      s'.zip_info.current_flash = 2 := by
  -- the first call opens the container and queues sub-image 0
  have hopen := largezip_open_fresh env s fname bytes hfd hfile hsize hmagic
  have hSo : Sess (lowest_free s.fds) bytes (env.decl.layout (bytes.take env.decl.sizeof_header))
      { s with
        log := s.log ++ [.call (.sys_open fname)]
        fds := fds_set (fds_set s.fds (lowest_free s.fds) ⟨bytes, 0⟩) (lowest_free s.fds)
          ⟨bytes, env.decl.sizeof_header⟩
        zip_info := { s.zip_info with
          open_fd := lowest_free s.fds
          current_data := none
          current_flash := 0
          largezip := env.decl.layout (bytes.take env.decl.sizeof_header) } }
      0 0 [] [.sys_open fname] := by
    constructor
    · simp [hq]
    · rfl
    · rfl
    · rfl
    · exact ⟨_, lookup_fds_set _ _ _⟩
    · exact hr
    · simp [hlog, events]
  have hlen0 : (env.decl.layout (bytes.take env.decl.sizeof_header)).lengths[(0 : Int).toNat]?
      = some l0 := by rw [hlens]; simp
  have hlen1 : (env.decl.layout
      (bytes.take env.decl.sizeof_header)).lengths[((0 : Int) + 1).toNat]? = some l1 := by
    rw [hlens]; simp
  have hlen2 : (env.decl.layout
      (bytes.take env.decl.sizeof_header)).lengths[((0 : Int) + 1 + 1).toNat]? = some l2 := by
    rw [hlens]; simp
  have hst0 : (env.decl.layout (bytes.take env.decl.sizeof_header)).starts[(0 : Int).toNat]?
      = some st0 := by rw [hstarts]; simp
  have hst1 : (env.decl.layout
      (bytes.take env.decl.sizeof_header)).starts[((0 : Int) + 1).toNat]? = some st1 := by
    rw [hstarts]; simp
  obtain ⟨s1, hrun1, hS1⟩ := sess_next env _ bytes _ _ 0 0 _ _ l0 st0 hSo hfree (le_refl _)
    (by decide) hlen0 hl0.1 hl0.2 hst0 hs0.1 hs0.2
  have hfirst : fb_queue_flash_largezip env (some fname) s = .ok () s1 := by
    rw [largezip_after_open env (some fname) s _ hopen hfree]
    exact hrun1
  have hne : s1.queue.isEmpty = false := by
    have := congrArg List.length hS1.queue
    cases hq1 : s1.queue with
    | nil => rw [hq1] at this; simp at this
    | cons a r => rfl
  -- the walk
  have hsz0 := sub_image_length bytes st0 l0 hs0.2
  have hsz1 := sub_image_length bytes st1 l1 hs1.2
  obtain ⟨la, sa, hwa, hta, _, hSa⟩ := step_download env _ bytes _ s1 0 _ _ 0 _
    { transport := transport, status := 0, start := -1 } (k + 6) hS1 rfl rfl rfl
    (by exact hokay _ _ rfl)
  obtain ⟨lb, sb, hwb, htb, _, hSb⟩ := step_flash_fail env _ bytes _ sa 0 _ _ 1 _ la (k + 5)
    l0 st0 hSa rfl rfl rfl hfree (le_refl _) (by decide) hlen0 hl0.1 hl0.2 hst0 hs0.1 hs0.2
    (by exact hfail _ _ rfl) (by exact htext _ _ rfl)
  obtain ⟨lc, sc, hwc, htc, _, hSc⟩ := step_wait_restart env _ bytes _ sb 0 _ _ 2 _ lb (k + 4)
    hSb rfl rfl
  obtain ⟨ld, sd, hwd, htd, _, hSd⟩ := step_download env _ bytes _ sc 0 _ _ 3 _ lc (k + 3)
    hSc rfl rfl rfl (by exact hokay _ _ rfl)
  obtain ⟨le, se, hwe, hte, _, hSe⟩ := step_flash_okay_next env _ bytes _ sd 0 _ _ 4 _ ld
    (k + 2) l1 st1 hSd rfl rfl rfl hfree (by decide) (by decide) hlen1 hl1.1 hl1.2 hst1
    hs1.1 hs1.2 (by exact hokay _ _ rfl)
  obtain ⟨lf, sf, hwf, htf, _, hSf⟩ := step_download env _ bytes _ se (0 + 1) _ _ 5 _ le
    (k + 1) hSe rfl rfl rfl (by exact hokay _ _ rfl)
  obtain ⟨lg, sg, hwg, hlg, hqg, hcg, heg⟩ := step_flash_okay_stop env _ bytes _ sf (0 + 1) _ _
    6 _ lf k l2 hSf rfl rfl rfl hfree (by decide) (by decide) hlen2 hl2 (by exact hokay _ _ rfl)
  have hend : sg.queue[7]? = none := by
    apply List.getElem?_eq_none
    rw [hqg]
    simp
  refine ⟨{ sg with
      clock := sg.clock + 1
      log := sg.log ++ [.print ⟨"finished. total time: %.3fs\n".toList,
        [.time (env.now sg.clock - lg.start)]⟩] }, lc.transport, ?_, ?_, ?_, ?_⟩
  · rw [htc]
    simp [restart_history, download_node, flash_node, hsz0, htb, hta]
  · simp only [largezip_session, hfirst, fb_execute_queue, hne, Bool.false_eq_true, if_false]
    rw [hwa, hwb, hwc, hwd, hwe, hwf, hwg, walk_end env k 7 lg sg hend, finish_run, hlg]
  · simp only [events_append, heg, htf, hte, htd, htb, hta]
    simp [events, download_node, flash_node, hsz0, hsz1]
    rw [htc]
    simp [download_node, flash_node, hsz0, hsz1, htb, hta]
  · exact hcg

theorem sys_lseek_set_neg (fd off : Int) (s : State) (f : OpenFile)
    (hf : s.fds.lookup fd = some f) (hoff : off < 0) :
    sys_lseek_set fd off s = .ok (-1) s := by
  simp [sys_lseek_set, hf, hoff]

/-- The descriptor table after `lseek(fd, pos, SEEK_SET)` with the saved `int` position `pos`,
for a descriptor on `bytes` that stands at `at`: a negative `pos` is refused. -/
theorem read_header_seek (fd : Int) (off : Int) (s : State) (f : OpenFile)
    (hf : s.fds.lookup fd = some f) :
    ∃ r, sys_lseek_set fd off s = .ok r
      { s with fds := if off < 0 then s.fds else fds_set s.fds fd { f with pos := off.toNat } } := by
  by_cases hneg : off < 0
  · exact ⟨-1, by rw [if_pos hneg]; exact sys_lseek_set_neg fd off s f hf hneg⟩
  · exact ⟨off, by rw [if_neg hneg]; exact sys_lseek_set_run fd off s f hf (not_lt.1 hneg)⟩

/-- The run of `htc_largezip_read_header` on a descriptor from which a full record can be
read whose magic differs: the result is 0, and the position is the saved `int` when that is
not negative, and stays behind the record otherwise. -/
theorem read_header_mismatch (env : Env) (fd : Int) (header : htc_largezip_header_t)
    (s : State) (bytes : List Char) (pos : Nat) (hf : s.fds.lookup fd = some ⟨bytes, pos⟩)
    (hfull : env.decl.sizeof_header ≤ bytes.length - pos)
    (hmagic : strncmp (env.decl.layout ((bytes.drop pos).take env.decl.sizeof_header)).magic
      env.decl.HTC_LARGEZIP_HEADER_MAGIC (strlen env.decl.HTC_LARGEZIP_HEADER_MAGIC) ≠ 0) :
    ∃ s', htc_largezip_read_header env fd header s =
        .ok (0, env.decl.layout ((bytes.drop pos).take env.decl.sizeof_header)) s' ∧
      s'.queue = s.queue ∧ s'.log = s.log ∧
      s'.fds.lookup fd = some ⟨bytes,
        if to_int32 pos < 0 then pos + env.decl.sizeof_header else (to_int32 pos).toNat⟩ := by
  have hlen : ((bytes.drop pos).take env.decl.sizeof_header).length
      = env.decl.sizeof_header := by
    rw [List.length_take, List.length_drop]; omega
  simp only [htc_largezip_read_header, bind_run, sys_lseek_cur_run fd s _ hf,
    sys_read_run fd _ s _ hf, hlen, ne_eq, not_true_eq_false, if_false, Option.getD_some]
  rw [if_pos hmagic]
  obtain ⟨r, hr⟩ := read_header_seek fd (to_int32 pos)
    { s with fds := fds_set s.fds fd ⟨bytes, pos + env.decl.sizeof_header⟩ }
    ⟨bytes, pos + env.decl.sizeof_header⟩ (lookup_fds_set _ _ _)
  rw [bind_run, hr]
  refine ⟨_, rfl, rfl, rfl, ?_⟩
  dsimp only
  by_cases hneg : to_int32 pos < 0
  · simp only [if_pos hneg, lookup_fds_set]
  · simp only [if_neg hneg, lookup_fds_set]

/-- The run of `htc_largezip_read_header` on a descriptor from which less than a full record
can be read. -/
theorem read_header_short (env : Env) (fd : Int) (header : htc_largezip_header_t)
    (s : State) (bytes : List Char) (pos : Nat) (hf : s.fds.lookup fd = some ⟨bytes, pos⟩)
    (hshort : bytes.length - pos < env.decl.sizeof_header) :
    ∃ s', htc_largezip_read_header env fd header s =
        .ok (0, env.decl.store header ((bytes.drop pos).take env.decl.sizeof_header)) s' ∧
      s'.queue = s.queue ∧
      s'.log = s.log ++ [.print ⟨"failed to read htc largezip header".toList, []⟩] ∧
      s'.fds.lookup fd = some ⟨bytes,
        if to_int32 pos < 0 then pos + (bytes.length - pos)
        else (to_int32 pos).toNat⟩ := by
  have hlen : ((bytes.drop pos).take env.decl.sizeof_header).length
      = bytes.length - pos := by
    rw [List.length_take, List.length_drop]; omega
  have hne : ((bytes.length - pos : Nat) : Int) ≠ (env.decl.sizeof_header : Int) := by
    omega
  simp only [htc_largezip_read_header, bind_run, sys_lseek_cur_run fd s _ hf,
    sys_read_run fd _ s _ hf, hlen]
  rw [if_pos hne]
  obtain ⟨r, hr⟩ := read_header_seek fd (to_int32 pos)
    { s with
      fds := fds_set s.fds fd ⟨bytes, pos + (bytes.length - pos)⟩
      log := s.log ++ [.print ⟨"failed to read htc largezip header".toList, []⟩] }
    ⟨bytes, pos + (bytes.length - pos)⟩ (lookup_fds_set _ _ _)
  simp only [bind_run, fprintf_run]
  rw [hr]
  refine ⟨_, rfl, rfl, rfl, ?_⟩
  dsimp only
  by_cases hneg : to_int32 pos < 0
  · simp only [if_pos hneg, lookup_fds_set]
  · simp only [if_neg hneg, lookup_fds_set]

/-- The run of `htc_largezip_read_header` on a descriptor from which a full record can be
read whose magic agrees. -/
theorem read_header_match (env : Env) (fd : Int) (header : htc_largezip_header_t)
    (s : State) (bytes : List Char) (pos : Nat) (hf : s.fds.lookup fd = some ⟨bytes, pos⟩)
    (hfull : env.decl.sizeof_header ≤ bytes.length - pos)
    (hmagic : strncmp (env.decl.layout ((bytes.drop pos).take env.decl.sizeof_header)).magic
      env.decl.HTC_LARGEZIP_HEADER_MAGIC (strlen env.decl.HTC_LARGEZIP_HEADER_MAGIC) = 0) :
    htc_largezip_read_header env fd header s =
      .ok (1, env.decl.layout ((bytes.drop pos).take env.decl.sizeof_header))
        { s with fds := fds_set s.fds fd ⟨bytes, pos + env.decl.sizeof_header⟩ } := by
  have hlen : ((bytes.drop pos).take env.decl.sizeof_header).length
      = env.decl.sizeof_header := by
    rw [List.length_take, List.length_drop]; omega
  simp only [htc_largezip_read_header, bind_run, sys_lseek_cur_run fd s _ hf,
    sys_read_run fd _ s _ hf, hlen, ne_eq, not_true_eq_false, if_false,
    Option.getD_some, hmagic, pure_run]

/-- Below `2^31` the reader does what its two `lseek(fd, pos, SEEK_SET)` are there for: on a
short read and on a magic that differs it returns 0 with the descriptor back at the position
it had, and it returns 1 exactly when a full record was read and the magic agrees. -/
theorem read_header_restores (env : Env) (fd : Int) (header : htc_largezip_header_t)
    (s : State) (bytes : List Char) (pos : Nat) (hf : s.fds.lookup fd = some ⟨bytes, pos⟩) (hpos : pos < 2147483648) :
    ∃ r h s', htc_largezip_read_header env fd header s = .ok (r, h) s' ∧
      (r = 0 ∨ r = 1) ∧
      (r = 0 → s'.fds.lookup fd = some ⟨bytes, pos⟩) ∧
      (r = 1 ↔ env.decl.sizeof_header ≤ bytes.length - pos ∧
        strncmp (env.decl.layout ((bytes.drop pos).take env.decl.sizeof_header)).magic
          env.decl.HTC_LARGEZIP_HEADER_MAGIC (strlen env.decl.HTC_LARGEZIP_HEADER_MAGIC) = 0) := by
  have hint : to_int32 pos = pos := to_int32_of_lt _ (by omega) (by omega)
  have hneg : ¬ to_int32 (pos : Int) < 0 := by rw [hint]; omega
  by_cases hfull : env.decl.sizeof_header ≤ bytes.length - pos
  · by_cases hmagic : strncmp
        (env.decl.layout ((bytes.drop pos).take env.decl.sizeof_header)).magic
        env.decl.HTC_LARGEZIP_HEADER_MAGIC (strlen env.decl.HTC_LARGEZIP_HEADER_MAGIC) = 0
    · refine ⟨1, _, _, read_header_match env fd header s bytes pos hf hfull hmagic, Or.inr rfl, ?_, ?_⟩
      · intro h
        exact absurd h (by decide)
      · simp [hfull, hmagic]
    · obtain ⟨s', hrun, _, _, hfd⟩ := read_header_mismatch env fd header s bytes pos hf hfull hmagic
      refine ⟨0, _, s', hrun, Or.inl rfl, ?_, ?_⟩
      · intro _
        rw [hfd, if_neg hneg, hint, Int.toNat_ofNat]
      · simp [hmagic]
  · obtain ⟨s', hrun, _, _, hfd⟩ := read_header_short env fd header s bytes pos hf (by omega)
    refine ⟨0, _, s', hrun, Or.inl rfl, ?_, ?_⟩
    · intro _
      rw [hfd, if_neg hneg, hint, Int.toNat_ofNat]
    · simp [hfull]

/-- With the cursor at 8 or beyond, `fb_queue_flash_largezip(nullptr)` on an opened container
returns at once: the state is as before, the descriptor stays open. -/
theorem largezip_full (env : Env) (s : State) (hfd : s.zip_info.open_fd ≠ 0)
    (hc : 8 ≤ s.zip_info.current_flash) : fb_queue_flash_largezip env none s = .ok () s := by
  unfold fb_queue_flash_largezip
  simp only [bind_run, largezip_open_skip env none s hfd, get_state_run, ge_iff_le, hc, if_true,
    pure_run]

theorem lookup_filter_ne (mem : List (Nat × List Char)) (addr b : Nat) (h : b ≠ addr) :
    (mem.filter fun p => p.1 != addr).lookup b = mem.lookup b := by
  induction mem with
  | nil => rfl
  | cons p mem ih =>
    obtain ⟨k, v⟩ := p
    by_cases hk : k = addr
    · subst hk
      have hb : (b == k) = false := by simpa using h
      simp [List.filter, List.lookup, hb, ih]
    · have hk2 : (k != addr) = true := by simpa using hk
      simp only [List.filter, hk2, List.lookup]
      rw [ih]

theorem cb_save_okay (i : Nat) (s : State) (a : Action) (addr : Nat) (buf : List Char)
    (r : CStr) (ha : s.queue[i]? = some a) (hd : a.data = .dest addr)
    (hm : s.mem.lookup addr = some buf) (hsz : a.size ≤ buf.length) :
    cb_save i 0 r s = .ok 0
      { s with mem := (addr, r.take a.size ++ List.replicate (a.size - r.length) (Char.ofNat 0)
          ++ buf.drop a.size) :: s.mem.filter fun p => p.1 != addr } := by
  simp [cb_save, action_run i s a ha, hd, hm, strncpy, hsz]

theorem cb_save_failed (i : Nat) (s : State) (a : Action) (status : Int) (r : CStr)
    (ha : s.queue[i]? = some a) (hst : status ≠ 0) :
    cb_save i status r s = .ok status
      { s with log := s.log ++ [.print ⟨"%s FAILED (%s)\n".toList, [.str a.cmd, .str r]⟩] } := by
  simp [cb_save, action_run i s a ha, hst]

theorem nul_mem_copy (r : CStr) (n : Nat) (hr : Char.ofNat 0 ∉ r) :
    Char.ofNat 0 ∈ r.take n ++ List.replicate (n - r.length) (Char.ofNat 0) ↔ r.length < n := by
  constructor
  · intro h
    rcases List.mem_append.1 h with h | h
    · exact absurd (List.mem_of_mem_take h) hr
    · have := (List.mem_replicate.1 h).1
      omega
  · intro h
    refine List.mem_append_right _ (List.mem_replicate.2 ⟨by omega, rfl⟩)

theorem match_loop_ok (str : CStr) (value : List CStr) (rem n : Nat)
    (h : n + rem ≤ value.length) : ∃ v, match_loop str value rem n = .ok v := by
  induction rem generalizing n with
  | zero => exact ⟨0, rfl⟩
  | succ rem ih =>
    have hn : n < value.length := by omega
    have hget : value[n]? = some value[n] := List.getElem?_eq_getElem hn
    simp only [match_loop, hget]
    split_ifs <;> first | exact ⟨1, rfl⟩ | exact ih (n + 1) (by omega)

theorem to_uint32_le (n : Nat) : to_uint32 (n : Int) ≤ n := by
  unfold to_uint32
  omega

theorem verdict_ok (env : Env) (i : Nat) (s : State) (a : Action) (vs : List CStr) (r : CStr)
    (invert : Int) (hd : a.data = .values vs) (hsz : a.size ≤ vs.length) (hne : vs ≠ []) :
    ∃ v s', cb_check_verdict env i a r invert s = .ok v s' := by
  obtain ⟨v0, rest, rfl⟩ := List.exists_cons_of_ne_nil hne
  obtain ⟨yes, hm⟩ := match_loop_ok r (v0 :: rest) a.size 0 (by omega)
  simp only [cb_check_verdict, hd, Fastboot.match, hm, lift_ok_run, bind_run]
  by_cases hy : (if invert ≠ 0 then lnot yes else yes) ≠ 0
  · rw [if_pos hy]
    exact ⟨_, _, rfl⟩
  · rw [if_neg hy]
    simp only [bind_run, fprintf_run, List.getElem?_cons_zero]
    obtain ⟨s', hs'⟩ := print_alternatives_ok (v0 :: rest) (a.size - 1) 1
      (by simp at hsz ⊢; omega)
      { s with log := s.log ++ [.print ⟨"FAILED\n\n".toList, []⟩] ++
          [.print ⟨"Device %s is '%s'.\n".toList, [.str (a.cmd.drop 7), .str r]⟩] ++
          [.print ⟨"Update %s '%s'".toList,
            [.str (if invert ≠ 0 then "rejects".toList else "requires".toList), .str v0]⟩] }
    rw [hs']
    exact ⟨_, _, rfl⟩

theorem verdict_empty_fault (env : Env) (i : Nat) (s : State) (a : Action) (r : CStr)
    (hd : a.data = .values []) (hsz : a.size = 0) :
    cb_check_verdict env i a r 0 s = .fault (.undefined "value[0]".toList)
      { s with log := s.log ++ [.print ⟨"FAILED\n\n".toList, []⟩] ++
        [.print ⟨"Device %s is '%s'.\n".toList, [.str (a.cmd.drop 7), .str r]⟩] } := by
  simp [cb_check_verdict, hd, hsz, Fastboot.match, match_loop]

theorem multizip_open_skip (env : Env) (fname : Option CStr) (s : State)
    (h : s.zip_info.open_fd ≠ 0) : multizip_open env fname s = .ok () s := by
  simp [multizip_open, h]

/-- The two nodes `fb_queue_flash_multizip` appends for the entry `zip_<c>.zip`. -/
theorem multizip_next (env : Env) (s : State) (entries : List (CStr × List Char)) (c : Int)
    (b : List Char) (hfd : s.zip_info.open_fd ≠ 0)
    (hzip : s.zip_info.zip = some ⟨entries, true⟩) (hc : s.zip_info.current_flash = c)
    (hent : entries.lookup (zip_name c) = some b) :
    fb_queue_flash_multizip env none s = .ok ()
      { s with
        queue := s.queue ++
          [{ op := OP_DOWNLOAD, cmd := [], prod := none, data := .bytes b,
             size := to_uint32 (b.length : Int),
             msg := mkmsg "sending '%s' (%d KB)"
               [.str (zip_name c), .int (to_uint32 (b.length : Int) / 1024 : Nat)],
             func := .cb_default, start := -1 },
           { op := OP_COMMAND, cmd := "flash:zip".toList, prod := none, data := .null,
             size := 0, msg := mkmsg "writing '%s'" [.str (zip_name c)],
             func := .cb_multizip_check, start := -1 }]
        zip_info := { s.zip_info with current_data := some b } } := by
  have hent' : entries.lookup ("zip_".toList ++ fmt_d c ++ ".zip".toList) = some b := hent
  simp only [fb_queue_flash_multizip, bind_run, multizip_open_skip env none s hfd, get_state_run,
    hc, hzip, unzip_file, if_true, hent', lift_ok_run, update_zip_run, Option.map_some',
    fb_queue_flash_zip_run]
  rfl

/-- With no entry `zip_<c>.zip` the archive is closed and nothing is appended. -/
theorem multizip_stop (env : Env) (s : State) (entries : List (CStr × List Char)) (c : Int)
    (hfd : s.zip_info.open_fd ≠ 0)
    (hzip : s.zip_info.zip = some ⟨entries, true⟩) (hc : s.zip_info.current_flash = c)
    (hent : entries.lookup (zip_name c) = none) :
    fb_queue_flash_multizip env none s = .ok ()
      { s with
        log := s.log ++ [.call .CloseArchive]
        zip_info := { s.zip_info with current_data := none, zip := some ⟨entries, false⟩ } } := by
  have hent' : entries.lookup ("zip_".toList ++ fmt_d c ++ ".zip".toList) = none := hent
  simp only [fb_queue_flash_multizip, bind_run, multizip_open_skip env none s hfd, get_state_run,
    hc, hzip, unzip_file, if_true, hent', lift_ok_run, update_zip_run, Option.map_none',
    CloseArchive, emit_run]
  simp [hzip]

theorem multizip_open_fresh (env : Env) (s : State) (fname : CStr) (bytes : List Char)
    (entries : List (CStr × List Char))
    (h0 : s.zip_info.open_fd = 0) (hfile : env.files fname = some bytes)
    (hzip : env.unzip bytes = some entries) :
    multizip_open env (some fname) s = .ok ()
      { s with
        log := s.log ++ [.call (.sys_open fname)]
        fds := fds_set s.fds (lowest_free s.fds) ⟨bytes, 0⟩
        zip_info := { s.zip_info with
          open_fd := lowest_free s.fds
          current_data := none
          current_flash := 0
          zip := some ⟨entries, true⟩ } } := by
  simp only [multizip_open, bind_run, get_state_run, h0, if_true,
    sys_open, emit_run, hfile, set_fds_run, pure_run, update_zip_run, OpenArchiveFd,
    lookup_fds_set, hzip]

theorem multizip_after_open (env : Env) (fname : Option CStr) (s s1 : State)
    (h : multizip_open env fname s = .ok () s1) (h1 : s1.zip_info.open_fd ≠ 0) :
    fb_queue_flash_multizip env fname s = fb_queue_flash_multizip env none s1 := by
  unfold fb_queue_flash_multizip
  simp only [bind_run, h, multizip_open_skip env none s1 h1]

theorem msess_next (env : Env) (fd : Int) (entries : List (CStr × List Char))
    (s : State) (c r : Int) (q : List Action) (ev : List Event) (b : List Char)
    (hS : MSess fd entries s c r q ev) (hfd : fd ≠ 0)
    (hent : entries.lookup (zip_name c) = some b) :
    ∃ s1, fb_queue_flash_multizip env none s = .ok () s1 ∧
      MSess fd entries s1 c r (q ++ [mz_download_node c b, mz_flash_node c]) ev := by
  have hnext := multizip_next env s entries c b (by rw [hS.open_fd]; exact hfd) hS.zip hS.flash
    hent
  refine ⟨_, hnext, ?_⟩
  constructor
  · simp only [List.map_append, hS.queue, List.map_cons, List.map_nil, Action.static,
      mz_download_node, mz_flash_node]
  · exact hS.open_fd
  · exact hS.flash
  · exact hS.zip
  · exact hS.restart
  · exact hS.events

theorem msess_stop (env : Env) (fd : Int) (entries : List (CStr × List Char))
    (s : State) (c r : Int) (q : List Action) (ev : List Event)
    (hS : MSess fd entries s c r q ev) (hfd : fd ≠ 0)
    (hent : entries.lookup (zip_name c) = none) :
    ∃ s1, fb_queue_flash_multizip env none s = .ok () s1 ∧
      s1.queue = s.queue ∧ s1.zip_info.current_flash = c ∧ s1.restart_usb = r ∧
      s1.zip_info.zip = some ⟨entries, false⟩ ∧
      events s1.log = ev ++ [.CloseArchive] := by
  have hstop := multizip_stop env s entries c (by rw [hS.open_fd]; exact hfd) hS.zip hS.flash
    hent
  refine ⟨_, hstop, rfl, hS.flash, hS.restart, rfl, ?_⟩
  rw [events_append, hS.events]
  rfl

theorem cb_multizip_fail (env : Env) (fd : Int) (entries : List (CStr × List Char))
    (s : State) (c r : Int) (q : List Action) (ev : List Event) (b : List Char) (i : Nat)
    (st : Int) (resp : CStr) (hS : MSess fd entries s c r q ev) (hfd : fd ≠ 0)
    (hent : entries.lookup (zip_name c) = some b)
    (hne : st ≠ 0) (hhb : strstr_found resp "hboot pre-update".toList = true) :
    ∃ s1, cb_multizip_check env i st resp s = .ok 0 s1 ∧
      MSess fd entries s1 c 1 (q ++ [wait_node, mz_download_node c b, mz_flash_node c])
        (ev ++ [.sleep 5]) := by
  have hS1 : MSess fd entries
      { s with
        queue := s.queue ++ [⟨OP_WAIT_FOR_DISCONNECT, [], none, .null, 0, none, .cb_default, -1⟩]
        log := s.log ++ [.call (.sleep 5)]
        restart_usb := 1 } c 1 (q ++ [wait_node]) (ev ++ [.sleep 5]) := by
    constructor
    · simp only [List.map_append, hS.queue]
      rfl
    · exact hS.open_fd
    · exact hS.flash
    · exact hS.zip
    · rfl
    · rw [events_append, hS.events]
      rfl
  obtain ⟨s1, hrun, hS2⟩ := msess_next env fd entries _ c 1 _ _ b hS1 hfd hent
  refine ⟨s1, ?_, by simpa using hS2⟩
  have hw : ¬ CMD_SIZE ≤ ([] : CStr).length := by decide
  simp only [cb_multizip_check, hne, ne_eq, not_false_eq_true, if_true, hhb, bind_run,
    fb_queue_wait_for_disconnect, queue_action_run, if_neg hw, emit_run, set_restart_usb_run,
    hrun, pure_run]

theorem cb_multizip_okay_next (env : Env) (fd : Int) (entries : List (CStr × List Char))
    (s : State) (c r : Int) (q : List Action) (ev : List Event) (b : List Char) (i : Nat)
    (resp : CStr) (a : Action) (hS : MSess fd entries s c r q ev) (ha : s.queue[i]? = some a)
    (hfd : fd ≠ 0) (hent : entries.lookup (zip_name (c + 1)) = some b) :
    ∃ s1, cb_multizip_check env i 0 resp s = .ok 0 s1 ∧
      MSess fd entries s1 (c + 1) r
        (q ++ [mz_download_node (c + 1) b, mz_flash_node (c + 1)]) ev := by
  have hS1 : MSess fd entries
      { s with
        clock := s.clock + 1
        log := s.log ++ [.print ⟨"OKAY [%7.3fs]\n".toList, [.time (env.now s.clock - a.start)]⟩]
        zip_info := { s.zip_info with current_flash := s.zip_info.current_flash + 1 } }
      (c + 1) r q ev := by
    constructor
    · exact hS.queue
    · exact hS.open_fd
    · simp only [hS.flash]
    · exact hS.zip
    · exact hS.restart
    · rw [events_append, hS.events]
      simp [events]
  obtain ⟨s1, hrun, hS2⟩ := msess_next env fd entries _ (c + 1) r _ _ b hS1 hfd hent
  refine ⟨s1, ?_, hS2⟩
  simp only [cb_multizip_check, ne_eq, not_true_eq_false, if_false, bind_run,
    action_run i s a ha, now_run, fprintf_run, update_zip_run, hrun, pure_run]

theorem cb_multizip_okay_stop (env : Env) (fd : Int) (entries : List (CStr × List Char))
    (s : State) (c r : Int) (q : List Action) (ev : List Event) (i : Nat)
    (resp : CStr) (a : Action) (hS : MSess fd entries s c r q ev) (ha : s.queue[i]? = some a)
    (hfd : fd ≠ 0) (hent : entries.lookup (zip_name (c + 1)) = none) :
    ∃ s1, cb_multizip_check env i 0 resp s = .ok 0 s1 ∧
      s1.queue = s.queue ∧ s1.zip_info.current_flash = c + 1 ∧ s1.restart_usb = r ∧
      s1.zip_info.zip = some ⟨entries, false⟩ ∧
      events s1.log = ev ++ [.CloseArchive] := by
  have hS1 : MSess fd entries
      { s with
        clock := s.clock + 1
        log := s.log ++ [.print ⟨"OKAY [%7.3fs]\n".toList, [.time (env.now s.clock - a.start)]⟩]
        zip_info := { s.zip_info with current_flash := s.zip_info.current_flash + 1 } }
      (c + 1) r q ev := by
    constructor
    · exact hS.queue
    · exact hS.open_fd
    · simp only [hS.flash]
    · exact hS.zip
    · exact hS.restart
    · rw [events_append, hS.events]
      simp [events]
  obtain ⟨s1, hrun, hq1, hc1, hr1, hz1, he1⟩ := msess_stop env fd entries _ (c + 1) r _ _ hS1
    hfd hent
  refine ⟨s1, ?_, hq1, hc1, hr1, hz1, he1⟩
  simp only [cb_multizip_check, ne_eq, not_true_eq_false, if_false, bind_run,
    action_run i s a ha, now_run, fprintf_run, update_zip_run, hrun, pure_run]

theorem msess_head (env : Env) (fd : Int) (entries : List (CStr × List Char))
    (s : State) (c r : Int) (q : List Action) (ev : List Event) (i : Nat) (a : Action)
    (e : Event) (hS : MSess fd entries s c r q ev) :
    MSess fd entries
      { s with
        clock := s.clock + 1
        queue := set_at (fun a => { a with start := env.now s.clock }) i s.queue
        log := s.log ++ [.visit i] ++ (a.msg.map Obs.message).toList ++ [.call e] }
      c r q (ev ++ [e]) := by
  constructor
  · simp only [set_at_start_static]
    exact hS.queue
  · exact hS.open_fd
  · exact hS.flash
  · exact hS.zip
  · exact hS.restart
  · simp only [events_append, events_message, hS.events]
    simp [events]

theorem msess_ret (fd : Int) (entries : List (CStr × List Char))
    (s : State) (c r : Int) (q : List Action) (ev : List Event) (i : Nat) (v : Int)
    (hS : MSess fd entries s c r q ev) :
    MSess fd entries { s with log := s.log ++ [.ret i v] } c r q ev := by
  constructor
  · exact hS.queue
  · exact hS.open_fd
  · exact hS.flash
  · exact hS.zip
  · exact hS.restart
  · rw [events_append, hS.events]
    simp [events]

theorem mstep_download (env : Env) (fd : Int) (entries : List (CStr × List Char))
    (s : State) (c : Int) (q : List Action) (ev : List Event) (i : Nat) (a0 : Action)
    (l : Locals) (fuel : Nat) (hS : MSess fd entries s c 0 q ev) (hq : q[i]? = some a0)
    (hop : a0.op = OP_DOWNLOAD) (hfn : a0.func = .cb_default)
    (hdev : (env.device ev (.fb_download_data l.transport a0.data a0.size)).status = 0) :
    ∃ l' s', walk env (fuel + 1) i l s = walk env fuel (i + 1) l' s' ∧
      l'.transport = l.transport ∧ l'.status = 0 ∧
      MSess fd entries s' c 0 q (ev ++ [.fb_download_data l.transport a0.data a0.size]) := by
  obtain ⟨a, ha, has⟩ := static_getElem? s.queue i a0 (by rw [hS.queue]; exact hq)
  subst has
  have hop' : a.op = OP_DOWNLOAD := hop
  have hfn' : a.func = .cb_default := hfn
  have hr : s.restart_usb ≠ 1 := by rw [hS.restart]; decide
  have hst : (env.device (events s.log) (.fb_download_data l.transport a.data a.size)).status
      = 0 := by rw [hS.events]; exact hdev
  have hSS := msess_head env fd entries s c 0 q ev i a
    (.fb_download_data l.transport a.data a.size) hS
  have hcall := cb_default_okay env i []
    { s with
      clock := s.clock + 1
      queue := set_at (fun a => { a with start := env.now s.clock }) i s.queue
      log := s.log ++ [.visit i] ++ (a.msg.map Obs.message).toList ++
        [.call (.fb_download_data l.transport a.data a.size)] }
    { a with start := env.now s.clock } (by simp [getElem?_set_at, ha])
  have hbody := loop_body_download env i a l s _ 0 hr hop' (by
    rw [hst, hfn']
    simpa [call_func] using hcall)
  refine ⟨_, _, walk_step env fuel i a l _ s _ ha hbody, rfl, rfl, ?_⟩
  constructor
  · simp only [set_at_start_static]
    exact hS.queue
  · exact hS.open_fd
  · exact hS.flash
  · exact hS.zip
  · exact hS.restart
  · simp only [events_append, events_message, hS.events]
    simp [events, Action.static]

theorem mstep_flash_okay_next (env : Env) (fd : Int) (entries : List (CStr × List Char))
    (s : State) (c : Int) (q : List Action) (ev : List Event) (i : Nat) (a0 : Action)
    (l : Locals) (fuel : Nat) (b : List Char)
    (hS : MSess fd entries s c 0 q ev) (hq : q[i]? = some a0)
    (hop : a0.op = OP_COMMAND) (hfn : a0.func = .cb_multizip_check) (hfd : fd ≠ 0)
    (hent : entries.lookup (zip_name (c + 1)) = some b)
    (hdev : (env.device ev (.fb_command l.transport a0.cmd)).status = 0) :
    ∃ l' s', walk env (fuel + 1) i l s = walk env fuel (i + 1) l' s' ∧
      l'.transport = l.transport ∧ l'.status = 0 ∧
      MSess fd entries s' (c + 1) 0
        (q ++ [mz_download_node (c + 1) b, mz_flash_node (c + 1)])
        (ev ++ [.fb_command l.transport a0.cmd]) := by
  obtain ⟨a, ha, has⟩ := static_getElem? s.queue i a0 (by rw [hS.queue]; exact hq)
  subst has
  have hop' : a.op = OP_COMMAND := hop
  have hfn' : a.func = .cb_multizip_check := hfn
  have hr : s.restart_usb ≠ 1 := by rw [hS.restart]; decide
  have hdev' : (env.device (events s.log) (.fb_command l.transport a.cmd)).status = 0 := by
    rw [hS.events]; exact hdev
  have hSS := msess_head env fd entries s c 0 q ev i a (.fb_command l.transport a.cmd) hS
  obtain ⟨s1, hcb, hS1⟩ := cb_multizip_okay_next env fd entries _ c 0 q _ b i []
    { a with start := env.now s.clock } hSS (by simp [getElem?_set_at, ha]) hfd hent
  have hbody := loop_body_command env i a l s s1 0 hr hop' (by
    rw [hdev', hfn']
    simpa [call_func] using hcb)
  refine ⟨_, _, walk_step env fuel i a l _ s _ ha hbody, rfl, rfl, ?_⟩
  have := msess_ret fd entries s1 (c + 1) 0 _ _ i 0 hS1
  simpa using this

theorem mstep_flash_okay_stop (env : Env) (fd : Int) (entries : List (CStr × List Char))
    (s : State) (c : Int) (q : List Action) (ev : List Event) (i : Nat) (a0 : Action)
    (l : Locals) (fuel : Nat)
    (hS : MSess fd entries s c 0 q ev) (hq : q[i]? = some a0)
    (hop : a0.op = OP_COMMAND) (hfn : a0.func = .cb_multizip_check) (hfd : fd ≠ 0)
    (hent : entries.lookup (zip_name (c + 1)) = none)
    (hdev : (env.device ev (.fb_command l.transport a0.cmd)).status = 0) :
    ∃ l' s', walk env (fuel + 1) i l s = walk env fuel (i + 1) l' s' ∧
      l'.status = 0 ∧ s'.queue.map Action.static = q ∧ s'.zip_info.current_flash = c + 1 ∧
      s'.zip_info.zip = some ⟨entries, false⟩ ∧
      events s'.log = ev ++ [.fb_command l.transport a0.cmd, .CloseArchive] := by
  obtain ⟨a, ha, has⟩ := static_getElem? s.queue i a0 (by rw [hS.queue]; exact hq)
  subst has
  have hop' : a.op = OP_COMMAND := hop
  have hfn' : a.func = .cb_multizip_check := hfn
  have hr : s.restart_usb ≠ 1 := by rw [hS.restart]; decide
  have hdev' : (env.device (events s.log) (.fb_command l.transport a.cmd)).status = 0 := by
    rw [hS.events]; exact hdev
  have hSS := msess_head env fd entries s c 0 q ev i a (.fb_command l.transport a.cmd) hS
  obtain ⟨s1, hcb, hq1, hc1, _, hz1, he1⟩ := cb_multizip_okay_stop env fd entries _ c 0 q _ i []
    { a with start := env.now s.clock } hSS (by simp [getElem?_set_at, ha]) hfd hent
  have hbody := loop_body_command env i a l s s1 0 hr hop' (by
    rw [hdev', hfn']
    simpa [call_func] using hcb)
  refine ⟨_, _, walk_step env fuel i a l _ s _ ha hbody, rfl, ?_, hc1, hz1, ?_⟩
  · have := hSS.queue
    simpa [hq1] using this
  · simp only [events_append, he1]
    simp [events, Action.static]
theorem mz_nodes_length (b : Nat → List Char) (k : Nat) : (mz_nodes b k).length = 2 * k := by
  induction k with
  | zero => rfl
  | succ k ih => simp [mz_nodes, ih]; omega

theorem mz_nodes_download (b : Nat → List Char) (j : Nat) :
    (mz_nodes b (j + 1))[2 * j]? = some (mz_download_node j (b j)) := by
  rw [mz_nodes, List.getElem?_append_right (by rw [mz_nodes_length]), mz_nodes_length]
  simp

theorem mz_nodes_flash (b : Nat → List Char) (j : Nat) :
    (mz_nodes b (j + 1))[2 * j + 1]? = some (mz_flash_node j) := by
  rw [mz_nodes, List.getElem?_append_right (by rw [mz_nodes_length]; omega), mz_nodes_length]
  simp

/-- The walk of a multi-zip session from the `Download` node of entry `j` on, when the entries
`j .. k-1` exist, entry `k` does not, and every request is answered `OKAY`. -/
theorem mz_run (env : Env) (fd : Int) (entries : List (CStr × List Char))
    (b : Nat → List Char) (k t : Nat) (ev0 : List Event) (hfd : fd ≠ 0)
    (hent : ∀ i, i < k → entries.lookup (zip_name (i : Nat)) = some (b i))
    (hend : entries.lookup (zip_name (k : Nat)) = none)
    (hokay : ∀ hist e, (env.device hist e).status = 0) :
    ∀ (m j : Nat), j + m + 1 = k → ∀ (s : State) (l : Locals) (fuel : Nat),
      MSess fd entries s (j : Nat) 0 (mz_nodes b (j + 1)) (ev0 ++ mz_calls t b j) →
      l.transport = t → 2 * (m + 1) ≤ fuel →
      ∃ s', walk env fuel (2 * j) l s = (.returned 0, s') ∧
        s'.queue.map Action.static = mz_nodes b k ∧
        s'.zip_info.current_flash = (k : Nat) ∧
        s'.zip_info.zip = some ⟨entries, false⟩ ∧
        events s'.log = ev0 ++ mz_calls t b k ++ [.CloseArchive] := by
  intro m
  induction m with
  | zero =>
    intro j hj s l fuel hS hl hfuel
    obtain ⟨f, rfl⟩ : ∃ f, fuel = f + 1 + 1 := ⟨fuel - 2, by omega⟩
    obtain ⟨l1, s1, hw1, ht1, _, hS1⟩ := mstep_download env fd entries s j _ _ (2 * j) _ l
      (f + 1) hS (mz_nodes_download b j) rfl rfl (hokay _ _)
    have hk : ((j : Nat) : Int) + 1 = ((k : Nat) : Int) := by omega
    obtain ⟨l2, s2, hw2, hst2, hq2, hc2, hz2, he2⟩ := mstep_flash_okay_stop env fd entries s1 j
      _ _ (2 * j + 1) _ l1 f hS1 (mz_nodes_flash b j) rfl rfl hfd (by rw [hk]; exact hend)
      (hokay _ _)
    have hlen : s2.queue.length = 2 * (j + 1) := by
      have := congrArg List.length hq2
      rw [List.length_map, mz_nodes_length] at this
      exact this
    have hnone : s2.queue[2 * j + 1 + 1]? = none := by
      apply List.getElem?_eq_none
      omega
    have hjk : j + 1 = k := by omega
    refine ⟨{ s2 with
        clock := s2.clock + 1
        log := s2.log ++ [.print ⟨"finished. total time: %.3fs\n".toList,
          [.time (env.now s2.clock - l2.start)]⟩] }, ?_, ?_, ?_, hz2, ?_⟩
    · rw [hw1, hw2, walk_end env f _ l2 s2 hnone, finish_run, hst2]
    · rw [← hjk]; exact hq2
    · rw [hc2, hk]
    · simp only [events_append, he2, ← hjk, mz_calls, ht1, hl]
      simp [events, mz_download_node, mz_flash_node]
  | succ m ih =>
    intro j hj s l fuel hS hl hfuel
    obtain ⟨f, rfl⟩ : ∃ f, fuel = f + 1 + 1 := ⟨fuel - 2, by omega⟩
    obtain ⟨l1, s1, hw1, ht1, _, hS1⟩ := mstep_download env fd entries s j _ _ (2 * j) _ l
      (f + 1) hS (mz_nodes_download b j) rfl rfl (hokay _ _)
    have hk : ((j : Nat) : Int) + 1 = ((j + 1 : Nat) : Int) := by omega
    obtain ⟨l2, s2, hw2, ht2, _, hS2⟩ := mstep_flash_okay_next env fd entries s1 j
      _ _ (2 * j + 1) _ l1 f (b (j + 1)) hS1 (mz_nodes_flash b j) rfl rfl hfd
      (by rw [hk]; exact hent (j + 1) (by omega)) (hokay _ _)
    have hS3 : MSess fd entries s2 ((j + 1 : Nat) : Int) 0 (mz_nodes b (j + 1 + 1))
        (ev0 ++ mz_calls t b (j + 1)) := by
      have h := hS2
      rw [hk] at h
      constructor
      · rw [h.queue]; rfl
      · exact h.open_fd
      · exact h.flash
      · exact h.zip
      · exact h.restart
      · rw [h.events, ht1, hl]
        simp [mz_calls, mz_download_node, mz_flash_node]
    obtain ⟨s', hw3, hrest⟩ := ih (j + 1) (by omega) s2 l2 f hS3 (by rw [ht2, ht1, hl])
      (by omega)
    refine ⟨s', ?_, hrest⟩
    rw [hw1, hw2]
    exact hw3

theorem cb_largezip_other (env : Env) (i : Nat) (st : Int) (resp : CStr) (s : State)
    (hne : st ≠ 0) (hhb : strstr_found resp "hboot pre-update".toList = false) :
    cb_largezip_check env i st resp s =
      .ok st { s with log := s.log ++ [.print ⟨"FAILED (%s)\n".toList, [.str resp]⟩] } := by
  simp only [cb_largezip_check, hne, ne_eq, not_false_eq_true, if_true, hhb,
    Bool.false_eq_true, if_false, bind_run, fprintf_run, pure_run]

theorem cb_multizip_other (env : Env) (i : Nat) (st : Int) (resp : CStr) (s : State)
    (hne : st ≠ 0) (hhb : strstr_found resp "hboot pre-update".toList = false) :
    cb_multizip_check env i st resp s =
      .ok st { s with log := s.log ++ [.print ⟨"FAILED (%s)\n".toList, [.str resp]⟩] } := by
  simp only [cb_multizip_check, hne, ne_eq, not_false_eq_true, if_true, hhb,
    Bool.false_eq_true, if_false, bind_run, fprintf_run, pure_run]

theorem sys_lseek_set_total (fd off : Int) (s : State) :
    ∃ r t, sys_lseek_set fd off s = .ok r t ∧ t.queue = s.queue ∧ t.zip_info = s.zip_info := by
  unfold sys_lseek_set
  simp only [bind_run, get_state_run]
  cases s.fds.lookup fd with
  | none => exact ⟨_, _, rfl, rfl, rfl⟩
  | some f =>
    dsimp only
    by_cases h : off < 0
    · rw [if_pos h]; exact ⟨_, _, rfl, rfl, rfl⟩
    · rw [if_neg h]; exact ⟨_, _, rfl, rfl, rfl⟩

theorem sys_read_total (fd : Int) (n : Nat) (s : State) :
    ∃ r t, sys_read fd n s = .ok r t ∧ t.queue = s.queue ∧ t.zip_info = s.zip_info := by
  unfold sys_read
  simp only [bind_run, get_state_run]
  cases s.fds.lookup fd with
  | none => exact ⟨_, _, rfl, rfl, rfl⟩
  | some f => exact ⟨_, _, rfl, rfl, rfl⟩

theorem index_in_bounds (xs : List Int) (c : Int) (h0 : 0 ≤ c) (h8 : c < 8)
    (hlen : xs.length = 8) : ∃ x, index xs c = .ok x := by
  unfold index
  rw [if_neg (by omega)]
  have hlt : c.toNat < xs.length := by omega
  rw [List.getElem?_eq_getElem hlt]
  exact ⟨_, rfl⟩

/-- What an advance of the large-zip driver does to the queue and the cursor, from the state
`s1` reached after its opening statement: it ends by returning or in `die`, the cursor and the
header are as in `s1`, and the queue is as in `s1` or, with a cursor below 8, has grown by a
`Download` node named after the cursor and a `flash:zip` node. -/
theorem largezip_advance (env : Env) (fname : Option CStr) (s s1 : State)
    (hopen : largezip_open env fname s = .ok () s1)
    (hlo : 0 ≤ s1.zip_info.current_flash)
    (hlen : s1.zip_info.largezip.lengths.length = 8)
    (hst : s1.zip_info.largezip.starts.length = 8) :
    ∃ t, (fb_queue_flash_largezip env fname s = .ok () t ∨
        ∃ m, fb_queue_flash_largezip env fname s = .fault (.die m) t) ∧
      t.zip_info.current_flash = s1.zip_info.current_flash ∧
      t.zip_info.largezip = s1.zip_info.largezip ∧
      (t.queue = s1.queue ∨
        (s1.zip_info.current_flash < 8 ∧ ∃ d f, t.queue = s1.queue ++ [d, f] ∧
          lz_quiet d.static ∧ lz_flash f.static)) := by
  unfold fb_queue_flash_largezip
  simp only [bind_run, hopen, get_state_run]
  by_cases h8 : s1.zip_info.current_flash ≥ 8
  · rw [if_pos h8]
    exact ⟨s1, Or.inl rfl, rfl, rfl, Or.inl rfl⟩
  · rw [if_neg h8]
    have hc8 : s1.zip_info.current_flash < 8 := not_le.1 h8
    obtain ⟨len, hl⟩ := index_in_bounds _ _ hlo hc8 hlen
    simp only [bind_run, hl, lift_ok_run]
    by_cases hpos : len ≤ 0
    · rw [if_pos hpos, sys_close_run]
      exact ⟨_, Or.inl rfl, rfl, rfl, Or.inl rfl⟩
    · rw [if_neg hpos]
      obtain ⟨start, hs⟩ := index_in_bounds _ _ hlo hc8 hst
      simp only [bind_run, hs, lift_ok_run]
      obtain ⟨r, t1, hseek, hq1, hz1⟩ := sys_lseek_set_total s1.zip_info.open_fd start s1
      rw [hseek]
      dsimp only
      by_cases hr : r = -1
      · rw [if_pos hr]
        exact ⟨t1, Or.inr ⟨_, rfl⟩, by rw [hz1], by rw [hz1], Or.inl hq1⟩
      · rw [if_neg hr]
        obtain ⟨got, t2, hread, hq2, hz2⟩ := sys_read_total s1.zip_info.open_fd len.toNat t1
        simp only [bind_run, hread, update_zip_run]
        split
        · exact ⟨_, Or.inr ⟨_, rfl⟩, by simp [hz2, hz1], by simp [hz2, hz1],
            Or.inl (by simp [hq2, hq1])⟩
        · rw [fb_queue_flash_zip_run]
          refine ⟨_, Or.inl rfl, by simp [hz2, hz1], by simp [hz2, hz1], Or.inr ⟨hc8, ?_⟩⟩
          refine ⟨⟨OP_DOWNLOAD, [], none, .bytes (got.getD []), to_uint32 len,
              mkmsg "sending '%s' (%d KB)"
                [.str (fmt_d s1.zip_info.current_flash ++ "-zip".toList),
                 .int (to_uint32 len / 1024 : Nat)], .cb_default, -1⟩,
            ⟨OP_COMMAND, "flash:zip".toList, none, .null, 0,
              mkmsg "writing '%s'" [.str (fmt_d s1.zip_info.current_flash ++ "-zip".toList)],
              .cb_largezip_check, -1⟩, ?_, ?_, ?_⟩
          · simp only [hq2, hq1]
          · exact ⟨rfl, Or.inr ⟨rfl, s1.zip_info.current_flash, hlo, hc8, rfl⟩⟩
          · exact ⟨rfl, rfl⟩
theorem sys_lseek_cur_total (fd : Int) (s : State) :
    ∃ r, sys_lseek_cur fd s = .ok r s := by
  unfold sys_lseek_cur
  simp only [bind_run, get_state_run]
  cases s.fds.lookup fd with
  | none => exact ⟨_, rfl⟩
  | some f => exact ⟨_, rfl⟩

/-- The reader `htc_largezip_read_header` always returns, with 0 or 1, leaves the queue and
`zip_info` alone, and with 1 the record is the layout of the bytes read. -/
theorem read_header_total (env : Env) (fd : Int) (header : htc_largezip_header_t) (s : State) :
    ∃ r h t, htc_largezip_read_header env fd header s = .ok (r, h) t ∧
      t.queue = s.queue ∧ t.zip_info = s.zip_info ∧
      (r = 0 ∨ (r = 1 ∧ ∃ raw, h = env.decl.layout raw)) := by
  unfold htc_largezip_read_header
  obtain ⟨off, hoff⟩ := sys_lseek_cur_total fd s
  obtain ⟨got, t1, hread, hq1, hz1⟩ := sys_read_total fd env.decl.sizeof_header s
  simp only [bind_run, hoff, hread]
  split
  · simp only [bind_run, fprintf_run]
    obtain ⟨r, t2, hseek, hq2, hz2⟩ := sys_lseek_set_total fd (to_int32 off)
      { t1 with log := t1.log ++ [.print ⟨"failed to read htc largezip header".toList, []⟩] }
    rw [hseek]
    exact ⟨0, _, t2, rfl, by rw [hq2]; exact hq1, by rw [hz2]; exact hz1, Or.inl rfl⟩
  · split
    · obtain ⟨r, t2, hseek, hq2, hz2⟩ := sys_lseek_set_total fd (to_int32 off) t1
      rw [bind_run, hseek]
      exact ⟨0, _, t2, rfl, by rw [hq2]; exact hq1, by rw [hz2]; exact hz1, Or.inl rfl⟩
    · exact ⟨1, _, t1, rfl, hq1, hz1, Or.inr ⟨rfl, _, rfl⟩⟩

theorem sys_open_total (env : Env) (fname : CStr) (s : State) :
    ∃ fd t, sys_open env fname s = .ok fd t ∧ t.queue = s.queue ∧ t.zip_info = s.zip_info := by
  unfold sys_open
  simp only [bind_run, emit_run]
  cases env.files fname with
  | none => exact ⟨_, _, rfl, rfl, rfl⟩
  | some bytes => exact ⟨_, _, rfl, rfl, rfl⟩

/-- The opening statement of the large-zip driver on a state with `open_fd == 0`: when it
returns, the queue is as before, the cursor is 0 and the header is the layout of the bytes
read; otherwise it ends in `die`. -/
theorem largezip_open_cases (env : Env) (fname : Option CStr) (s : State)
    (h0 : s.zip_info.open_fd = 0) :
    (∃ m t, largezip_open env fname s = .fault (.die m) t) ∨
    (∃ t raw, largezip_open env fname s = .ok () t ∧ t.queue = s.queue ∧
      t.zip_info.current_flash = 0 ∧ t.zip_info.largezip = env.decl.layout raw) := by
  unfold largezip_open
  simp only [bind_run, get_state_run, h0, if_true]
  cases fname with
  | none => exact Or.inl ⟨_, _, rfl⟩
  | some fname =>
    dsimp only
    obtain ⟨fd, t1, hopen, hq1, hz1⟩ := sys_open_total env fname s
    simp only [bind_run, hopen, update_zip_run, get_state_run]
    obtain ⟨r, h, t2, hread, hq2, hz2, hr⟩ := read_header_total env fd t1.zip_info.largezip
      { t1 with zip_info :=
        { t1.zip_info with open_fd := fd, current_data := none, current_flash := 0 } }
    rw [hread]
    dsimp only
    rcases hr with hr | ⟨hr, raw, hraw⟩
    · subst hr
      exact Or.inl ⟨_, _, rfl⟩
    · subst hr
      right
      refine ⟨_, raw, rfl, ?_, ?_, ?_⟩
      · simp [hq2, hq1]
      · simp [hz2]
      · simp [hraw]

/-- An advance of the large-zip driver made by a callback (`fname == nullptr`): as
`largezip_advance`, from the state it is called in. -/
theorem largezip_advance_none (env : Env) (s : State)
    (hlo : 0 ≤ s.zip_info.current_flash)
    (hlen : s.zip_info.largezip.lengths.length = 8)
    (hst : s.zip_info.largezip.starts.length = 8) :
    ∃ t, (fb_queue_flash_largezip env none s = .ok () t ∨
        ∃ m, fb_queue_flash_largezip env none s = .fault (.die m) t) ∧
      t.zip_info.current_flash = s.zip_info.current_flash ∧
      t.zip_info.largezip = s.zip_info.largezip ∧
      (t.queue = s.queue ∨
        (s.zip_info.current_flash < 8 ∧ ∃ d f, t.queue = s.queue ++ [d, f] ∧
          lz_quiet d.static ∧ lz_flash f.static)) := by
  by_cases h0 : s.zip_info.open_fd = 0
  · refine ⟨s, Or.inr ⟨⟨"Should not happen - fname nullptr @ %s\n".toList,
      [.str "fb_queue_flash_largezip".toList]⟩, ?_⟩, rfl, rfl, Or.inl rfl⟩
    unfold fb_queue_flash_largezip largezip_open
    simp only [bind_run, get_state_run, h0, if_true]
    rfl
  · exact largezip_advance env none s s (largezip_open_skip env none s h0) hlo hlen hst
theorem LzInv.frame {i : Nat} {s t : State} (h : LzInv i s)
    (hq : t.queue.map Action.static = s.queue.map Action.static)
    (hc : t.zip_info.current_flash = s.zip_info.current_flash)
    (hh : t.zip_info.largezip = s.zip_info.largezip) : LzInv i t := by
  constructor
  · rw [hc]; exact h.lo
  · rw [hc]; exact h.hi
  · rw [hh]; exact h.lengths
  · rw [hh]; exact h.starts
  · rw [hq]; exact h.nodes
  · rw [hq, hc]; exact h.pending

theorem LzInv.mono {i j : Nat} {s : State} (h : LzInv i s) (hij : i ≤ j) : LzInv j s :=
  ⟨h.lo, h.hi, h.lengths, h.starts, h.nodes,
    fun k a hk => h.pending k a (le_trans hij hk)⟩

/-- The invariant after nodes `ext` were appended behind a queue that the walk has passed:
the new nodes are nodes of the session, and a `flash:zip` node among them is the last one and
comes with a cursor below 8. -/
theorem LzInv.extend {i j : Nat} {s t : State} (ext : List Action) (h : LzInv i s)
    (hq : t.queue.map Action.static = s.queue.map Action.static ++ ext)
    (hlo : 0 ≤ t.zip_info.current_flash) (hhi : t.zip_info.current_flash ≤ 8)
    (hh : t.zip_info.largezip = s.zip_info.largezip)
    (hj : (s.queue.map Action.static).length ≤ j)
    (hnodes : ∀ a ∈ ext, lz_quiet a ∨ lz_flash a)
    (hpend : ∀ k a, ext[k]? = some a → lz_flash a →
      t.zip_info.current_flash < 8 ∧ k + 1 = ext.length) : LzInv j t := by
  constructor
  · exact hlo
  · exact hhi
  · rw [hh]; exact h.lengths
  · rw [hh]; exact h.starts
  · rw [hq]
    intro a ha
    rcases List.mem_append.1 ha with ha | ha
    · exact h.nodes a ha
    · exact hnodes a ha
  · rw [hq]
    intro k a hk hget hfl
    rw [List.getElem?_append_right (le_trans hj hk)] at hget
    obtain ⟨h1, h2⟩ := hpend _ a hget hfl
    refine ⟨h1, ?_⟩
    rw [List.length_append]
    omega

theorem lz_quiet_not_flash {a : Action} (h : lz_quiet a) : ¬ lz_flash a := by
  intro hf
  have := h.1
  rw [hf.2] at this
  cases this

/-- The nodes an advance appends, alone or behind a `WaitForDisconnect` node `w`, satisfy what
`LzInv.extend` asks of new nodes. -/
theorem advance_nodes (c : Int) (pre : List Action) (d f : Action)
    (hpre : ∀ a ∈ pre, lz_quiet a) (hd : lz_quiet d) (hf : lz_flash f) (hc : c < 8) :
    (∀ a ∈ pre ++ [d, f], lz_quiet a ∨ lz_flash a) ∧
    (∀ k a, (pre ++ [d, f])[k]? = some a → lz_flash a →
      c < 8 ∧ k + 1 = (pre ++ [d, f]).length) := by
  constructor
  · intro a ha
    rcases List.mem_append.1 ha with ha | ha
    · exact Or.inl (hpre a ha)
    · simp only [List.mem_cons, List.mem_singleton, List.not_mem_nil, or_false] at ha
      rcases ha with rfl | rfl
      · exact Or.inl hd
      · exact Or.inr hf
  · intro k a hget hfl
    refine ⟨hc, ?_⟩
    by_cases hk : k < pre.length
    · rw [List.getElem?_append_left hk] at hget
      exact absurd hfl (lz_quiet_not_flash (hpre a (List.getElem?_mem hget)))
    · rw [List.getElem?_append_right (not_lt.1 hk)] at hget
      rw [List.length_append]
      have hlen : k - pre.length < 2 := by
        by_contra hge
        rw [List.getElem?_eq_none (by simp; omega)] at hget
        cases hget
      have h01 : k - pre.length = 0 ∨ k - pre.length = 1 := by omega
      rcases h01 with h0 | h1
      · rw [h0] at hget
        simp at hget
        subst hget
        exact absurd hfl (lz_quiet_not_flash hd)
      · simp
        omega

theorem quiet_nodes (pre : List Action) (hpre : ∀ a ∈ pre, lz_quiet a) (c : Int) :
    (∀ a ∈ pre, lz_quiet a ∨ lz_flash a) ∧
    (∀ k a, pre[k]? = some a → lz_flash a → c < 8 ∧ k + 1 = pre.length) :=
  ⟨fun a ha => Or.inl (hpre a ha),
    fun _ a hget hfl => absurd hfl (lz_quiet_not_flash (hpre a (List.getElem?_mem hget)))⟩

theorem wait_quiet :
    lz_quiet (Action.static ⟨OP_WAIT_FOR_DISCONNECT, [], none, .null, 0, none, .cb_default, -1⟩) :=
  ⟨rfl, Or.inl rfl⟩
/-- The invariant after an advance made by a callback, from a state `s2` that differs from a
state `s0` with the invariant by quiet nodes `pre` behind the tail and by the cursor. -/
theorem inv_after_advance (env : Env) (i : Nat) (s0 s2 : State) (pre : List Action) (v : Int)
    (hI : LzInv i s0) (hlen : (s0.queue.map Action.static).length ≤ i + 1)
    (hq2 : s2.queue.map Action.static = s0.queue.map Action.static ++ pre)
    (hpre : ∀ a ∈ pre, lz_quiet a)
    (hlo2 : 0 ≤ s2.zip_info.current_flash) (hhi2 : s2.zip_info.current_flash ≤ 8)
    (hh2 : s2.zip_info.largezip = s0.zip_info.largezip) :
    LzInv (i + 1) ((fb_queue_flash_largezip env none >>= fun _ => (pure v : M Int)) s2).state ∧
    (∀ f t, (fb_queue_flash_largezip env none >>= fun _ => (pure v : M Int)) s2 = .fault f t →
      ∃ m, f = .die m) := by
  obtain ⟨t, hrun, hc, hh, hq⟩ := largezip_advance_none env s2 hlo2
    (by rw [hh2]; exact hI.lengths) (by rw [hh2]; exact hI.starts)
  have hinv : LzInv (i + 1) t := by
    rcases hq with hq | ⟨hc8, d, f, hq, hd, hf⟩
    · obtain ⟨hn, hp⟩ := quiet_nodes pre hpre t.zip_info.current_flash
      exact LzInv.extend pre hI (by rw [hq, hq2]) (by rw [hc]; exact hlo2)
        (by rw [hc]; exact hhi2) (by rw [hh, hh2]) hlen hn hp
    · obtain ⟨hn, hp⟩ := advance_nodes t.zip_info.current_flash pre d.static f.static hpre hd hf
        (by rw [hc]; exact hc8)
      exact LzInv.extend (pre ++ [d.static, f.static]) hI
        (by rw [hq, List.map_append, hq2, List.append_assoc]; rfl) (by rw [hc]; exact hlo2)
        (by rw [hc]; exact hhi2) (by rw [hh, hh2]) hlen hn hp
  rcases hrun with hrun | ⟨m, hrun⟩
  · simp only [bind_run, hrun, pure_run, Res.state]
    exact ⟨hinv, fun f t h => by cases h⟩
  · simp only [bind_run, hrun, Res.state]
    refine ⟨hinv, fun f t h => ?_⟩
    cases h
    exact ⟨m, rfl⟩

/-- The callback `cb_largezip_check` of a `flash:zip` node that the walk dispatches keeps the
invariant, for every status and response, and ends by returning or in `die`. -/
theorem cb_largezip_inv (env : Env) (i : Nat) (st : Int) (resp : CStr) (s : State) (a : Action)
    (hI : LzInv i s) (ha : s.queue[i]? = some a) (hfl : lz_flash a.static) :
    LzInv (i + 1) (cb_largezip_check env i st resp s).state ∧
    (∀ f t, cb_largezip_check env i st resp s = .fault f t → ∃ m, f = .die m) := by
  have hget : (s.queue.map Action.static)[i]? = some a.static := by
    rw [List.getElem?_map, ha]; rfl
  obtain ⟨hc8, hlast⟩ := hI.pending i a.static (le_refl _) hget hfl
  have hlen : (s.queue.map Action.static).length ≤ i + 1 := by omega
  unfold cb_largezip_check
  by_cases hst : st ≠ 0
  · rw [if_pos hst]
    cases hhb : strstr_found resp "hboot pre-update".toList with
    | true =>
      have hw : ¬ CMD_SIZE ≤ ([] : CStr).length := by decide
      simp only [if_true, bind_run, fb_queue_wait_for_disconnect, queue_action_run, if_neg hw,
        emit_run, set_restart_usb_run]
      exact inv_after_advance env i s _
        [Action.static ⟨OP_WAIT_FOR_DISCONNECT, [], none, .null, 0, none, .cb_default, -1⟩] 0
        hI hlen (by simp) (by
          intro b hb
          rw [List.mem_singleton] at hb
          rw [hb]
          exact wait_quiet) hI.lo hI.hi rfl
    | false =>
      simp only [Bool.false_eq_true, if_false, bind_run, fprintf_run, pure_run, Res.state]
      refine ⟨LzInv.mono ?_ (Nat.le_succ i), fun f t h => by cases h⟩
      exact hI.frame rfl rfl rfl
  · rw [if_neg hst]
    simp only [bind_run, action_run i s a ha, now_run, fprintf_run, update_zip_run]
    exact inv_after_advance env i s _ [] 0 hI hlen (by simp) (by simp)
      (by show 0 ≤ s.zip_info.current_flash + 1; have := hI.lo; omega)
      (by show s.zip_info.current_flash + 1 ≤ 8; omega) rfl
theorem cb_default_total (env : Env) (i : Nat) (st : Int) (resp : CStr) (s : State) (a : Action)
    (ha : s.queue[i]? = some a) :
    ∃ v t, cb_default env i st resp s = .ok v t ∧
      t.queue.map Action.static = s.queue.map Action.static ∧ t.zip_info = s.zip_info := by
  unfold cb_default
  by_cases hst : st ≠ 0
  · rw [if_pos hst]
    exact ⟨_, _, rfl, rfl, rfl⟩
  · rw [if_neg hst]
    simp only [bind_run, action_run i s a ha, now_run, fprintf_run, modify_run, pure_run]
    exact ⟨_, _, rfl, set_at_start_static _ _ _, rfl⟩

theorem loop_head_total (env : Env) (i : Nat) (a : Action) (l : Locals) (s : State)
    (ha : s.queue[i]? = some a) :
    ∃ l1 s1 a1, loop_head env i a l s = .ok l1 s1 ∧
      s1.queue.map Action.static = s.queue.map Action.static ∧ s1.zip_info = s.zip_info ∧
      s1.queue[i]? = some a1 := by
  by_cases hr : s.restart_usb = 1
  · rw [loop_head_restart env i a l s hr]
    exact ⟨_, _, { a with start := env.now s.clock }, rfl, set_at_start_static _ _ _, rfl,
      by simp [getElem?_set_at, ha]⟩
  · rw [loop_head_run env i a l s hr]
    exact ⟨_, _, { a with start := env.now s.clock }, rfl, set_at_start_static _ _ _, rfl,
      by simp [getElem?_set_at, ha]⟩

/-- One iteration of the walk on a node of a large-zip session keeps the invariant and ends
by going on, by `break` or in `die`. -/
theorem loop_body_inv (env : Env) (i : Nat) (a : Action) (l : Locals) (s : State)
    (hI : LzInv i s) (ha : s.queue[i]? = some a) :
    LzInv (i + 1) (loop_body env i a l s).state ∧
    (∀ f t, loop_body env i a l s = .fault f t → ∃ m, f = .die m) := by
  have hmem : a.static ∈ s.queue.map Action.static :=
    List.mem_map.2 ⟨a, List.getElem?_mem ha, rfl⟩
  obtain ⟨l1, s1, a1, hhead, hq1, hz1, ha1⟩ := loop_head_total env i a l s ha
  have hI1 : LzInv i s1 := hI.frame hq1 (by rw [hz1]) (by rw [hz1])
  simp only [loop_body, bind_run, hhead]
  rcases hI.nodes a.static hmem with hquiet | hflash
  · have hfn : a.func = .cb_default := hquiet.1
    rcases hquiet.2 with hop | ⟨hop, _⟩
    · have hop' : a.op = OP_WAIT_FOR_DISCONNECT := hop
      have h1 : ¬ OP_WAIT_FOR_DISCONNECT = OP_DOWNLOAD := by decide
      have h2 : ¬ OP_WAIT_FOR_DISCONNECT = OP_COMMAND := by decide
      have h3 : ¬ OP_WAIT_FOR_DISCONNECT = OP_QUERY := by decide
      have h4 : ¬ OP_WAIT_FOR_DISCONNECT = OP_NOTICE := by decide
      have h5 : ¬ OP_WAIT_FOR_DISCONNECT = OP_DOWNLOAD_SPARSE := by decide
      simp only [dispatch, hop', h1, h2, h3, h4, h5, if_true, if_false, bind_run, emit_run,
        pure_run, Res.state]
      refine ⟨LzInv.mono ?_ (Nat.le_succ i), fun f t h => by cases h⟩
      exact hI1.frame rfl rfl rfl
    · have hop' : a.op = OP_DOWNLOAD := hop
      simp only [dispatch, hop', if_true, call_and_check, bind_run, request_run, hfn, call_func]
      obtain ⟨v, s3, hcb, hq3, hz3⟩ := cb_default_total env i
        (env.device (events s1.log) (.fb_download_data l1.transport a.data a.size)).status
        (if (env.device (events s1.log) (.fb_download_data l1.transport a.data a.size)).status
            ≠ 0 then
          (env.device (events s1.log) (.fb_download_data l1.transport a.data a.size)).error
          else if false = true then
            (env.device (events s1.log) (.fb_download_data l1.transport a.data a.size)).resp
          else [])
        { s1 with log := s1.log ++ [.call (.fb_download_data l1.transport a.data a.size)] }
        a1 ha1
      rw [hcb]
      simp only [bind_run, emit_run, pure_run, Res.state]
      refine ⟨LzInv.mono ?_ (Nat.le_succ i), fun f t h => by cases h⟩
      exact hI1.frame hq3 (by rw [hz3]) (by rw [hz3])
  · have hfn : a.func = .cb_largezip_check := hflash.2
    have hop' : a.op = OP_COMMAND := hflash.1
    have h1 : ¬ OP_COMMAND = OP_DOWNLOAD := by decide
    simp only [dispatch, hop', h1, if_true, if_false, call_and_check, bind_run, request_run, hfn,
      call_func]
    have ha1s : a1.static = a.static := by
      have h1 : (s1.queue.map Action.static)[i]? = some a1.static := by
        rw [List.getElem?_map, ha1]; rfl
      have h2 : (s.queue.map Action.static)[i]? = some a.static := by
        rw [List.getElem?_map, ha]; rfl
      rw [hq1, h2] at h1
      exact (Option.some.inj h1).symm
    obtain ⟨hinv, hdie⟩ := cb_largezip_inv env i
      (env.device (events s1.log) (.fb_command l1.transport a.cmd)).status
      (if (env.device (events s1.log) (.fb_command l1.transport a.cmd)).status ≠ 0 then
        (env.device (events s1.log) (.fb_command l1.transport a.cmd)).error
        else if false = true then
          (env.device (events s1.log) (.fb_command l1.transport a.cmd)).resp
        else [])
      { s1 with log := s1.log ++ [.call (.fb_command l1.transport a.cmd)] } a1
      (hI1.frame rfl rfl rfl) ha1 (by rw [ha1s]; exact hflash)
    cases hcb : cb_largezip_check env i
      (env.device (events s1.log) (.fb_command l1.transport a.cmd)).status
      (if (env.device (events s1.log) (.fb_command l1.transport a.cmd)).status ≠ 0 then
        (env.device (events s1.log) (.fb_command l1.transport a.cmd)).error
        else if false = true then
          (env.device (events s1.log) (.fb_command l1.transport a.cmd)).resp
        else [])
      { s1 with log := s1.log ++ [.call (.fb_command l1.transport a.cmd)] } with
    | ok v s3 =>
      rw [hcb] at hinv
      simp only [bind_run, emit_run, pure_run, Res.state]
      refine ⟨?_, fun f t h => by cases h⟩
      exact LzInv.frame hinv rfl rfl rfl
    | fault f s3 =>
      rw [hcb] at hinv
      simp only [Res.state]
      refine ⟨hinv, fun f' t h => ?_⟩
      cases h
      exact hdie f s3 hcb
theorem finish_state (env : Env) (l : Locals) (s : State) :
    (finish env l s).2.queue = s.queue ∧ (finish env l s).2.zip_info = s.zip_info ∧
    ∃ v, (finish env l s).1 = .returned v := by
  rw [finish_run]
  exact ⟨rfl, rfl, _, rfl⟩

/-- The walk of a large-zip session keeps the invariant, for every device, and never ends in
an access outside an object. -/
theorem walk_inv (env : Env) (fuel : Nat) : ∀ (i : Nat) (l : Locals) (s : State), LzInv i s →
    (∃ j, LzInv j (walk env fuel i l s).2) ∧
    ∀ w, (walk env fuel i l s).1 ≠ .fault (.undefined w) := by
  have hfin : ∀ (i : Nat) (l : Locals) (s : State), LzInv i s →
      (∃ j, LzInv j (finish env l s).2) ∧ ∀ w, (finish env l s).1 ≠ .fault (.undefined w) := by
    intro i l s hI
    obtain ⟨hq, hz, v, hv⟩ := finish_state env l s
    refine ⟨⟨i, hI.frame (by rw [hq]) (by rw [hz]) (by rw [hz])⟩, fun w h => ?_⟩
    rw [hv] at h
    cases h
  induction fuel with
  | zero =>
    intro i l s hI
    rw [walk]
    cases ha : s.queue[i]? with
    | none => exact hfin i l s hI
    | some a => exact ⟨⟨i, hI⟩, fun w h => by cases h⟩
  | succ fuel ih =>
    intro i l s hI
    rw [walk]
    cases ha : s.queue[i]? with
    | none => exact hfin i l s hI
    | some a =>
      obtain ⟨hinv, hdie⟩ := loop_body_inv env i a l s hI ha
      dsimp only
      cases hb : loop_body env i a l s with
      | fault f s' =>
        rw [hb] at hinv
        obtain ⟨m, hm⟩ := hdie f s' hb
        refine ⟨⟨i + 1, hinv⟩, fun w h => ?_⟩
        rw [hm] at h
        cases h
      | ok r s' =>
        rw [hb] at hinv
        obtain ⟨brk, l'⟩ := r
        cases brk with
        | true => exact hfin (i + 1) l' s' hinv
        | false => exact ih (i + 1) l' s' hinv

theorem image_names_length : image_names.length = 8 := rfl

theorem image_name_mem (c : Int) (h0 : 0 ≤ c) (h8 : c < 8) :
    fmt_d c ++ "-zip".toList ∈ image_names := by
  have hc : c = ((c.toNat : Nat) : Int) := by omega
  rw [hc]
  exact List.mem_map.2 ⟨c.toNat, List.mem_range.2 (by omega), rfl⟩

/-- Under the invariant the `Download` nodes of the queue carry names among `0-zip .. 7-zip`,
so at most eight different sub-images are queued. -/
theorem inv_images {i : Nat} {s : State} (hI : LzInv i s) :
    (∀ a ∈ s.queue, a.op = OP_DOWNLOAD →
      ∃ c : Int, 0 ≤ c ∧ c < 8 ∧ image_name a = some (fmt_d c ++ "-zip".toList)) ∧
    (queued_images s.queue).dedup.length ≤ 8 := by
  have hnames : ∀ a ∈ s.queue, a.op = OP_DOWNLOAD →
      ∃ c : Int, 0 ≤ c ∧ c < 8 ∧ image_name a = some (fmt_d c ++ "-zip".toList) := by
    intro a ha hop
    rcases hI.nodes a.static (List.mem_map.2 ⟨a, ha, rfl⟩) with hq | hf
    · rcases hq.2 with hw | ⟨_, c, h0, h8, hn⟩
      · have hw' : a.op = OP_WAIT_FOR_DISCONNECT := hw
        rw [hop] at hw'
        exact absurd hw' (by decide)
      · exact ⟨c, h0, h8, hn⟩
    · have hc : a.op = OP_COMMAND := hf.1
      rw [hop] at hc
      exact absurd hc (by decide)
  refine ⟨hnames, ?_⟩
  have hsub : (queued_images s.queue).dedup ⊆ image_names := by
    intro n hn
    rw [List.mem_dedup] at hn
    unfold queued_images at hn
    obtain ⟨a, ha, han⟩ := List.mem_filterMap.1 hn
    obtain ⟨ha1, ha2⟩ := List.mem_filter.1 ha
    obtain ⟨c, h0, h8, hc⟩ := hnames a ha1 (by simpa using ha2)
    rw [hc] at han
    rw [← Option.some.inj han]
    exact image_name_mem c h0 h8
  have := (List.subperm_of_subset (List.nodup_dedup _) hsub).length_le
  rw [image_names_length] at this
  exact this

/-- The first call `fb_queue_flash_largezip(fname)` of a session on an empty queue: it ends in
`die`, or it returns in a state with the invariant. -/
theorem largezip_first_inv (env : Env) (fname : CStr) (s : State) (hq : s.queue = [])
    (hfd : s.zip_info.open_fd = 0)
    (hdecl : ∀ raw, (env.decl.layout raw).lengths.length = 8 ∧
      (env.decl.layout raw).starts.length = 8) :
    (∃ m t, fb_queue_flash_largezip env (some fname) s = .fault (.die m) t) ∨
    (∃ t, fb_queue_flash_largezip env (some fname) s = .ok () t ∧ LzInv 0 t) := by
  rcases largezip_open_cases env (some fname) s hfd with ⟨m, t, hdie⟩ | ⟨t, raw, hopen, hqt, hc, hh⟩
  · left
    refine ⟨m, t, ?_⟩
    unfold fb_queue_flash_largezip
    simp only [bind_run, hdie]
  · have hbase : LzInv 0 t := by
      constructor
      · rw [hc]
      · rw [hc]; decide
      · rw [hh]; exact (hdecl raw).1
      · rw [hh]; exact (hdecl raw).2
      · rw [hqt, hq]; simp
      · rw [hqt, hq]; simp
    obtain ⟨t', hrun, hc', hh', hq'⟩ := largezip_advance env (some fname) s t hopen hbase.lo
      hbase.lengths hbase.starts
    rcases hrun with hrun | ⟨m, hrun⟩
    · right
      refine ⟨t', hrun, ?_⟩
      have hlen0 : (t.queue.map Action.static).length ≤ 0 := by rw [hqt, hq]; simp
      rcases hq' with hq' | ⟨hc8, d, f, hq', hd, hf⟩
      · exact hbase.frame (by rw [hq']) hc' hh'
      · obtain ⟨hn, hp⟩ := advance_nodes t'.zip_info.current_flash [] d.static f.static
          (by simp) hd hf (by rw [hc']; exact hc8)
        exact LzInv.extend ([] ++ [d.static, f.static]) hbase
          (by rw [hq', List.map_append]; rfl) (by rw [hc']; exact hbase.lo)
          (by rw [hc']; exact hbase.hi) hh' hlen0 hn hp
    · exact Or.inl ⟨m, t', hrun⟩

theorem call_and_check_fault_func (env : Env) (i : Nat) (a : Action) (e : Event) (query : Bool)
    (l : Locals) (s : State) (f : Fault) (s' : State)
    (h : call_and_check env i a e query l s = .fault f s') :
    ∃ st resp s1, call_func env a.func i st resp s1 = .fault f s' := by
  simp only [call_and_check, bind_run, request_run] at h
  generalize hst : (env.device (events s.log) e).status = st at h
  generalize hresp : (if st ≠ 0 then (env.device (events s.log) e).error
    else if query = true then (env.device (events s.log) e).resp else []) = resp at h
  cases hc : call_func env a.func i st resp { s with log := s.log ++ [.call e] } with
  | ok v s1 =>
    rw [hc] at h
    simp only [bind_run, emit_run, pure_run] at h
    cases h
  | fault f1 s1 =>
    rw [hc] at h
    simp only [Res.fault.injEq] at h
    obtain ⟨hf, hs⟩ := h
    subst hf hs
    exact ⟨_, _, _, hc⟩

theorem dispatch_fault_cases (env : Env) (i : Nat) (a : Action) (l : Locals) (s : State)
    (f : Fault) (s' : State) (h : dispatch env i a l s = .fault f s') :
    fault_of_node env i a f s' := by
  unfold dispatch at h
  by_cases h1 : a.op = OP_DOWNLOAD
  · rw [if_pos h1] at h
    exact Or.inl (call_and_check_fault_func _ _ _ _ _ _ _ _ _ h)
  rw [if_neg h1] at h
  by_cases h2 : a.op = OP_COMMAND
  · rw [if_pos h2] at h
    exact Or.inl (call_and_check_fault_func _ _ _ _ _ _ _ _ _ h)
  rw [if_neg h2] at h
  by_cases h3 : a.op = OP_QUERY
  · rw [if_pos h3] at h
    exact Or.inl (call_and_check_fault_func _ _ _ _ _ _ _ _ _ h)
  rw [if_neg h3] at h
  by_cases h4 : a.op = OP_NOTICE
  · rw [if_pos h4] at h
    cases hd : a.data with
    | text n =>
      simp only [hd, bind_run, fprintf_run, pure_run] at h
      cases h
    | _ =>
      simp only [hd, undefined_run, Res.fault.injEq] at h
      exact Or.inr (Or.inl ⟨h4, h.1.symm⟩)
  rw [if_neg h4] at h
  by_cases h5 : a.op = OP_DOWNLOAD_SPARSE
  · rw [if_pos h5] at h
    exact Or.inl (call_and_check_fault_func _ _ _ _ _ _ _ _ _ h)
  rw [if_neg h5] at h
  by_cases h6 : a.op = OP_WAIT_FOR_DISCONNECT
  · rw [if_pos h6] at h
    simp only [bind_run, emit_run, pure_run] at h
    cases h
  rw [if_neg h6] at h
  simp only [die_run, Res.fault.injEq] at h
  exact Or.inr (Or.inr ⟨h.1.symm, h1, h2, h3, h4, h5, h6⟩)

theorem loop_body_fault_cases (env : Env) (i : Nat) (a : Action) (l : Locals) (s : State)
    (f : Fault) (s' : State) (h : loop_body env i a l s = .fault f s') :
    fault_of_node env i a f s' := by
  obtain ⟨l1, s1, h1, _, _⟩ := loop_head_spec env i a l s
  simp only [loop_body, bind_run, h1] at h
  exact dispatch_fault_cases env i a l1 s1 f s' h

/-- A walk that ends in a fault ends in the iteration of some node: the loop body of a node
`a` at a position `j`, started in a state whose log continues the log the walk started with,
ends in that fault. -/
theorem walk_fault (env : Env) (fuel : Nat) : ∀ (i : Nat) (l : Locals) (s : State) (f : Fault)
    (s' : State), walk env fuel i l s = (.fault f, s') →
    ∃ j a l0 s0 mid, s0.log = s.log ++ mid ∧ s0.queue[j]? = some a ∧
      loop_body env j a l0 s0 = .fault f s' := by
  induction fuel with
  | zero =>
    intro i l s f s' h
    unfold walk at h
    cases ha : s.queue[i]? with
    | none =>
      rw [finish_run] at h
      simp only [ha] at h
      cases h
    | some a =>
      simp only [ha] at h
      cases h
  | succ fuel ih =>
    intro i l s f s' h
    unfold walk at h
    cases ha : s.queue[i]? with
    | none =>
      rw [finish_run] at h
      simp only [ha] at h
      cases h
    | some a =>
      simp only [ha] at h
      cases hb : loop_body env i a l s with
      | fault f1 s1 =>
        rw [hb] at h
        simp only [Prod.mk.injEq, Outcome.fault.injEq] at h
        obtain ⟨hf, hs⟩ := h
        subst hf hs
        exact ⟨i, a, l, s, [], by simp, ha, hb⟩
      | ok r s1 =>
        rw [hb] at h
        obtain ⟨brk, l1⟩ := r
        cases brk with
        | true =>
          simp only at h
          rw [finish_run] at h
          cases h
        | false =>
          simp only at h
          obtain ⟨rs, hd, _⟩ := loop_body_ok env i a l s false l1 s1 hb
          obtain ⟨new1, hlog1, _⟩ := hd.log
          obtain ⟨j, a0, l0, s0, mid, hmid, ha0, hb0⟩ := ih (i + 1) l1 s1 f s' h
          exact ⟨j, a0, l0, s0, new1 ++ mid, by rw [hmid, hlog1, List.append_assoc], ha0, hb0⟩

theorem range_last (mid : List Nat) (j n : Nat) (h : mid ++ [j] = List.range n) :
    1 ≤ n ∧ j = n - 1 := by
  cases n with
  | zero => simp at h
  | succ m =>
    rw [List.range_succ] at h
    have := List.append_inj' h rfl
    simp at this
    exact ⟨by omega, by omega⟩

/-- C1: the walk visits the queue positions 0, 1, 2, .. in this order, and the requests it
makes to the transport are those of the nodes at these positions, in queue order. The queue
after the walk is the queue before it with the nodes the callbacks appended behind the tail
(a loop body only adds nodes behind the tail it finds). When every callback returned 0, the
walk did not end in a fault and the fuel covers the final queue, the walk returns 0 and has
dispatched every node of the final queue, the appended ones after the older ones. A walk
returns a status other than 0 only when a callback returned it, and a walk ends in a fault
only in the iteration of the last position it visited: in the callback of that node, at a
notice without text, or in `die("bogus action")` for a node whose `op` is none of the six.
A walk that returns 0 has dispatched every node of the final queue, and a walk that ran out of
fuel dispatched the first `fuel` nodes. -/
theorem fifo_execution (env : Env) (fuel transport : Nat) (s : State) :
    (∀ i a l s0, ∃ ext, (loop_body env i a l s0).state.queue.map Action.static =
      s0.queue.map Action.static ++ ext) ∧
    ∃ ext new n,
      (fb_execute_queue env fuel transport s).2.queue.map Action.static =
        s.queue.map Action.static ++ ext ∧
      (fb_execute_queue env fuel transport s).2.log = s.log ++ new ∧
      visits new = List.range n ∧
      n ≤ (fb_execute_queue env fuel transport s).2.queue.length ∧
      ((∀ f, (fb_execute_queue env fuel transport s).1 ≠ .fault f) →
        requests new =
          ((fb_execute_queue env fuel transport s).2.queue.take n).filterMap request_of) ∧
      ((fb_execute_queue env fuel transport s).1 = .returned 0 →
        n = (fb_execute_queue env fuel transport s).2.queue.length) ∧
      ((fb_execute_queue env fuel transport s).1 = .out_of_fuel → n = fuel) ∧
      (∀ v, (fb_execute_queue env fuel transport s).1 = .returned v → v ≠ 0 →
        ∃ k, (k, v) ∈ returns new) ∧
      (∀ f, (fb_execute_queue env fuel transport s).1 = .fault f →
        1 ≤ n ∧ ∃ a, ((fb_execute_queue env fuel transport s).2.queue.map Action.static)[n - 1]?
            = some a.static ∧
          fault_of_node env (n - 1) a f (fb_execute_queue env fuel transport s).2) ∧
      ((∀ p ∈ returns new, p.2 = 0) →
        (∀ f, (fb_execute_queue env fuel transport s).1 ≠ .fault f) →
        (fb_execute_queue env fuel transport s).2.queue.length ≤ fuel →
        (fb_execute_queue env fuel transport s).1 = .returned 0 ∧
        visits new = List.range (fb_execute_queue env fuel transport s).2.queue.length ∧
        requests new =
          (fb_execute_queue env fuel transport s).2.queue.filterMap request_of) := by
  constructor
  · intro i a l s0
    cases hb : loop_body env i a l s0 with
    | ok v s1 =>
      obtain ⟨b, l1⟩ := v
      obtain ⟨_, hd, _⟩ := loop_body_ok env i a l s0 b l1 s1 hb
      exact hd.queue
    | fault f s1 =>
      obtain ⟨_, hd⟩ := loop_body_fault env i a l s0 f s1 hb
      exact hd.queue
  · generalize hres : fb_execute_queue env fuel transport s = res
    obtain ⟨o, s'⟩ := res
    dsimp only
    obtain ⟨n, rs, qs, hd, hn, hq, hr, hv, h0, hf⟩ :=
      execute_spec env fuel transport s o s' hres
    obtain ⟨ext, hext⟩ := hd.queue
    obtain ⟨new, hlog, hvis, hret, hreq⟩ := hd.log
    refine ⟨ext, new, n, hext, hlog, hvis, hn, fun hnf => by rw [hreq, hq hnf], h0,
      fun h => (hf h).1, ?_, ?_, ?_⟩
    · intro v hv1 hv0
      rw [hret]
      exact hv v hv1 hv0
    · intro f hof
      subst hof
      have hw : walk env fuel 0 { transport := transport, status := 0, start := -1 } s
          = (.fault f, s') := by
        unfold fb_execute_queue at hres
        split at hres
        · cases hres
        · exact hres
      obtain ⟨j, a, l0, s0, mid, hmid, ha0, hb0⟩ := walk_fault env fuel 0 _ s f s' hw
      obtain ⟨qs0, hd0⟩ := loop_body_fault env j a l0 s0 f s' hb0
      obtain ⟨new0, hlog0, hvis0, _, _⟩ := hd0.log
      have hnew : new = mid ++ new0 := by
        have : s.log ++ new = s.log ++ (mid ++ new0) := by
          rw [← hlog, hlog0, hmid, List.append_assoc]
        exact List.append_cancel_left this
      have hvv : visits mid ++ [j] = List.range n := by
        rw [← hvis, hnew, visits, visits, List.filterMap_append]
        rw [visits] at hvis0
        rw [hvis0]
      obtain ⟨h1n, hj⟩ := range_last _ _ _ hvv
      subst hj
      obtain ⟨b, hb, hbs⟩ := hd0.queue_getElem? (n - 1) a ha0
      refine ⟨h1n, a, ?_, loop_body_fault_cases env (n - 1) a l0 s0 f s' hb0⟩
      rw [List.getElem?_map, hb, ← hbs]
      rfl
    · intro hall hnf hfuel
      have ho : o = .returned 0 := by
        cases o with
        | returned v =>
          by_cases hv0 : v = 0
          · rw [hv0]
          · obtain ⟨k, hk⟩ := hv v rfl hv0
            rw [← hret] at hk
            exact absurd (hall _ hk) hv0
        | fault f => exact absurd rfl (hnf f)
        | out_of_fuel =>
          have := (hf rfl).2
          omega
      have hnl := h0 ho
      refine ⟨ho, by rw [hvis, hnl], ?_⟩
      rw [hreq, hq hnf, hnl, List.take_length]

set_option maxRecDepth 100000 in
/-- C1 at the walk that follows `fb_queue_flash_multizip("multi.zip")`: the queue holds two
nodes when the walk starts, the callback of the first `flash:zip` appends two more, every
callback returns 0, and the walk returns 0 after it visited the positions 0 to 3 and made the
requests of the four nodes of the final queue, in queue order. -/
theorem fifo_execution_witness :
    (fb_queue_flash_multizip multi_env (some "multi.zip".toList) initial_state).state.queue.length
      = 2 ∧
    ∃ new,
      (fb_execute_queue multi_env 4 0
        (fb_queue_flash_multizip multi_env (some "multi.zip".toList) initial_state).state).2.log
        = (fb_queue_flash_multizip multi_env (some "multi.zip".toList) initial_state).state.log
          ++ new ∧
      returns new = [(0, 0), (1, 0), (2, 0), (3, 0)] ∧
      (fb_execute_queue multi_env 4 0
        (fb_queue_flash_multizip multi_env (some "multi.zip".toList) initial_state).state).1
        = .returned 0 ∧
      visits new = [0, 1, 2, 3] ∧
      requests new =
        [.download (.bytes "AAAA".toList) 4, .command "flash:zip".toList,
         .download (.bytes "BBB".toList) 3, .command "flash:zip".toList] := by
  refine ⟨rfl, ?_⟩
  obtain ⟨_, ext, new, n, _, hlog, _, _, _, _, _, _, _, hall⟩ := fifo_execution multi_env 4 0
    (fb_queue_flash_multizip multi_env (some "multi.zip".toList) initial_state).state
  have hret : returns (fb_execute_queue multi_env 4 0
      (fb_queue_flash_multizip multi_env (some "multi.zip".toList) initial_state).state).2.log
      = [(0, 0), (1, 0), (2, 0), (3, 0)] := rfl
  rw [hlog, returns, List.filterMap_append] at hret
  have hpre : List.filterMap Obs.ret?
      (fb_queue_flash_multizip multi_env (some "multi.zip".toList) initial_state).state.log
      = [] := rfl
  rw [hpre, List.nil_append] at hret
  have hr : returns new = [(0, 0), (1, 0), (2, 0), (3, 0)] := hret
  have hout : (fb_execute_queue multi_env 4 0
      (fb_queue_flash_multizip multi_env (some "multi.zip".toList) initial_state).state).1
      = .returned 0 := rfl
  obtain ⟨ho, hvis, hreq⟩ := hall (by rw [hr]; decide)
    (fun f hf => by rw [hout] at hf; cases hf) (by decide)
  refine ⟨new, hlog, hr, ho, ?_, ?_⟩
  · rw [hvis]
    rfl
  · rw [hreq]
    rfl

/-- C2: when the callback of position `k` returns a status other than 0, the walk returns
exactly this status, the positions visited are `0 .. k`, the requests made are those of the
first `k + 1` nodes and no callback was called for a later position; when no callback
returned non-zero a walk that returns returns 0; and a walk can only run out of fuel while the
queue is longer than the fuel. -/
theorem abort_on_fail (env : Env) (fuel transport : Nat) (s : State) :
    ∃ new, (fb_execute_queue env fuel transport s).2.log = s.log ++ new ∧
      (∀ k st, (k, st) ∈ returns new → st ≠ 0 →
        (fb_execute_queue env fuel transport s).1 = .returned st ∧
        visits new = List.range (k + 1) ∧
        requests new =
          ((fb_execute_queue env fuel transport s).2.queue.take (k + 1)).filterMap request_of ∧
        (∀ p ∈ returns new, p.1 ≤ k) ∧
        k < (fb_execute_queue env fuel transport s).2.queue.length) ∧
      ((∀ p ∈ returns new, p.2 = 0) →
        ∀ v, (fb_execute_queue env fuel transport s).1 = .returned v → v = 0) ∧
      ((fb_execute_queue env fuel transport s).1 = .out_of_fuel →
        fuel < (fb_execute_queue env fuel transport s).2.queue.length) := by
  generalize hres : fb_execute_queue env fuel transport s = res
  obtain ⟨o, s'⟩ := res
  dsimp only
  obtain ⟨n, rs, qs, hd, hn, hq, hr, hv, _, hf⟩ :=
    execute_spec env fuel transport s o s' hres
  obtain ⟨new, hlog, hvis, hret, hreq⟩ := hd.log
  refine ⟨new, hlog, ?_, ?_, fun h => (hf h).2⟩
  · intro k st hk hst
    rw [hret] at hk ⊢
    obtain ⟨h1, h2⟩ := hr _ hk
    obtain ⟨ho, hkn⟩ := h2 hst
    simp only at hkn ho h1
    subst hkn
    refine ⟨ho, hvis, ?_, ?_, by omega⟩
    · rw [hreq]
      exact hq (by rw [ho]; intro f hf; cases hf)
    · intro p hp
      have := (hr p hp).1
      omega
  · intro hall v hv1
    by_contra hv0
    obtain ⟨k, hk⟩ := hv v hv1 hv0
    rw [hret] at hall
    exact hv0 (hall _ hk)

/-- C3 (as stated) fails: in scenario S5 (two sub-images `AAAA` and `BBB`, the first
`flash:zip` answered `FAIL .. hboot pre-update ..`, all else `OKAY`) the walk returns 0 and
the cursor ends at 2, but the transport is reopened before the wait for the disconnect is
dispatched, and the wait is made on the reopened handle 1: the calls are never in the order
of the claim. -/
theorem restart_reopens_before_wait :
    (largezip_session restart_env "rom.zip".toList 7 0 initial_state).map
      (fun r => (r.1, transport_calls r.2.log, r.2.zip_info.current_flash)) =
    some (.returned 0,
      [.fb_download_data 0 (.bytes "AAAA".toList) 4, .fb_command 0 "flash:zip".toList,
       .reopen_device, .WaitForDisconnect 1,
       .fb_download_data 1 (.bytes "AAAA".toList) 4, .fb_command 1 "flash:zip".toList,
       .fb_download_data 1 (.bytes "BBB".toList) 3, .fb_command 1 "flash:zip".toList], 2) ∧
    ¬ ∃ tw t1, (largezip_session restart_env "rom.zip".toList 7 0 initial_state).map
      (fun r => transport_calls r.2.log) =
        some (claimed_restart_calls 0 tw t1 "AAAA".toList "BBB".toList) := by
  have h : (largezip_session restart_env "rom.zip".toList 7 0 initial_state).map
      (fun r => transport_calls r.2.log) =
      some [.fb_download_data 0 (.bytes "AAAA".toList) 4, .fb_command 0 "flash:zip".toList,
       .reopen_device, .WaitForDisconnect 1,
       .fb_download_data 1 (.bytes "AAAA".toList) 4, .fb_command 1 "flash:zip".toList,
       .fb_download_data 1 (.bytes "BBB".toList) 3, .fb_command 1 "flash:zip".toList] := rfl
  refine ⟨rfl, ?_⟩
  rintro ⟨tw, t1, hc⟩
  rw [h] at hc
  simp [claimed_restart_calls] at hc

/-- C3 (amended): in a large-zip session from a fresh state whose header lists two sub-images
(lengths `l0, l1 > 0`, then a length `<= 0`) that lie inside the file, where the first
`flash:zip` is answered with a failure whose text contains `hboot pre-update` and every other
request with `OKAY`, the walk returns 0 for every fuel of at least 7 and the calls seen by the
transport are: download 0, flash 0, `reopen_device`, then on the handle `t1` that this
`reopen_device` returned (it is called after the open, the download, the flash and the sleep):
wait-for-disconnect, download 0, flash 0, download 1, flash 1; the five-second sleep precedes
the reopen; one wait and one reopen occur, sub-image 0 is the one retried, and `current_flash`
ends at 2. -/
theorem largezip_restart_recovery (env : Env) (s : State) (fname : CStr) (bytes : List Char)
    (l0 l1 l2 st0 st1 : Int) (ls ss : List Int) (fuel transport : Nat)
    (hfuel : 7 ≤ fuel)
    (hq : s.queue = []) (hfd : s.zip_info.open_fd = 0) (hr : s.restart_usb = 0)
    (hlog : s.log = []) (hfile : env.files fname = some bytes)
    (hfree : lowest_free s.fds ≠ 0) (hsize : env.decl.sizeof_header ≤ bytes.length)
    (hmagic : strncmp (env.decl.layout (bytes.take env.decl.sizeof_header)).magic
      env.decl.HTC_LARGEZIP_HEADER_MAGIC (strlen env.decl.HTC_LARGEZIP_HEADER_MAGIC) = 0)
    (hlens : (env.decl.layout (bytes.take env.decl.sizeof_header)).lengths
      = l0 :: l1 :: l2 :: ls)
    (hstarts : (env.decl.layout (bytes.take env.decl.sizeof_header)).starts = st0 :: st1 :: ss)
    (hl0 : 0 < l0 ∧ l0 < 2147483648) (hl1 : 0 < l1 ∧ l1 < 2147483648) (hl2 : l2 ≤ 0)
    (hs0 : 0 ≤ st0 ∧ st0.toNat + l0.toNat ≤ bytes.length)
    (hs1 : 0 ≤ st1 ∧ st1.toNat + l1.toNat ≤ bytes.length)
    (hfail : ∀ hist e, first_flash_zip hist e = true → (env.device hist e).status ≠ 0)
    (htext : ∀ hist e, first_flash_zip hist e = true →
      strstr_found (env.device hist e).error "hboot pre-update".toList = true)
    (hokay : ∀ hist e, first_flash_zip hist e = false → (env.device hist e).status = 0) :
    ∃ s' t1, t1 = env.reopen_device (restart_history fname transport (sub_image bytes st0 l0)) ∧
      largezip_session env fname fuel transport s = some (.returned 0, s') ∧
      transport_calls s'.log =
        [.fb_download_data transport (.bytes (sub_image bytes st0 l0)) l0.toNat,
         .fb_command transport "flash:zip".toList,
         .reopen_device,
         .WaitForDisconnect t1,
         .fb_download_data t1 (.bytes (sub_image bytes st0 l0)) l0.toNat,
         .fb_command t1 "flash:zip".toList,
         .fb_download_data t1 (.bytes (sub_image bytes st1 l1)) l1.toNat,
         .fb_command t1 "flash:zip".toList] ∧
      (events s'.log).take 5 =
        [.sys_open fname,
         .fb_download_data transport (.bytes (sub_image bytes st0 l0)) l0.toNat,
         .fb_command transport "flash:zip".toList,
         .sleep 5,
         .reopen_device] ∧
      s'.zip_info.current_flash = 2 := by
  obtain ⟨k, rfl⟩ := Nat.exists_eq_add_of_le hfuel
  obtain ⟨s', t1, ht1, hrun, hev, hc⟩ := restart_session env s fname bytes l0 l1 l2 st0 st1 ls
    ss k transport hq hfd hr hlog hfile hfree hsize hmagic hlens hstarts hl0 hl1 hl2 hs0 hs1
    hfail htext hokay
  refine ⟨s', t1, ht1, by rw [Nat.add_comm]; exact hrun, ?_, ?_, hc⟩
  · simp [transport_calls, hev]
  · simp [hev]

/-- C3 (amended) at scenario S5: the file `rom.zip` with the sub-images `AAAA` and `BBB`; the
session starts on the handle 0 and `reopen_device` returns the handle 1, on which the wait and
the three later pairs are made. -/
theorem largezip_restart_recovery_witness :
    restart_env.files "rom.zip".toList = some scenario_file ∧
    (restart_env.decl.layout (scenario_file.take restart_env.decl.sizeof_header)).lengths
      = [4, 3, 0, 0, 0, 0, 0, 0] ∧
    (restart_env.decl.layout (scenario_file.take restart_env.decl.sizeof_header)).starts
      = [72, 76, 0, 0, 0, 0, 0, 0] ∧
    ∃ s', largezip_session restart_env "rom.zip".toList 7 0 initial_state
        = some (.returned 0, s') ∧
      transport_calls s'.log =
        [.fb_download_data 0 (.bytes "AAAA".toList) 4,
         .fb_command 0 "flash:zip".toList,
         .reopen_device,
         .WaitForDisconnect 1,
         .fb_download_data 1 (.bytes "AAAA".toList) 4,
         .fb_command 1 "flash:zip".toList,
         .fb_download_data 1 (.bytes "BBB".toList) 3,
         .fb_command 1 "flash:zip".toList] ∧
      (events s'.log).take 5 =
        [.sys_open "rom.zip".toList,
         .fb_download_data 0 (.bytes "AAAA".toList) 4,
         .fb_command 0 "flash:zip".toList,
         .sleep 5,
         .reopen_device] ∧
      s'.zip_info.current_flash = 2 := by
  obtain ⟨s', t1, ht1, hrun, hcalls, hev, hc⟩ :=
    largezip_restart_recovery restart_env initial_state "rom.zip".toList scenario_file
      4 3 0 72 76 [0, 0, 0, 0, 0] [0, 0, 0, 0, 0, 0] 7 0 (le_refl _) rfl rfl rfl rfl rfl
      (by decide) (by decide) rfl rfl rfl (by decide) (by decide) (by decide) (by decide)
      (by decide)
      (fun hist e h => by simp [restart_env, h])
      (fun hist e h => by simp only [restart_env, h, if_true]; rfl)
      (fun hist e h => by simp [restart_env, h])
  have h1 : t1 = 1 := ht1
  subst h1
  exact ⟨rfl, rfl, rfl, s', hrun, hcalls, hev, hc⟩

/-- C7: for an action whose product scope is unset or the current product, and a getvar that
succeeded, `cb_reject` returns 0 exactly when `match` is 0 and -1 exactly when it is 1,
`cb_require` returns 0 exactly when `match` is 1; so `cb_reject` succeeds if and only if
`cb_require` does not. -/
theorem reject_inverts_require (env : Env) (i : Nat) (s : State) (a : Action) (vs : List CStr)
    (r : CStr) (ha : s.queue[i]? = some a) (hd : a.data = .values vs)
    (hsz : a.size = vs.length) (hp : a.prod = none ∨ a.prod = some env.cur_product) :
    ((cb_reject env i 0 r s).status? = some 0 ↔ Fastboot.match r vs vs.length = .ok 0) ∧
    ((cb_reject env i 0 r s).status? = some (-1) ↔ Fastboot.match r vs vs.length = .ok 1) ∧
    ((cb_require env i 0 r s).status? = some 0 ↔ Fastboot.match r vs vs.length = .ok 1) ∧
    ((cb_reject env i 0 r s).status? = some 0 ↔ (cb_require env i 0 r s).status? ≠ some 0) := by
  have hrej : cb_reject env i 0 r s = cb_check_verdict env i a r 1 s :=
    cb_check_scope env i s a r 1 ha hp
  have hreq : cb_require env i 0 r s = cb_check_verdict env i a r 0 s :=
    cb_check_scope env i s a r 0 ha hp
  rw [hrej, hreq]
  rcases match_spec r vs with ⟨h1, v, hv, _⟩ | ⟨h0, _⟩
  · have hne : vs ≠ [] := List.ne_nil_of_mem hv
    have hm : Fastboot.match r vs a.size = .ok 1 := by rw [hsz]; exact h1
    rw [verdict_fail env i s a vs r 1 1 hd hsz hne hm (by decide),
      verdict_pass env i s a vs r 0 1 hd hm (by decide), h1]
    simp
  · have hm : Fastboot.match r vs a.size = .ok 0 := by rw [hsz]; exact h0
    rw [verdict_pass env i s a vs r 1 0 hd hm (by decide), h0]
    by_cases hne : vs = []
    · subst hne
      rw [verdict_empty env i s a r hd (by simpa using hsz)]
      simp
    · rw [verdict_fail env i s a vs r 0 0 hd hsz hne hm (by decide)]
      simp

/-- C7 at a concrete action: the product scope `angler` is the current product and the
response is `angler`. -/
theorem reject_inverts_require_witness :
    ({ initial_state with queue := [require_action (some "angler".toList) .cb_require] }
        : State).queue[0]? = some (require_action (some "angler".toList) .cb_require) ∧
    ((cb_reject okay_env 0 0 "angler".toList
        { initial_state with queue := [require_action (some "angler".toList) .cb_require] }).status?
        = some (-1) ↔
      Fastboot.match "angler".toList ["angler".toList, "bullhead".toList] 2 = .ok 1) :=
  ⟨rfl, (reject_inverts_require okay_env 0
    { initial_state with queue := [require_action (some "angler".toList) .cb_require] }
    (require_action (some "angler".toList) .cb_require) ["angler".toList, "bullhead".toList]
    "angler".toList rfl rfl rfl (Or.inr rfl)).2.1⟩

/-- C8 (as stated) fails for a status other than 0: the action is scoped to `bullhead`, the
current product is `angler`, and for the status -1 `cb_require` prints `FAILED` and returns
-1 where the claim says `IGNORE` and 0. -/
theorem product_scope_after_status :
    cb_require okay_env 0 (-1) "no device".toList
      { initial_state with queue := [require_action (some "bullhead".toList) .cb_require] }
    = .ok (-1)
      { initial_state with
        queue := [require_action (some "bullhead".toList) .cb_require]
        log := [.print ⟨"FAILED (%s)\n".toList, [.str "no device".toList]⟩] } := by
  rfl

/-- C8 (amended): for a require or reject action whose product scope is set and differs from
the current product, and a getvar that succeeded (status 0), the callback prints the `IGNORE`
line and returns 0 for every response, value array and count; the result does not depend on
them, the matcher is not consulted. -/
theorem product_scope_ignore (env : Env) (i : Nat) (s : State) (a : Action) (p r : CStr)
    (ha : s.queue[i]? = some a) (hp : a.prod = some p) (hne : p ≠ env.cur_product) :
    cb_require env i 0 r s = .ok 0
      { s with
        clock := s.clock + 1
        log := s.log ++ [.print ⟨"IGNORE, product is %s required only for %s [%7.3fs]\n".toList,
          [.str env.cur_product, .str p, .time (env.now s.clock - a.start)]⟩]
        queue := set_at (fun a => { a with start := env.now s.clock }) i s.queue } ∧
    cb_reject env i 0 r s = cb_require env i 0 r s := by
  have hs : strcmp p env.cur_product ≠ 0 := fun h => hne ((strcmp_eq_zero _ _).1 h)
  constructor
  · simp [cb_require, cb_check, action_run i s a ha, hp, hs, cb_check_ignore]
  · simp [cb_require, cb_reject, cb_check, action_run i s a ha, hp, hs, cb_check_ignore]

/-- C8 (amended) at a concrete action: scoped to `bullhead` while the product is `angler`. -/
theorem product_scope_ignore_witness :
    ({ initial_state with queue := [require_action (some "bullhead".toList) .cb_require] }
        : State).queue[0]? = some (require_action (some "bullhead".toList) .cb_require) ∧
    "bullhead".toList ≠ okay_env.cur_product ∧
    cb_reject okay_env 0 0 "foo".toList
        { initial_state with queue := [require_action (some "bullhead".toList) .cb_require] }
      = cb_require okay_env 0 0 "foo".toList
        { initial_state with queue := [require_action (some "bullhead".toList) .cb_require] } :=
  ⟨rfl, by decide, (product_scope_ignore okay_env 0
    { initial_state with queue := [require_action (some "bullhead".toList) .cb_require] }
    (require_action (some "bullhead".toList) .cb_require) "bullhead".toList "foo".toList
    rfl rfl (by decide)).2⟩

/-- C9: `queue_action` ends in `die` exactly when the formatted command has 64 (`CMD_SIZE`) or
more characters, and then the queue is as before; otherwise it appends one node at the tail
with the whole command, the given `op`, `cb_default` and `start = -1`. -/
theorem queue_action_oversized (op : Nat) (formatted : CStr) (s : State) :
    CMD_SIZE = 64 ∧
    queue_action op formatted s =
      (if CMD_SIZE ≤ formatted.length then
        .fault (.die ⟨"Command length (%d) exceeds maximum size (%d)".toList,
          [.int formatted.length, .int CMD_SIZE]⟩) s
      else
        .ok () { s with queue := s.queue ++
          [{ op := op, cmd := formatted, prod := none, data := .null, size := 0, msg := none,
             func := .cb_default, start := -1 }] }) :=
  ⟨rfl, queue_action_run op formatted s⟩

/-- C11: when `flash:<ptn>` fits the 64-byte slot, `fb_queue_flash(ptn, data, sz)` appends two
nodes behind the tail and changes nothing else: a `Download` node with empty `cmd` that carries
the buffer and the size, then a `Command` node with the command `flash:<ptn>`; both have the
callback `cb_default`, and the nodes queued before are as they were. -/
theorem queue_flash_shape (ptn : CStr) (data : Data) (sz : Nat) (s : State)
    (hfit : ("flash:".toList ++ ptn).length < CMD_SIZE) :
    fb_queue_flash ptn data sz s = .ok () { s with queue := s.queue ++
      [{ op := OP_DOWNLOAD, cmd := [], prod := none, data := data, size := sz,
         msg := mkmsg "sending '%s' (%d KB)" [.str ptn, .int (sz / 1024 : Nat)],
         func := .cb_default, start := -1 },
       { op := OP_COMMAND, cmd := "flash:".toList ++ ptn, prod := none, data := .null, size := 0,
         msg := mkmsg "writing '%s'" [.str ptn], func := .cb_default, start := -1 }] } := by
  have h1 : ¬ CMD_SIZE ≤ ([] : CStr).length := by decide
  have h2 : ¬ CMD_SIZE ≤ ("flash:".toList ++ ptn).length := by omega
  simp only [fb_queue_flash, bind_run, queue_action_run, if_neg h1, if_neg h2,
    modify_last_run, set_last_concat]
  simp [set_last_concat]

/-- C11 at a concrete call: `fb_queue_flash("boot", "abcd", 4)` on the empty queue. -/
theorem queue_flash_shape_witness :
    fb_queue_flash "boot".toList (.bytes "abcd".toList) 4 initial_state =
      .ok () { initial_state with queue :=
        [{ op := OP_DOWNLOAD, cmd := [], prod := none, data := .bytes "abcd".toList, size := 4,
           msg := mkmsg "sending '%s' (%d KB)" [.str "boot".toList, .int 0],
           func := .cb_default, start := -1 },
         { op := OP_COMMAND, cmd := "flash:boot".toList, prod := none, data := .null, size := 0,
           msg := mkmsg "writing '%s'" [.str "boot".toList], func := .cb_default,
           start := -1 }] } :=
  queue_flash_shape "boot".toList (.bytes "abcd".toList) 4 initial_state (by decide)

/-- C12 fails on the code for a descriptor that stands at or beyond `2^31`: on a file of
`2^31 + 72` characters `x`, read from offset `2^31`, a full record is read whose first bytes
are not the magic, `htc_largezip_read_header` returns 0, and the descriptor is left behind the
record, at `2^31 + 72`: the position was saved in an `int` (here `-2^31`), and the
`lseek(fd, pos, SEEK_SET)` that should restore it fails. -/
theorem read_header_position_lost (header : htc_largezip_header_t) :
    far_state.fds.lookup 3 = some ⟨List.replicate 2147483720 'x', 2147483648⟩ ∧
    (List.replicate 2147483720 'x').length = 2147483648 + 72 ∧
    to_int32 2147483648 = -2147483648 ∧
    ∃ h s', htc_largezip_read_header okay_env 3 header far_state = .ok (0, h) s' ∧
      s'.fds.lookup 3 = some ⟨List.replicate 2147483720 'x', 2147483648 + 72⟩ := by
  have hl : (List.replicate 2147483720 'x').length = 2147483720 := List.length_replicate _ _
  have h72 : okay_env.decl.sizeof_header = 72 := rfl
  have hraw : ((List.replicate 2147483720 'x').drop 2147483648).take 72
      = List.replicate 72 'x' := by
    rw [List.drop_replicate, List.take_replicate]
    congr 1
  obtain ⟨s', hrun, _, _, hfd⟩ := read_header_mismatch okay_env 3 header far_state
    (List.replicate 2147483720 'x') 2147483648 rfl
    (by
      rw [hl]
      decide)
    (by
      rw [h72, hraw]
      decide)
  have hneg : to_int32 ((2147483648 : Nat) : Int) < 0 := by decide
  refine ⟨rfl, hl, by decide, _, s', hrun, ?_⟩
  rw [hfd, if_pos hneg, h72]

/-- C13: for an archive in which the entries `zip_0.zip .. zip_<k-1>.zip` exist (with the
contents `b 0 .. b (k-1)`) and `zip_<k>.zip` does not, and a transport that answers `OKAY` to
every request, the session that starts with `fb_queue_flash_multizip(fname)` on an empty queue
returns 0 for every fuel of at least `2 * k`; the calls it makes are the `open`, then for each
entry in order a download of its content and the command `flash:zip`, then `CloseArchive`;
the queue holds the `2 * k` nodes of these entries and nothing else, the cursor is `k` and the
archive is closed. -/
theorem multizip_iteration (env : Env) (s : State) (fname : CStr) (raw : List Char)
    (entries : List (CStr × List Char)) (b : Nat → List Char) (k fuel transport : Nat)
    (hq : s.queue = []) (hfd : s.zip_info.open_fd = 0) (hr : s.restart_usb = 0)
    (hfile : env.files fname = some raw) (hfree : lowest_free s.fds ≠ 0)
    (hzip : env.unzip raw = some entries)
    (hent : ∀ i, i < k → entries.lookup (zip_name (i : Nat)) = some (b i))
    (hend : entries.lookup (zip_name (k : Nat)) = none)
    (hokay : ∀ hist e, (env.device hist e).status = 0)
    (hfuel : 2 * k ≤ fuel) :
    ∃ s', multizip_session env fname fuel transport s = some (.returned 0, s') ∧
      events s'.log =
        events s.log ++ [.sys_open fname] ++ mz_calls transport b k ++ [.CloseArchive] ∧
      s'.queue.map Action.static = mz_nodes b k ∧
      s'.queue.length = 2 * k ∧
      s'.zip_info.current_flash = (k : Nat) ∧
      s'.zip_info.zip = some ⟨entries, false⟩ := by
  have hopen := multizip_open_fresh env s fname raw entries hfd hfile hzip
  have hSo : MSess (lowest_free s.fds) entries
      { s with
        log := s.log ++ [.call (.sys_open fname)]
        fds := fds_set s.fds (lowest_free s.fds) ⟨raw, 0⟩
        zip_info := { s.zip_info with
          open_fd := lowest_free s.fds
          current_data := none
          current_flash := 0
          zip := some ⟨entries, true⟩ } }
      0 0 [] (events s.log ++ [.sys_open fname]) := by
    constructor
    · simp [hq]
    · rfl
    · rfl
    · rfl
    · exact hr
    · simp [events_append, events]
  have hfirst := multizip_after_open env (some fname) s _ hopen hfree
  cases k with
  | zero =>
    obtain ⟨s1, hrun, hq1, hc1, _, hz1, he1⟩ := msess_stop env _ entries _ 0 0 _ _ hSo hfree
      (by simpa using hend)
    rw [hrun] at hfirst
    have hq1' : s1.queue = [] := by rw [hq1]; exact hq
    refine ⟨s1, ?_, ?_, ?_, ?_, ?_, hz1⟩
    · simp [multizip_session, hfirst, fb_execute_queue, hq1']
    · rw [he1]; simp [mz_calls]
    · rw [hq1']; rfl
    · rw [hq1']; rfl
    · rw [hc1]; rfl
  | succ n =>
    obtain ⟨s1, hrun, hS1⟩ := msess_next env _ entries _ 0 0 _ _ (b 0) hSo hfree
      (by simpa using hent 0 (by omega))
    rw [hrun] at hfirst
    have hne : s1.queue.isEmpty = false := by
      have := congrArg List.length hS1.queue
      cases hq1 : s1.queue with
      | nil => rw [hq1] at this; simp at this
      | cons a r => rfl
    obtain ⟨s', hw, hq', hc', hz', he'⟩ := mz_run env _ entries b (n + 1) transport
      (events s.log ++ [.sys_open fname]) hfree hent hend hokay n 0 (by omega) s1
      { transport := transport, status := 0, start := -1 } fuel
      (by simpa [mz_nodes, mz_calls] using hS1) rfl (by omega)
    refine ⟨s', ?_, he', hq', ?_, hc', hz'⟩
    · simp only [multizip_session, hfirst, fb_execute_queue, hne, Bool.false_eq_true, if_false]
      exact congrArg some hw
    · have := congrArg List.length hq'
      rw [List.length_map, mz_nodes_length] at this
      exact this

set_option maxRecDepth 100000 in
/-- C13 at the archive `multi.zip` with the entries `zip_0.zip` (`AAAA`) and `zip_1.zip`
(`BBB`): two pairs are dispatched in this order, then the archive is closed. -/
theorem multizip_iteration_witness :
    ∃ s', multizip_session multi_env "multi.zip".toList 4 0 initial_state
        = some (.returned 0, s') ∧
      events s'.log =
        [.sys_open "multi.zip".toList,
         .fb_download_data 0 (.bytes "AAAA".toList) 4, .fb_command 0 "flash:zip".toList,
         .fb_download_data 0 (.bytes "BBB".toList) 3, .fb_command 0 "flash:zip".toList,
         .CloseArchive] ∧
      s'.queue.length = 4 ∧ s'.zip_info.current_flash = 2 := by
  obtain ⟨s', h1, h2, _, h4, h5, _⟩ := multizip_iteration multi_env initial_state
    "multi.zip".toList "PK".toList
    [("zip_0.zip".toList, "AAAA".toList), ("android-info.txt".toList, "x".toList),
      ("zip_1.zip".toList, "BBB".toList)]
    multi_contents 2 4 0 rfl rfl rfl rfl (by decide) rfl (by decide) (by decide)
    (fun _ _ => rfl) (by decide)
  exact ⟨s', h1, by rw [h2]; rfl, h4, h5⟩

set_option maxRecDepth 100000 in
/-- C14 fails on the code for a cursor of 8: in a session on a container that uses all eight
slots (sub-images `A` to `H`, every request answered `OKAY`) the walk flashes the eight
sub-images and returns 0 with the cursor at 8, and the advance made with the cursor at 8
appends nothing and does not close the container: no `close` was called and descriptor 3 is
still open at offset 80. The same driver does close the container when it stops on a length
of 0, as in the session on the file with two sub-images. -/
theorem largezip_full_not_closed :
    (largezip_session full_env "full.zip".toList 16 0 initial_state).map
      (fun r => (r.1, r.2.zip_info.current_flash, r.2.zip_info.open_fd,
        (r.2.fds.lookup 3).map (fun f => f.pos), r.2.queue.length,
        ((events r.2.log).filter is_download).length,
        (events r.2.log).filter is_close)) =
      some (.returned 0, 8, 3, some 80, 16, 8, []) ∧
    (∀ r, largezip_session full_env "full.zip".toList 16 0 initial_state = some r →
      fb_queue_flash_largezip full_env none r.2 = .ok () r.2) ∧
    (largezip_session restart_env "rom.zip".toList 7 0 initial_state).map
      (fun r => (r.2.zip_info.current_flash, (r.2.fds.lookup 3).map (fun f => f.pos),
        (events r.2.log).filter is_close)) =
      some (2, none, [.sys_close 3]) := by
  refine ⟨rfl, ?_, rfl⟩
  intro r h
  have h3 : (largezip_session full_env "full.zip".toList 16 0 initial_state).map
      (fun r => (r.2.zip_info.current_flash, r.2.zip_info.open_fd)) = some (8, 3) := rfl
  rw [h] at h3
  simp at h3
  exact largezip_full full_env r.2 (by rw [h3.2]; decide) (by rw [h3.1])

/-- C15: in a large-zip session whose cursor `c` stands on a sub-image inside the container,
and in a multi-zip session whose cursor `mc` stands on an existing entry, the callbacks
`cb_largezip_check` and `cb_multizip_check` called with a status other than 0 return 0 if and
only if the response contains `hboot pre-update`. In that case the cursor is as before, the
restart flag is 1 and the queue has grown at the tail by a `WaitForDisconnect` node, a
`Download` node of the same sub-image and a `flash:zip` node, in this order. For every other
response they print the `FAILED` line and return the status as it came; queue, cursor and
restart flag are as before. -/
theorem compound_check_on_fail (env : Env) (i : Nat) (st : Int) (resp : CStr)
    (fd : Int) (bytes : List Char) (h : htc_largezip_header_t) (s : State) (c r : Int)
    (q : List Action) (ev : List Event) (len start : Int)
    (mfd : Int) (entries : List (CStr × List Char)) (t : State) (mc mr : Int)
    (mq : List Action) (mev : List Event) (b : List Char)
    (hS : Sess fd bytes h s c r q ev) (hfd : fd ≠ 0) (hc0 : 0 ≤ c) (hc8 : c < 8)
    (hlen : h.lengths[c.toNat]? = some len) (hpos : 0 < len) (hlen31 : len < 2147483648)
    (hst : h.starts[c.toNat]? = some start) (hst0 : 0 ≤ start)
    (hfit : start.toNat + len.toNat ≤ bytes.length)
    (hM : MSess mfd entries t mc mr mq mev) (hmfd : mfd ≠ 0)
    (hent : entries.lookup (zip_name mc) = some b)
    (hne : st ≠ 0) :
    ((cb_largezip_check env i st resp s).status? = some 0 ↔
      strstr_found resp "hboot pre-update".toList = true) ∧
    ((cb_multizip_check env i st resp t).status? = some 0 ↔
      strstr_found resp "hboot pre-update".toList = true) ∧
    (strstr_found resp "hboot pre-update".toList = true →
      (∃ s1, cb_largezip_check env i st resp s = .ok 0 s1 ∧
        s1.zip_info.current_flash = c ∧ s1.restart_usb = 1 ∧
        s1.queue.map Action.static =
          q ++ [wait_node, download_node c (sub_image bytes start len), flash_node c]) ∧
      (∃ t1, cb_multizip_check env i st resp t = .ok 0 t1 ∧
        t1.zip_info.current_flash = mc ∧ t1.restart_usb = 1 ∧
        t1.queue.map Action.static =
          mq ++ [wait_node, mz_download_node mc b, mz_flash_node mc])) ∧
    (strstr_found resp "hboot pre-update".toList = false →
      cb_largezip_check env i st resp s =
        .ok st { s with log := s.log ++ [.print ⟨"FAILED (%s)\n".toList, [.str resp]⟩] } ∧
      cb_multizip_check env i st resp t =
        .ok st { t with log := t.log ++ [.print ⟨"FAILED (%s)\n".toList, [.str resp]⟩] }) := by
  have hyes : strstr_found resp "hboot pre-update".toList = true →
      (∃ s1, cb_largezip_check env i st resp s = .ok 0 s1 ∧
        s1.zip_info.current_flash = c ∧ s1.restart_usb = 1 ∧
        s1.queue.map Action.static =
          q ++ [wait_node, download_node c (sub_image bytes start len), flash_node c]) ∧
      (∃ t1, cb_multizip_check env i st resp t = .ok 0 t1 ∧
        t1.zip_info.current_flash = mc ∧ t1.restart_usb = 1 ∧
        t1.queue.map Action.static =
          mq ++ [wait_node, mz_download_node mc b, mz_flash_node mc]) := by
    intro hhb
    obtain ⟨s1, hrun, hS1⟩ := cb_largezip_fail env fd bytes h s c r q ev len start i st resp hS
      hfd hc0 hc8 hlen hpos hlen31 hst hst0 hfit hne hhb
    obtain ⟨t1, hrunm, hM1⟩ := cb_multizip_fail env mfd entries t mc mr mq mev b i st resp hM
      hmfd hent hne hhb
    exact ⟨⟨s1, hrun, hS1.flash, hS1.restart, hS1.queue⟩,
      ⟨t1, hrunm, hM1.flash, hM1.restart, hM1.queue⟩⟩
  have hno : strstr_found resp "hboot pre-update".toList = false →
      cb_largezip_check env i st resp s =
        .ok st { s with log := s.log ++ [.print ⟨"FAILED (%s)\n".toList, [.str resp]⟩] } ∧
      cb_multizip_check env i st resp t =
        .ok st { t with log := t.log ++ [.print ⟨"FAILED (%s)\n".toList, [.str resp]⟩] } :=
    fun hhb => ⟨cb_largezip_other env i st resp s hne hhb,
      cb_multizip_other env i st resp t hne hhb⟩
  refine ⟨?_, ?_, hyes, hno⟩
  · cases hhb : strstr_found resp "hboot pre-update".toList with
    | true =>
      obtain ⟨⟨s1, hrun, _⟩, _⟩ := hyes hhb
      simp [hrun, Res.status?]
    | false =>
      rw [(hno hhb).1]
      simp [Res.status?, hne]
  · cases hhb : strstr_found resp "hboot pre-update".toList with
    | true =>
      obtain ⟨_, ⟨t1, hrun, _⟩⟩ := hyes hhb
      simp [hrun, Res.status?]
    | false =>
      rw [(hno hhb).2]
      simp [Res.status?, hne]

set_option maxRecDepth 100000 in
/-- C15 at the sessions on `rom.zip` and `multi.zip`, for the flash of sub-image 0 answered
with status -1 and the text of scenario S5: both callbacks return 0. -/
theorem compound_check_on_fail_witness :
    (cb_largezip_check restart_env 1 (-1)
      "remote: 90 hboot pre-update! please flush image again immediately".toList
      largezip_started).status? = some 0 ∧
    (cb_multizip_check multi_env 1 (-1)
      "remote: 90 hboot pre-update! please flush image again immediately".toList
      multizip_started).status? = some 0 := by
  have h := compound_check_on_fail restart_env 1 (-1)
    "remote: 90 hboot pre-update! please flush image again immediately".toList
    3 scenario_file largezip_started.zip_info.largezip largezip_started 0 0
    (largezip_started.queue.map Action.static) (events largezip_started.log) 4 72
    3 [("zip_0.zip".toList, "AAAA".toList), ("android-info.txt".toList, "x".toList),
      ("zip_1.zip".toList, "BBB".toList)] multizip_started 0 0
    (multizip_started.queue.map Action.static) (events multizip_started.log) "AAAA".toList
    ⟨rfl, rfl, rfl, rfl, ⟨76, rfl⟩, rfl, rfl⟩ (by decide) (by decide) (by decide) rfl
    (by decide) (by decide) rfl (by decide) (by decide)
    ⟨rfl, rfl, rfl, rfl, rfl, rfl⟩ (by decide) rfl (by decide)
  exact ⟨h.1.2 (by decide), h.2.1.2 (by decide)⟩

/-- C17: for a save node whose destination array holds at least `dest_size` characters,
`cb_save` on status 0 returns 0 and leaves the array as: the first `min(|r|, dest_size)`
characters of the response `r`, then NULs up to `dest_size`, then the old content beyond
`dest_size`; the other arrays and the queue are as before. The first `dest_size` characters
hold a NUL if and only if `|r| < dest_size`. On a status other than 0 the status is returned
and no array is written. -/
theorem bounded_save (i : Nat) (s : State) (a : Action) (addr : Nat) (buf : List Char)
    (r : CStr) (ha : s.queue[i]? = some a) (hd : a.data = .dest addr)
    (hm : s.mem.lookup addr = some buf) (hsz : a.size ≤ buf.length)
    (hr : Char.ofNat 0 ∉ r) :
    (∃ s' out, cb_save i 0 r s = .ok 0 s' ∧ s'.mem.lookup addr = some out ∧
      out = r.take a.size ++ List.replicate (a.size - r.length) (Char.ofNat 0)
        ++ buf.drop a.size ∧
      out.length = buf.length ∧
      out.take (min r.length a.size) = r.take (min r.length a.size) ∧
      (∀ k, r.length ≤ k → k < a.size → out[k]? = some (Char.ofNat 0)) ∧
      out.drop a.size = buf.drop a.size ∧
      (Char.ofNat 0 ∈ out.take a.size ↔ r.length < a.size) ∧
      (∀ b, b ≠ addr → s'.mem.lookup b = s.mem.lookup b) ∧
      s'.queue = s.queue) ∧
    (∀ status, status ≠ 0 → ∃ s', cb_save i status r s = .ok status s' ∧ s'.mem = s.mem) := by
  constructor
  · have hl1 : (r.take a.size).length = min a.size r.length := List.length_take _ _
    have hl2 : (r.take a.size ++ List.replicate (a.size - r.length) (Char.ofNat 0)).length
        = a.size := by
      rw [List.length_append, hl1, List.length_replicate]; omega
    refine ⟨_, _, cb_save_okay i s a addr buf r ha hd hm hsz, ?_, rfl, ?_, ?_, ?_, ?_, ?_, ?_,
      rfl⟩
    · simp [List.lookup]
    · rw [List.length_append, hl2, List.length_drop]; omega
    · rw [List.append_assoc, List.take_append_of_le_length (by rw [hl1]; omega),
        List.take_take]
      congr 1
      omega
    · intro k hk1 hk2
      rw [List.getElem?_append_left (by rw [hl2]; exact hk2),
        List.getElem?_append_right (by rw [hl1]; omega), hl1]
      rw [List.getElem?_replicate]
      rw [if_pos (by omega)]
    · rw [List.drop_append_of_le_length (by rw [hl2]), List.drop_of_length_le (by rw [hl2])]
      rfl
    · rw [List.take_append_of_le_length (by rw [hl2]), List.take_of_length_le (by rw [hl2])]
      exact nul_mem_copy r a.size hr
    · intro b hb
      have hba : (b == addr) = false := by simpa using hb
      simp only [List.lookup, hba]
      exact lookup_filter_ne s.mem addr b hb
  · intro status hst
    exact ⟨_, cb_save_failed i s a status r ha hst, rfl⟩

/-- C17 at a concrete node: the destination is an array of 4 characters at address 7 inside a
buffer of 6, and the response `angler` fills it without a terminating NUL. -/
theorem bounded_save_witness :
    ∃ s' out, cb_save 0 0 "angler".toList
        { initial_state with
          queue := [{ op := OP_QUERY, cmd := "getvar:product".toList, prod := none,
                      data := .dest 7, size := 4, msg := none, func := .cb_save, start := -1 }]
          mem := [(7, "......".toList)] } = .ok 0 s' ∧
      s'.mem.lookup 7 = some out ∧ out = "angl..".toList ∧
      ¬ Char.ofNat 0 ∈ out.take 4 := by
  obtain ⟨⟨s', out, h1, h2, h3, _, _, _, _, h8, _⟩, _⟩ := bounded_save 0
    { initial_state with
      queue := [{ op := OP_QUERY, cmd := "getvar:product".toList, prod := none,
                  data := .dest 7, size := 4, msg := none, func := .cb_save, start := -1 }]
      mem := [(7, "......".toList)] }
    { op := OP_QUERY, cmd := "getvar:product".toList, prod := none,
      data := .dest 7, size := 4, msg := none, func := .cb_save, start := -1 }
    7 "......".toList "angler".toList rfl rfl rfl (by decide) (by decide)
  refine ⟨s', out, h1, h2, ?_, ?_⟩
  · rw [h3]; rfl
  · rw [h8]; decide

/-- C18: with a status other than 0, `cb_check` prints the `FAILED` line with the response and
returns the status as it came, whatever the product scope, the invert flag, the value array and
the count of the action are: no other line is printed, the clock is not read. -/
theorem status_precedes_scope (env : Env) (i : Nat) (s : State) (a : Action) (status : Int)
    (resp : CStr) (invert : Int) (ha : s.queue[i]? = some a) (hst : status ≠ 0) :
    cb_check env i status resp invert s =
      .ok status { s with log := s.log ++ [.print ⟨"FAILED (%s)\n".toList, [.str resp]⟩] } := by
  simp [cb_check, action_run i s a ha, hst]

/-- C18 at a concrete action: scoped to `bullhead` while the product is `angler`, inverted,
status -1. -/
theorem status_precedes_scope_witness :
    cb_check okay_env 0 (-1) "no device".toList 1
        { initial_state with queue := [require_action (some "bullhead".toList) .cb_reject] } =
      .ok (-1)
        { initial_state with
          queue := [require_action (some "bullhead".toList) .cb_reject]
          log := [.print ⟨"FAILED (%s)\n".toList, [.str "no device".toList]⟩] } :=
  status_precedes_scope okay_env 0
    { initial_state with queue := [require_action (some "bullhead".toList) .cb_reject] }
    (require_action (some "bullhead".toList) .cb_reject) (-1) "no device".toList 1 rfl
    (by decide)

/-- C19: for a require or reject node that carries an array of `nvalues >= 1` values with the
count `nvalues` (as `fb_queue_require` stores it, converted to 32 bits), `cb_check` never reads
outside the array, for every status, response and invert flag: it returns. With an empty array
and the count 0, `cb_require` on a successful getvar (product gate passed) finds no match and
ends in the read of `value[0]` outside the array, so it never returns 0. -/
theorem require_indexes_in_bounds (env : Env) (i : Nat) (s : State) (a : Action)
    (vs : List CStr) (ha : s.queue[i]? = some a) (hd : a.data = .values vs)
    (hsz : a.size = to_uint32 vs.length) :
    (1 ≤ vs.length → ∀ status r invert, ∃ v s', cb_check env i status r invert s = .ok v s') ∧
    (vs = [] → (a.prod = none ∨ a.prod = some env.cur_product) → ∀ r,
      Fastboot.match r vs a.size = .ok 0 ∧
      cb_require env i 0 r s = .fault (.undefined "value[0]".toList)
        { s with log := s.log ++ [.print ⟨"FAILED\n\n".toList, []⟩] ++
          [.print ⟨"Device %s is '%s'.\n".toList, [.str (a.cmd.drop 7), .str r]⟩] }) := by
  constructor
  · intro hlen status r invert
    have hne : vs ≠ [] := by intro h; simp [h] at hlen
    have hle : a.size ≤ vs.length := by rw [hsz]; exact to_uint32_le _
    simp only [cb_check, bind_run, action_run i s a ha]
    by_cases hst : status ≠ 0
    · rw [if_pos hst]
      exact ⟨_, _, rfl⟩
    · rw [if_neg hst]
      cases hp : a.prod with
      | none => exact verdict_ok env i s a vs r invert hd hle hne
      | some p =>
        dsimp only
        by_cases hs : strcmp p env.cur_product ≠ 0
        · rw [if_pos hs]
          exact ⟨_, _, rfl⟩
        · rw [if_neg hs]
          exact verdict_ok env i s a vs r invert hd hle hne
  · intro hvs hp r
    subst hvs
    have h0 : a.size = 0 := by rw [hsz]; rfl
    refine ⟨by rw [h0]; rfl, ?_⟩
    rw [cb_require, cb_check_scope env i s a r 0 ha hp]
    exact verdict_empty_fault env i s a r hd h0

/-- C19 at the node of `fb_queue_require(NULL, "product", false, 2, {"angler", "bullhead"})`:
the check of the response `shamu` fails and returns -1 after reading both values. -/
theorem require_indexes_in_bounds_witness :
    ({ initial_state with queue := [require_action none .cb_require] } : State).queue[0]?
      = some (require_action none .cb_require) ∧
    ∃ v s', cb_check okay_env 0 0 "shamu".toList 0
      { initial_state with queue := [require_action none .cb_require] } = .ok v s' :=
  ⟨rfl, (require_indexes_in_bounds okay_env 0
    { initial_state with queue := [require_action none .cb_require] }
    (require_action none .cb_require) ["angler".toList, "bullhead".toList] rfl rfl rfl).1
    (by decide) 0 "shamu".toList 0⟩

/-- C20: in a large-zip session that starts on an empty queue with no container open, for a
header declaration whose `starts` and `lengths` arrays have eight entries, whatever the device
answers and however many iterations the walk has made: the first call and the walk never end in
an access outside an object (every read of `lengths[c]` and `starts[c]` has `0 <= c < 8`), the
cursor `current_flash` is between 0 and 8, every `Download` node of the queue carries the name
`<c>-zip` of a sub-image with `0 <= c < 8`, and so at most eight different sub-images are
queued. -/
theorem largezip_cursor_bound (env : Env) (fname : CStr) (fuel transport : Nat) (s : State)
    (hq : s.queue = []) (hfd : s.zip_info.open_fd = 0)
    (hdecl : ∀ raw, (env.decl.layout raw).lengths.length = 8 ∧
      (env.decl.layout raw).starts.length = 8) :
    (∀ w t, fb_queue_flash_largezip env (some fname) s ≠ .fault (.undefined w) t) ∧
    ∀ o s', largezip_session env fname fuel transport s = some (o, s') →
      0 ≤ s'.zip_info.current_flash ∧ s'.zip_info.current_flash ≤ 8 ∧
      (∀ w, o ≠ .fault (.undefined w)) ∧
      (∀ a ∈ s'.queue, a.op = OP_DOWNLOAD →
        ∃ c : Int, 0 ≤ c ∧ c < 8 ∧ image_name a = some (fmt_d c ++ "-zip".toList)) ∧
      (queued_images s'.queue).dedup.length ≤ 8 := by
  rcases largezip_first_inv env fname s hq hfd hdecl with ⟨m, t, hdie⟩ | ⟨t, hrun, hI⟩
  · refine ⟨fun w t' h => ?_, fun o s' h => ?_⟩
    · rw [hdie] at h
      cases h
    · simp [largezip_session, hdie] at h
  · refine ⟨fun w t' h => ?_, fun o s' h => ?_⟩
    · rw [hrun] at h
      cases h
    · simp only [largezip_session, hrun, Option.some.injEq] at h
      unfold fb_execute_queue at h
      by_cases he : t.queue.isEmpty = true
      · rw [if_pos he] at h
        cases h
        obtain ⟨hn, hd⟩ := inv_images hI
        exact ⟨hI.lo, hI.hi, (fun w h => by cases h), hn, hd⟩
      · rw [if_neg he] at h
        obtain ⟨⟨j, hJ⟩, hund⟩ := walk_inv env fuel 0
          { transport := transport, status := 0, start := -1 } t hI
        rw [h] at hJ hund
        obtain ⟨hn, hd⟩ := inv_images hJ
        exact ⟨hJ.lo, hJ.hi, hund, hn, hd⟩

set_option maxRecDepth 100000 in
/-- C20 at the session on the container `full.zip` that uses all eight slots: the walk returns
with the cursor at 8, and eight different sub-images were queued. -/
theorem largezip_cursor_bound_witness :
    ∃ o s', largezip_session full_env "full.zip".toList 16 0 initial_state = some (o, s') ∧
      s'.zip_info.current_flash = 8 ∧ (queued_images s'.queue).dedup.length = 8 ∧
      0 ≤ s'.zip_info.current_flash ∧ s'.zip_info.current_flash ≤ 8 ∧
      (queued_images s'.queue).dedup.length ≤ 8 := by
  cases h : largezip_session full_env "full.zip".toList 16 0 initial_state with
  | none => exact absurd h (by decide)
  | some r =>
    have hv : (largezip_session full_env "full.zip".toList 16 0 initial_state).map
        (fun r => (r.2.zip_info.current_flash, (queued_images r.2.queue).dedup.length))
        = some (8, 8) := rfl
    rw [h] at hv
    simp at hv
    obtain ⟨h0, h8, _, _, hd⟩ := (largezip_cursor_bound full_env "full.zip".toList 16 0
      initial_state rfl rfl (fun raw => ⟨by simp [full_env, scenario_decl, scenario_layout],
        by simp [full_env, scenario_decl, scenario_layout]⟩)).2 r.1 r.2 h
    exact ⟨r.1, r.2, rfl, hv.1, hv.2, h0, h8, hd⟩

end Fastboot
